import Mathlib

/-! # backlog-exporter: hierarchy builder, status filter, paginated fetch and renderers

A shallow embedding of

* `internal/backlog/types.go` (the records),
* `internal/exporter/exporter.go` (`getIncompleteStatusIDs`, `buildHierarchy`, `Run`,
  `generateFilename`),
* `internal/backlog/client.go` (`GetProject`, `GetStatuses`, `GetIssues`, `doRequest`),
* `internal/exporter/formatter.go` (`NewFormatter` and the three formatters),
* `internal/config/config.go` (`Validate`, `Merge`, `IsProjectID`, `GetProjectID`,
  `LoadFromEnv`),
* `cmd/backlog-tasks/main.go` (`run`, `classifyError`, `contains`, `containsImpl`),

followed by the properties established about them.

Conventions of the embedding.

* Go `int` is `Int`.  The only arithmetic is `childCount++`, `len(issues) - childCount`
  and `offset += maxCount`; none of them can leave the 64-bit range before the
  slices involved exhaust memory, so no wrap-around is modelled.
* A Go pointer `*T` that may be `nil` is `Option`; `*HierarchicalIssue` is an
  address into an explicit heap (`Ptr`, `Heap`), because `buildHierarchy` aliases
  the nodes between its index map and the returned slices.  The `*Issue` inside a
  node is kept by value: nodes are only made from issues that are present.
* `for { ... }` in `GetIssues` need not terminate, so the loop takes fuel and
  returns `none` when the fuel is exhausted.
* A renderer returns `Except Fault`: it panics on a nil pointer, and the recursion of
  `convertIssue` takes fuel, since a cyclic heap makes it run forever.
* Functions of the standard library are parameters: `time.Time.Format`
  (`TimeFormat`), `json.MarshalIndent` (`marshalIndent`, on the JSON document of the
  value), `json.Unmarshal` (`decode` functions, `unmarshal`), `unicode.IsDigit`
  (`isDigit`), `os.Getenv` (`getenv`), `time.Now`, `filepath.Join`, `os.WriteFile` and
  `os.Stat`.  `strconv.Itoa`, `strconv.Atoi` (for the 64-bit `int`) and the effect of
  `flag.Parse` are written out as definitions (`Itoa`, `Atoi`, `flagParse`).
* `contains` and `containsImpl` act on the bytes of a Go string (`goBytes`); the loop
  of `containsImpl` takes fuel, and a slice expression out of range is a `Fault`.
-/

namespace BacklogExporter

/-! ## Records of `internal/backlog/types.go` -/

/-- Instant in time (`time.Time`), kept as seconds since the epoch. -/
structure Time where
  unix : Int := 0
deriving DecidableEq, Repr

/-- Record `Status` of `types.go`. -/
structure Status where
  ID : Int := 0
  ProjectID : Int := 0
  Name : String := ""
  Color : String := ""
  DisplayOrder : Int := 0
deriving DecidableEq, Repr

/-- Record `Priority` of `types.go`. -/
structure Priority where
  ID : Int := 0
  Name : String := ""
deriving DecidableEq, Repr

/-- Record `User` of `types.go`. -/
structure User where
  ID : Int := 0
  UserID : String := ""
  Name : String := ""
  RoleType : Int := 0
  Lang : String := ""
  MailAddress : String := ""
deriving DecidableEq, Repr

/-- Record `IssueType` of `types.go`. -/
structure IssueType where
  ID : Int := 0
  ProjectID : Int := 0
  Name : String := ""
  Color : String := ""
  DisplayOrder : Int := 0
deriving DecidableEq, Repr

/-- Record `Issue` of `types.go`.  The two `*float64` fields (`EstimatedHours`,
`ActualHours`) are read by no function of the repository and are left out. -/
structure Issue where
  ID : Int := 0
  ProjectID : Int := 0
  IssueKey : String := ""
  KeyID : Int := 0
  IssueType : Option IssueType := none
  Summary : String := ""
  Description : String := ""
  Priority : Option Priority := none
  Status : Option Status := none
  Assignee : Option User := none
  StartDate : Option String := none
  DueDate : Option String := none
  ParentIssueID : Option Int := none
  CreatedUser : Option User := none
  Created : Time := {}
  UpdatedUser : Option User := none
  Updated : Time := {}
deriving DecidableEq, Repr

/-- Address of a `HierarchicalIssue` on the heap; `none` is Go's `nil`. -/
abbrev Ptr := Option Nat

/-- Record `HierarchicalIssue` of `types.go`: the wrapped issue and the slice of
pointers to the child nodes. -/
structure HierarchicalIssue where
  Issue : Issue
  Children : List Ptr
deriving DecidableEq, Repr

/-- Heap: the `HierarchicalIssue` values allocated so far; the value at address `a`
is the `a`-th element. -/
abbrev Heap := List HierarchicalIssue

/-- Record `ExportSummary` of `types.go`. -/
structure ExportSummary where
  Total : Int
  ParentIssues : Int
  ChildIssues : Int
deriving DecidableEq, Repr

/-! ## `map[int]*HierarchicalIssue` -/

/-- Go map from issue id to node address.  The newest binding of a key is first,
so an assignment to an existing key shadows the old binding. -/
abbrev IssueMap := List (Int × Nat)

/-- Assignment `m[k] = &node`. -/
def IssueMap.set (m : IssueMap) (k : Int) (a : Nat) : IssueMap := (k, a) :: m

/-- Two-valued lookup `v, ok := m[k]`: `none` stands for `ok = false`. -/
def IssueMap.get? : IssueMap → Int → Option Nat
  | [], _ => none
  | (k', a) :: m, k => if k' = k then some a else IssueMap.get? m k

/-- One-valued lookup `m[k]`: a missing key yields the zero value `nil`. -/
def IssueMap.index (m : IssueMap) (k : Int) : Ptr := IssueMap.get? m k

/-! ## `internal/exporter/exporter.go` -/

/-- Constant `defaultCompletedStatusID`. -/
def defaultCompletedStatusID : Int := 4

/-- Loop of `getIncompleteStatusIDs`: `ids` is the slice built so far. -/
def getIncompleteStatusIDs.loop : List Status → List Int → List Int
  | [], ids => ids
  | s :: rest, ids =>
    if s.ID = defaultCompletedStatusID ∨ s.Name = "完了" then
      getIncompleteStatusIDs.loop rest ids
    else
      getIncompleteStatusIDs.loop rest (ids ++ [s.ID])

/-- Function `Exporter.getIncompleteStatusIDs`. -/
def getIncompleteStatusIDs (statuses : List Status) : List Int :=
  getIncompleteStatusIDs.loop statuses []

/-- Statement `parent.Children = append(parent.Children, hi)` for the node at
address `parent`. -/
def appendChild : Heap → Nat → Ptr → Heap
  | [], _, _ => []
  | n :: h, 0, hi => { n with Children := n.Children ++ [hi] } :: h
  | n :: h, parent + 1, hi => n :: appendChild h parent hi

/-- First loop of `buildHierarchy`: one fresh node per issue, entered in the map
under the issue's id. -/
def buildHierarchy.indexLoop : List Issue → IssueMap → Heap → IssueMap × Heap
  | [], issueMap, heap => (issueMap, heap)
  | issue :: rest, issueMap, heap =>
    buildHierarchy.indexLoop rest (issueMap.set issue.ID heap.length)
      (heap ++ [{ Issue := issue, Children := [] }])

/-- State of the second loop of `buildHierarchy`. -/
structure LinkState where
  heap : Heap
  roots : List Ptr
  childCount : Int
deriving DecidableEq, Repr

/-- Body of the second loop of `buildHierarchy` for one issue. -/
def buildHierarchy.linkStep (issueMap : IssueMap) (st : LinkState) (issue : Issue) :
    LinkState :=
  let hi := issueMap.index issue.ID
  match issue.ParentIssueID with
  | some parentID =>
    match issueMap.get? parentID with
    | some parent =>
      { st with heap := appendChild st.heap parent hi, childCount := st.childCount + 1 }
    | none => { st with roots := st.roots ++ [hi] }
  | none => { st with roots := st.roots ++ [hi] }

/-- Second loop of `buildHierarchy`. -/
def buildHierarchy.linkLoop (issueMap : IssueMap) : List Issue → LinkState → LinkState
  | [], st => st
  | issue :: rest, st =>
    buildHierarchy.linkLoop issueMap rest (buildHierarchy.linkStep issueMap st issue)

/-- Result of `buildHierarchy`: the returned slice of root pointers and the summary,
together with the heap the pointers refer to. -/
structure Hierarchy where
  heap : Heap
  roots : List Ptr
  summary : ExportSummary
deriving DecidableEq, Repr

/-- Function `Exporter.buildHierarchy`. -/
def buildHierarchy (issues : List Issue) : Hierarchy :=
  let (issueMap, heap) := buildHierarchy.indexLoop issues [] []
  let st := buildHierarchy.linkLoop issueMap issues { heap := heap, roots := [], childCount := 0 }
  { heap := st.heap
    roots := st.roots
    summary :=
      { Total := (issues.length : Int)
        ParentIssues := (issues.length : Int) - st.childCount
        ChildIssues := st.childCount } }

/-! ## Reading a hierarchy -/

/-- Node stored at a pointer (`none` for `nil` or an unallocated address). -/
def Heap.node (h : Heap) : Ptr → Option HierarchicalIssue
  | none => none
  | some a => h[a]?

/-- Issue wrapped by the node at a pointer. -/
def Heap.issueAt (h : Heap) (p : Ptr) : Option Issue := (h.node p).map (·.Issue)

/-- Children slice of the node at a pointer. -/
def Heap.childrenAt (h : Heap) (p : Ptr) : List Ptr :=
  match h.node p with
  | some n => n.Children
  | none => []

/-! ## `internal/backlog/client.go` -/

/-- One element of `APIError.Errors`. -/
structure APIErrorEntry where
  Message : String := ""
  Code : Int := 0
  MoreInfo : String := ""
deriving DecidableEq, Repr

/-- Go `error` values that occur in the client: a plain message
(`fmt.Errorf` without `%w`, or an error of a library), a message wrapping another
error (`fmt.Errorf("<text>%w", err)`), and `*APIError`. -/
inductive GoError where
  | errorf (text : String)
  | wrapf (text : String) (err : GoError)
  | api (errors : List APIErrorEntry)
deriving DecidableEq, Repr

/-- Method `Error()`; for `*APIError` it is `APIError.Error` of `types.go`. -/
def GoError.Error : GoError → String
  | .errorf text => text
  | .wrapf text err => text ++ err.Error
  | .api [] => "unknown API error"
  | .api (e :: _) => e.Message

/-- Type `url.Values`: the keys with their value slices, in order of first use. -/
abbrev Values := List (String × List String)

/-- Index expression `v[key]`: the nil slice for a missing key. -/
def Values.get : Values → String → List String
  | [], _ => []
  | (k, vs) :: v, key => if k = key then vs else Values.get v key

/-- Method `Values.Set`: the key now holds exactly the one value. -/
def Values.Set : Values → String → String → Values
  | [], key, value => [(key, [value])]
  | (k, vs) :: v, key, value =>
    if k = key then (k, [value]) :: v else (k, vs) :: Values.Set v key value

/-- Method `Values.Add`: the value is appended to the key's slice. -/
def Values.Add : Values → String → String → Values
  | [], key, value => [(key, [value])]
  | (k, vs) :: v, key, value =>
    if k = key then (k, vs ++ [value]) :: v else (k, vs) :: Values.Add v key value

/-- Function `strconv.Itoa`. -/
def Itoa (i : Int) : String := toString i

/-- Constant `maxCount`. -/
def maxCount : Int := 100

/-- Record `APIClient` without its HTTP transport, which enters through
`PageSource`. -/
structure APIClient where
  baseURL : String := ""
  apiKey : String := ""
deriving DecidableEq, Repr

/-- Behaviour of `c.doRequest(ctx, endpoint, params, &issues)` as `GetIssues` sees
it: given how many requests were made before, the endpoint and the parameters, either
an error or the decoded page. -/
abbrev PageSource := Nat → String → Values → Except GoError (List Issue)

/-- Parameters that one iteration of `GetIssues` builds before calling
`doRequest`. -/
def GetIssues.params (projectID : Int) (statusIDs : List Int) (assigneeID : Option Int)
    (offset : Int) : Values :=
  let params : Values := []
  let params := params.Set "projectId[]" (Itoa projectID)
  let params := params.Set "count" (Itoa maxCount)
  let params := params.Set "offset" (Itoa offset)
  let params := params.Set "sort" "created"
  let params := params.Set "order" "asc"
  let params := statusIDs.foldl (fun ps statusID => ps.Add "statusId[]" (Itoa statusID)) params
  match assigneeID with
  | some a => params.Set "assigneeId[]" (Itoa a)
  | none => params

/-- Variables of `GetIssues` together with what it has done so far: the calls of
`doRequest` and of `progressFn`, in order. -/
structure FetchState where
  allIssues : List Issue
  offset : Int
  requests : List (String × Values)
  progress : List (Int × Int)
deriving DecidableEq, Repr

/-- What a call of `GetIssues` did and returned: `issues` and `err` are the two
return values (`nil` is `[]`, respectively `none`). -/
structure GetIssuesRun where
  requests : List (String × Values)
  progress : List (Int × Int)
  issues : List Issue
  err : Option GoError
deriving DecidableEq, Repr

/-- How the `for` loop of `GetIssues` is left: by `return nil, err` or by `break`. -/
inductive LoopExit where
  | returned (run : GetIssuesRun)
  | broke (st : FetchState)
deriving DecidableEq, Repr

/-- The `for` loop of `GetIssues`; `progressFn` tells whether a callback was supplied.
`none` means that the fuel ran out. -/
def GetIssues.loop (c : APIClient) (doRequest : PageSource) (projectID : Int)
    (statusIDs : List Int) (assigneeID : Option Int) (progressFn : Bool) :
    Nat → FetchState → Option LoopExit
  | 0, _ => none
  | fuel + 1, st =>
    let params := GetIssues.params projectID statusIDs assigneeID st.offset
    let endpoint := c.baseURL ++ "/issues"
    let requests := st.requests ++ [(endpoint, params)]
    match doRequest st.requests.length endpoint params with
    | .error err =>
      some (.returned
        { requests := requests, progress := st.progress, issues := [],
          err := some (.wrapf "failed to get issues: " err) })
    | .ok issues =>
      let allIssues := st.allIssues ++ issues
      let progress :=
        if progressFn then st.progress ++ [((allIssues.length : Int), -1)] else st.progress
      if (issues.length : Int) < maxCount then
        some (.broke { st with allIssues := allIssues, requests := requests, progress := progress })
      else
        GetIssues.loop c doRequest projectID statusIDs assigneeID progressFn fuel
          { allIssues := allIssues, offset := st.offset + maxCount,
            requests := requests, progress := progress }

/-- Function `APIClient.GetIssues`. -/
def GetIssues (c : APIClient) (doRequest : PageSource) (projectID : Int)
    (statusIDs : List Int) (assigneeID : Option Int) (progressFn : Bool) (fuel : Nat) :
    Option GetIssuesRun :=
  match GetIssues.loop c doRequest projectID statusIDs assigneeID progressFn fuel
      { allIssues := [], offset := 0, requests := [], progress := [] } with
  | none => none
  | some (.returned run) => some run
  | some (.broke st) =>
    some
      { requests := st.requests
        progress :=
          if progressFn then
            st.progress ++ [((st.allIssues.length : Int), (st.allIssues.length : Int))]
          else st.progress
        issues := st.allIssues
        err := none }

/-! ## Vocabulary of the statements -/

/-- Ids of a list of issues, in order. -/
def issueIDs (issues : List Issue) : List Int := issues.map (·.ID)

/-- The issue declares a parent and that parent's id is the id of some issue of the
list. -/
def hasFetchedParent (issues : List Issue) (i : Issue) : Bool :=
  match i.ParentIssueID with
  | some pid => decide (pid ∈ issueIDs issues)
  | none => false

/-- In the map, the issue's declared parent resolves to the node at address `a`. -/
def attachesTo (m : IssueMap) (a : Nat) (i : Issue) : Bool :=
  match i.ParentIssueID with
  | some pid => decide (m.get? pid = some a)
  | none => false

/-- In the map, the issue's declared parent resolves to some node. -/
def attaches (m : IssueMap) (i : Issue) : Bool :=
  match i.ParentIssueID with
  | some pid => (m.get? pid).isSome
  | none => false

/-- Node that the first loop of `buildHierarchy` allocates for an issue. -/
def freshNode (i : Issue) : HierarchicalIssue := { Issue := i, Children := [] }

/-- Index map that `buildHierarchy` holds once its first loop has finished. -/
def buildHierarchy.index (issues : List Issue) : IssueMap :=
  (buildHierarchy.indexLoop issues [] []).1

/-- Issue of the list that the declared parent of `i` refers to, if any. -/
def parentOf (issues : List Issue) (i : Issue) : Option Issue :=
  match i.ParentIssueID with
  | some pid => issues.find? (fun p => decide (p.ID = pid))
  | none => none

/-- Issue reached from `i` by following the parent reference `k` times. -/
def ancestor (issues : List Issue) : Nat → Issue → Option Issue
  | 0, i => some i
  | k + 1, i => (parentOf issues i).bind (ancestor issues k)

/-- Following parent references from an issue of the list never returns to it. -/
def ParentAcyclic (issues : List Issue) : Prop :=
  ∀ i ∈ issues, ∀ k : Nat, ancestor issues (k + 1) i ≠ some i

/-- The node at `p` has the pointer `q` in its `Children` slice. -/
def Heap.childEdge (h : Heap) (p q : Ptr) : Prop := q ∈ h.childrenAt p

/-- No node is reachable from itself through one or more `Children` links. -/
def Heap.Acyclic (h : Heap) : Prop := ∀ p : Ptr, ¬ Relation.TransGen h.childEdge p p

/-- Id of the issue wrapped by the node at a pointer. -/
def Heap.idAt (h : Heap) (p : Ptr) : Option Int := (h.issueAt p).map (·.ID)

/-- Ids of the issues wrapped by the returned roots, in order. -/
def Hierarchy.rootIDs (H : Hierarchy) : List (Option Int) := H.roots.map H.heap.idAt

/-- All attachments of the hierarchy as pairs (id of the parent node's issue, id of the
child node's issue), node by node. -/
def Hierarchy.attachments (H : Hierarchy) : List (Option Int × Option Int) :=
  (List.range H.heap.length).flatMap (fun a =>
    (H.heap.childrenAt (some a)).map (fun q => (H.heap.idAt (some a), H.heap.idAt q)))

/-- Issues of the scenario of `TestExporter_BuildHierarchy`: 100 and 200 declare no
parent, 101 declares 100. -/
def scenarioIssues : List Issue :=
  [{ ID := 100, IssueKey := "MYPROJ-100" },
   { ID := 101, IssueKey := "MYPROJ-101", ParentIssueID := some 100 },
   { ID := 200, IssueKey := "MYPROJ-200" }]

/-- An issue that declares itself as its parent. -/
def selfParentIssue : Issue := { ID := 1, IssueKey := "MYPROJ-1", ParentIssueID := some 1 }

/-- The scenario's child 101 listed before its parent 100. -/
def childFirstIssues : List Issue :=
  [{ ID := 101, IssueKey := "MYPROJ-101", ParentIssueID := some 100 },
   { ID := 100, IssueKey := "MYPROJ-100" }]

/-- The scenario's parent 100 listed before its child 101. -/
def parentFirstIssues : List Issue :=
  [{ ID := 100, IssueKey := "MYPROJ-100" },
   { ID := 101, IssueKey := "MYPROJ-101", ParentIssueID := some 100 }]

/-- Statuses of the scenario of `TestExporter_Run`. -/
def scenarioStatuses : List Status :=
  [{ ID := 1, Name := "未対応" }, { ID := 2, Name := "処理中" },
   { ID := 3, Name := "処理済み" }, { ID := 4, Name := "完了" }]

/-- Issues of the pages `0 .. k-1` of a page sequence, concatenated in order. -/
def fetchedUpTo (pages : Nat → List Issue) (k : Nat) : List Issue :=
  (List.range k).flatMap pages

/-- Call of `doRequest` that `GetIssues` makes in its iteration number `k` (counted
from zero): the endpoint and the parameters built for the offset `maxCount * k`. -/
def GetIssues.request (c : APIClient) (projectID : Int) (statusIDs : List Int)
    (assigneeID : Option Int) (k : Nat) : String × Values :=
  (c.baseURL ++ "/issues", GetIssues.params projectID statusIDs assigneeID (maxCount * (k : Int)))

/-- Calls of `progressFn` made inside the loop during the first `k` iterations. -/
def pageProgress (pages : Nat → List Issue) (k : Nat) : List (Int × Int) :=
  (List.range k).map (fun i => (((fetchedUpTo pages (i + 1)).length : Int), -1))

/-- Variables of `GetIssues` at the start of iteration number `k` when the earlier
iterations received the pages `pages 0 .. pages (k-1)`. -/
def stateAfter (c : APIClient) (projectID : Int) (statusIDs : List Int)
    (assigneeID : Option Int) (progressFn : Bool) (pages : Nat → List Issue) (k : Nat) :
    FetchState :=
  { allIssues := fetchedUpTo pages k
    offset := maxCount * (k : Int)
    requests := (List.range k).map (GetIssues.request c projectID statusIDs assigneeID)
    progress := if progressFn then pageProgress pages k else [] }

/-- Page source of `TestAPIClient_GetIssues_Pagination`: 100 issues for the first
request and 50 for every later one. -/
def paginationSource : PageSource :=
  fun n _ _ => .ok (if n = 0 then List.replicate 100 {} else List.replicate 50 {})

/-- Page source that answers the first request with 100 issues and every later one
with an empty page. -/
def fullThenEmptySource : PageSource :=
  fun n _ _ => .ok (if n = 0 then List.replicate 100 {} else [])

/-- Pages that `paginationSource` serves. -/
def paginationPages : Nat → List Issue :=
  fun n => if n = 0 then List.replicate 100 {} else List.replicate 50 {}

/-- Pages that `fullThenEmptySource` serves. -/
def fullThenEmptyPages : Nat → List Issue :=
  fun n => if n = 0 then List.replicate 100 {} else []

/-- Page source of `TestAPIClient_GetIssues`: 50 issues for every request. -/
def singlePageSource : PageSource :=
  fun _ _ _ => .ok (List.replicate 50 {})

/-! ## `doRequest` of `internal/backlog/client.go` -/

/-- Request that `doRequest` hands to the HTTP client.  The URL is
`endpoint + "?" + params.Encode()`; the query is kept as the `url.Values` that are
encoded into it. -/
structure HTTPRequest where
  endpoint : String
  query : Values
deriving DecidableEq, Repr

/-- What `doRequest` observes of one HTTP exchange: `http.NewRequestWithContext`
fails, `httpClient.Do` fails, `io.ReadAll` fails, or a response with its status code
and body arrives. -/
inductive HTTPResult where
  | requestError (err : GoError)
  | sendError (err : GoError)
  | readError (err : GoError)
  | response (StatusCode : Int) (body : String)
deriving DecidableEq, Repr

/-- Interface `HTTPClient` together with the server behind it: the answer may depend
on how many requests were made before. -/
abbrev HTTPClient := Nat → HTTPRequest → HTTPResult

/-- Keys present in the map, in order of first use. -/
def Values.keys (v : Values) : List String := v.map Prod.fst

/-- Request built by the first lines of `doRequest`: a nil `params` becomes the empty
map, and `apiKey` is set to the key of the client. -/
def doRequest.httpRequest (c : APIClient) (endpoint : String) (params : Option Values) :
    HTTPRequest :=
  let params : Values :=
    match params with
    | some ps => ps
    | none => []
  let params := params.Set "apiKey" c.apiKey
  { endpoint := endpoint, query := params }

/-- Function `APIClient.doRequest`, decoding the body into a value of type `α`.
The two uses of `json.Unmarshal` are the parameters `decodeError` (into `APIError`)
and `decode` (into `result`); `n` is the number of requests made before. -/
def doRequest {α : Type} (c : APIClient) (httpClient : HTTPClient)
    (decodeError : String → Except GoError (List APIErrorEntry))
    (decode : String → Except GoError α) (n : Nat) (endpoint : String)
    (params : Option Values) : Except GoError α :=
  match httpClient n (doRequest.httpRequest c endpoint params) with
  | .requestError err => .error (.wrapf "failed to create request: " err)
  | .sendError err => .error (.wrapf "failed to send request: " err)
  | .readError err => .error (.wrapf "failed to read response body: " err)
  | .response StatusCode body =>
    if StatusCode ≠ 200 then
      match decodeError body with
      | .ok errors =>
        if errors.length > 0 then .error (.api errors)
        else
          .error (.errorf
            ("API request failed with status " ++ Itoa StatusCode ++ ": " ++ body))
      | .error _ =>
        .error (.errorf
          ("API request failed with status " ++ Itoa StatusCode ++ ": " ++ body))
    else
      match decode body with
      | .error err => .error (.wrapf "failed to unmarshal response: " err)
      | .ok v => .ok v

/-- Page source that `GetIssues` uses in the program: `c.doRequest` decoding into
`[]*Issue`. -/
def APIClient.issuesSource (c : APIClient) (httpClient : HTTPClient)
    (decodeError : String → Except GoError (List APIErrorEntry))
    (decodeIssues : String → Except GoError (List Issue)) : PageSource :=
  fun n endpoint params => doRequest c httpClient decodeError decodeIssues n endpoint (some params)

/-- Page source that serves one page of 100 issues and fails on the second request. -/
def failingSource : PageSource :=
  fun n _ _ => if n = 0 then .ok (List.replicate 100 {}) else .error (.errorf "connection reset")

/-- Calls of `doRequest` made by the time the loop of `GetIssues` is left. -/
def LoopExit.requests : LoopExit → List (String × Values)
  | .returned run => run.requests
  | .broke st => st.requests

/-- Query of the HTTP request that `doRequest` sends for a call recorded by
`GetIssues` (endpoint and parameters). -/
def GetIssues.httpQuery (c : APIClient) (call : String × Values) : Values :=
  (doRequest.httpRequest c call.1 (some call.2)).query

/-! ## More records of `internal/backlog/types.go` -/

/-- Record `Project` of `types.go`. -/
structure Project where
  ID : Int := 0
  ProjectKey : String := ""
  Name : String := ""
  ChartEnabled : Bool := false
  SubtaskingEnabled : Bool := false
  TextFormattingRule : String := ""
deriving DecidableEq, Repr

/-- Record `ExportData` of `types.go`.  `Project` is a pointer (`none` is `nil`), and
`Issues` are pointers into `heap`, the memory that holds the hierarchy nodes. -/
structure ExportData where
  Project : Option Project
  ExportedAt : Time
  Summary : ExportSummary
  heap : Heap
  Issues : List Ptr
deriving DecidableEq, Repr

/-! ## `internal/exporter/formatter.go` -/

/-- Ways in which a function fails to return: a nil pointer is dereferenced (a panic),
the recursion or the loop does not end within the fuel given to the model, or the
bounds of a slice expression are out of range (a panic). -/
inductive Fault where
  | nilDereference
  | outOfFuel
  | sliceOutOfRange
deriving DecidableEq, Repr

/-- Method `time.Time.Format` of the standard library, a parameter of the renderers:
the time and the layout give the text. -/
abbrev TimeFormat := Time → String → String

/-- Type `config.OutputFormat`. -/
abbrev OutputFormat := String

/-- Constant `config.FormatTXT`. -/
def FormatTXT : OutputFormat := "txt"

/-- Constant `config.FormatJSON`. -/
def FormatJSON : OutputFormat := "json"

/-- Constant `config.FormatMarkdown`. -/
def FormatMarkdown : OutputFormat := "markdown"

/-- Implementations of the interface `Formatter`. -/
inductive Formatter where
  | TXTFormatter
  | MarkdownFormatter
  | JSONFormatter
deriving DecidableEq, Repr

/-- Function `NewFormatter`. -/
def NewFormatter (format : OutputFormat) : Formatter :=
  if format = FormatJSON then .JSONFormatter
  else if format = FormatMarkdown then .MarkdownFormatter
  else .TXTFormatter

/-- Method `Extension` of the three formatters. -/
def Formatter.Extension : Formatter → String
  | .TXTFormatter => "txt"
  | .MarkdownFormatter => "md"
  | .JSONFormatter => "json"

/-! ### Plain text -/

/-- Method `TXTFormatter.getStatusName`. -/
def TXTFormatter.getStatusName (issue : Issue) : String :=
  match issue.Status with
  | some status => status.Name
  | none => "-"

/-- Method `TXTFormatter.getPriorityName`. -/
def TXTFormatter.getPriorityName (issue : Issue) : String :=
  match issue.Priority with
  | some priority => priority.Name
  | none => "-"

/-- Method `TXTFormatter.getAssigneeName`. -/
def TXTFormatter.getAssigneeName (issue : Issue) : String :=
  match issue.Assignee with
  | some assignee => assignee.Name
  | none => "(未割当)"

/-- Method `TXTFormatter.getDueDate`. -/
def TXTFormatter.getDueDate (issue : Issue) : String :=
  match issue.DueDate with
  | some dueDate => if dueDate ≠ "" then dueDate else "-"
  | none => "-"

/-- Loop over `hi.Children` in `TXTFormatter.formatIssue`: `len` is
`len(hi.Children)` and `i` the index of the first child of the list.  The result is
the text written to the builder. -/
def TXTFormatter.formatChildren (h : Heap) (len : Nat) : Nat → List Ptr → Except Fault String
  | _, [] => .ok ""
  | i, child :: rest =>
    match h.node child with
    | none => .error .nilDereference
    | some c =>
      let isLast : Bool := decide ((i : Int) = (len : Int) - 1)
      let connector := if isLast then "  └─ " else "  ├─ "
      let heading := "[" ++ c.Issue.IssueKey ++ "] " ++ c.Issue.Summary ++ "\n"
      let linePfx := if isLast then "       " else "  │    "
      let fields :=
        (linePfx ++ "状態: " ++ TXTFormatter.getStatusName c.Issue ++ "\n") ++
        (linePfx ++ "優先度: " ++ TXTFormatter.getPriorityName c.Issue ++ "\n") ++
        (linePfx ++ "担当者: " ++ TXTFormatter.getAssigneeName c.Issue ++ "\n") ++
        (linePfx ++ "期限日: " ++ TXTFormatter.getDueDate c.Issue ++ "\n")
      let bar := if !isLast then "  │\n" else ""
      match TXTFormatter.formatChildren h len (i + 1) rest with
      | .error fault => .error fault
      | .ok written => .ok (connector ++ heading ++ fields ++ bar ++ written)

/-- Method `TXTFormatter.formatIssue`: the text written to the builder. -/
def TXTFormatter.formatIssue (timeFormat : TimeFormat) (h : Heap) (hi : Ptr)
    (isChild : Bool) : Except Fault String :=
  match h.node hi with
  | none => .error .nilDereference
  | some node =>
    let issue := node.Issue
    let pfx := if isChild then "     " else ""
    let fields :=
      (pfx ++ "[" ++ issue.IssueKey ++ "] " ++ issue.Summary ++ "\n") ++
      (pfx ++ "  状態: " ++ TXTFormatter.getStatusName issue ++ "\n") ++
      (pfx ++ "  優先度: " ++ TXTFormatter.getPriorityName issue ++ "\n") ++
      (pfx ++ "  担当者: " ++ TXTFormatter.getAssigneeName issue ++ "\n") ++
      (pfx ++ "  期限日: " ++ TXTFormatter.getDueDate issue ++ "\n")
    let dates :=
      if !isChild then
        (pfx ++ "  作成日: " ++ timeFormat issue.Created "2006-01-02" ++ "\n") ++
        (pfx ++ "  更新日: " ++ timeFormat issue.Updated "2006-01-02" ++ "\n")
      else ""
    if node.Children.length > 0 then
      match TXTFormatter.formatChildren h node.Children.length 0 node.Children with
      | .error fault => .error fault
      | .ok written => .ok (fields ++ dates ++ "\n" ++ written)
    else .ok (fields ++ dates)

/-- Header that `TXTFormatter.Format` writes first. -/
def TXTFormatter.header (timeFormat : TimeFormat) (project : Project) (exportedAt : Time)
    (summary : ExportSummary) : String :=
  "================================================================================\n" ++
  ("プロジェクト: " ++ project.ProjectKey ++ " - " ++ project.Name ++ "\n") ++
  ("取得日時: " ++ timeFormat exportedAt "2006-01-02 15:04:05" ++ "\n") ++
  ("未完了タスク数: " ++ Itoa summary.Total ++ "件（親課題: " ++ Itoa summary.ParentIssues ++
    "件、子課題: " ++ Itoa summary.ChildIssues ++ "件）\n") ++
  "================================================================================\n\n"

/-- Loop over `data.Issues` in `TXTFormatter.Format`: `len` is `len(data.Issues)` and
`i` the index of the first issue of the list. -/
def TXTFormatter.formatRoots (timeFormat : TimeFormat) (h : Heap) (len : Nat) :
    Nat → List Ptr → Except Fault String
  | _, [] => .ok ""
  | i, issue :: rest =>
    match TXTFormatter.formatIssue timeFormat h issue false with
    | .error fault => .error fault
    | .ok block =>
      let rule :=
        if (i : Int) < (len : Int) - 1 then
          "\n--------------------------------------------------------------------------------\n\n"
        else ""
      match TXTFormatter.formatRoots timeFormat h len (i + 1) rest with
      | .error fault => .error fault
      | .ok written => .ok (block ++ rule ++ written)

/-- Method `TXTFormatter.Format`: the bytes and the error it returns. -/
def TXTFormatter.Format (timeFormat : TimeFormat) (data : ExportData) :
    Except Fault (String × Option GoError) :=
  match data.Project with
  | none => .error .nilDereference
  | some project =>
    match TXTFormatter.formatRoots timeFormat data.heap data.Issues.length 0 data.Issues with
    | .error fault => .error fault
    | .ok written =>
      .ok (TXTFormatter.header timeFormat project data.ExportedAt data.Summary ++ written, none)

/-! ### Markdown -/

/-- Method `MarkdownFormatter.getStatusName`. -/
def MarkdownFormatter.getStatusName (issue : Issue) : String :=
  match issue.Status with
  | some status => status.Name
  | none => "-"

/-- Method `MarkdownFormatter.getPriorityName`. -/
def MarkdownFormatter.getPriorityName (issue : Issue) : String :=
  match issue.Priority with
  | some priority => priority.Name
  | none => "-"

/-- Method `MarkdownFormatter.getAssigneeName`. -/
def MarkdownFormatter.getAssigneeName (issue : Issue) : String :=
  match issue.Assignee with
  | some assignee => assignee.Name
  | none => "-"

/-- Method `MarkdownFormatter.getDueDate`. -/
def MarkdownFormatter.getDueDate (issue : Issue) : String :=
  match issue.DueDate with
  | some dueDate => if dueDate ≠ "" then dueDate else "-"
  | none => "-"

/-- Loop over `hi.Children` in `MarkdownFormatter.formatIssue`. -/
def MarkdownFormatter.formatChildren (h : Heap) : List Ptr → Except Fault String
  | [] => .ok ""
  | child :: rest =>
    match h.node child with
    | none => .error .nilDereference
    | some c =>
      let block :=
        ("#### [" ++ c.Issue.IssueKey ++ "] " ++ c.Issue.Summary ++ "\n") ++
        "| 項目 | 内容 |\n" ++
        "|------|------|\n" ++
        ("| 状態 | " ++ MarkdownFormatter.getStatusName c.Issue ++ " |\n") ++
        ("| 優先度 | " ++ MarkdownFormatter.getPriorityName c.Issue ++ " |\n") ++
        ("| 担当者 | " ++ MarkdownFormatter.getAssigneeName c.Issue ++ " |\n") ++
        ("| 期限日 | " ++ MarkdownFormatter.getDueDate c.Issue ++ " |\n") ++
        "\n"
      match MarkdownFormatter.formatChildren h rest with
      | .error fault => .error fault
      | .ok written => .ok (block ++ written)

/-- Method `MarkdownFormatter.formatIssue`: the text written to the builder. -/
def MarkdownFormatter.formatIssue (timeFormat : TimeFormat) (h : Heap) (hi : Ptr) :
    Except Fault String :=
  match h.node hi with
  | none => .error .nilDereference
  | some node =>
    let issue := node.Issue
    let table :=
      ("## [" ++ issue.IssueKey ++ "] " ++ issue.Summary ++ "\n") ++
      "| 項目 | 内容 |\n" ++
      "|------|------|\n" ++
      ("| 状態 | " ++ MarkdownFormatter.getStatusName issue ++ " |\n") ++
      ("| 優先度 | " ++ MarkdownFormatter.getPriorityName issue ++ " |\n") ++
      ("| 担当者 | " ++ MarkdownFormatter.getAssigneeName issue ++ " |\n") ++
      ("| 期限日 | " ++ MarkdownFormatter.getDueDate issue ++ " |\n") ++
      ("| 作成日 | " ++ timeFormat issue.Created "2006-01-02" ++ " |\n") ++
      ("| 更新日 | " ++ timeFormat issue.Updated "2006-01-02" ++ " |\n")
    if node.Children.length > 0 then
      match MarkdownFormatter.formatChildren h node.Children with
      | .error fault => .error fault
      | .ok written => .ok (table ++ "\n### 子課題\n\n" ++ written)
    else .ok table

/-- Header that `MarkdownFormatter.Format` writes first. -/
def MarkdownFormatter.header (timeFormat : TimeFormat) (project : Project)
    (exportedAt : Time) (summary : ExportSummary) : String :=
  ("# " ++ project.ProjectKey ++ " - " ++ project.Name ++ " 未完了タスク一覧\n\n") ++
  ("> 取得日時: " ++ timeFormat exportedAt "2006-01-02 15:04:05" ++ "  \n") ++
  ("> 未完了タスク数: " ++ Itoa summary.Total ++ "件（親課題: " ++ Itoa summary.ParentIssues ++
    "件、子課題: " ++ Itoa summary.ChildIssues ++ "件）\n\n") ++
  "---\n\n"

/-- Loop over `data.Issues` in `MarkdownFormatter.Format`. -/
def MarkdownFormatter.formatRoots (timeFormat : TimeFormat) (h : Heap) :
    List Ptr → Except Fault String
  | [] => .ok ""
  | issue :: rest =>
    match MarkdownFormatter.formatIssue timeFormat h issue with
    | .error fault => .error fault
    | .ok block =>
      match MarkdownFormatter.formatRoots timeFormat h rest with
      | .error fault => .error fault
      | .ok written => .ok (block ++ "\n---\n\n" ++ written)

/-- Method `MarkdownFormatter.Format`: the bytes and the error it returns. -/
def MarkdownFormatter.Format (timeFormat : TimeFormat) (data : ExportData) :
    Except Fault (String × Option GoError) :=
  match data.Project with
  | none => .error .nilDereference
  | some project =>
    match MarkdownFormatter.formatRoots timeFormat data.heap data.Issues with
    | .error fault => .error fault
    | .ok written =>
      .ok (MarkdownFormatter.header timeFormat project data.ExportedAt data.Summary ++ written,
        none)

/-! ### JSON -/

/-- JSON document, the input of `json.MarshalIndent` once the Go value has been read
through its field tags. -/
inductive Json where
  | null
  | num (n : Int)
  | str (s : String)
  | arr (items : List Json)
  | obj (fields : List (String × Json))
deriving Repr

/-- Value of a key of a JSON object. -/
def Json.field : Json → String → Option Json
  | .obj fields, key => fields.lookup key
  | _, _ => none

/-- Record `jsonProject`. -/
structure jsonProject where
  ID : Int
  Key : String
  Name : String
deriving DecidableEq, Repr

/-- Record `jsonSummary`. -/
structure jsonSummary where
  Total : Int
  ParentIssues : Int
  ChildIssues : Int
deriving DecidableEq, Repr

/-- Record `jsonIssue`.  `Children` is a slice that `convertIssue` creates with `make`,
so it is never nil. -/
inductive jsonIssue where
  | mk (ID : Int) (IssueKey : String) (Summary : String) (Status : String)
      (Priority : String) (Assignee : Option String) (DueDate : Option String)
      (CreatedAt : String) (UpdatedAt : String) (Children : List jsonIssue)
deriving Repr

/-- Field `ID` of `jsonIssue`. -/
def jsonIssue.ID : jsonIssue → Int
  | .mk id _ _ _ _ _ _ _ _ _ => id

/-- Field `IssueKey` of `jsonIssue`. -/
def jsonIssue.IssueKey : jsonIssue → String
  | .mk _ key _ _ _ _ _ _ _ _ => key

/-- Field `Summary` of `jsonIssue`. -/
def jsonIssue.Summary : jsonIssue → String
  | .mk _ _ summary _ _ _ _ _ _ _ => summary

/-- Field `Status` of `jsonIssue`. -/
def jsonIssue.Status : jsonIssue → String
  | .mk _ _ _ status _ _ _ _ _ _ => status

/-- Field `Priority` of `jsonIssue`. -/
def jsonIssue.Priority : jsonIssue → String
  | .mk _ _ _ _ priority _ _ _ _ _ => priority

/-- Field `Assignee` of `jsonIssue`. -/
def jsonIssue.Assignee : jsonIssue → Option String
  | .mk _ _ _ _ _ assignee _ _ _ _ => assignee

/-- Field `DueDate` of `jsonIssue`. -/
def jsonIssue.DueDate : jsonIssue → Option String
  | .mk _ _ _ _ _ _ dueDate _ _ _ => dueDate

/-- Field `Children` of `jsonIssue`. -/
def jsonIssue.Children : jsonIssue → List jsonIssue
  | .mk _ _ _ _ _ _ _ _ _ children => children

/-- Record `jsonExportData`.  `Issues` is created with `make`, so it is never nil. -/
structure jsonExportData where
  Project : jsonProject
  ExportedAt : String
  Summary : jsonSummary
  Issues : List jsonIssue

/-- JSON value of a `*string` field: `null` for nil. -/
def Json.ofStringPtr : Option String → Json
  | some s => .str s
  | none => .null

mutual
/-- JSON document of a `jsonIssue`, key by key as its field tags say. -/
def jsonIssue.toJson : jsonIssue → Json
  | .mk id key summary status priority assignee dueDate createdAt updatedAt children =>
    .obj
      [("id", .num id), ("issueKey", .str key), ("summary", .str summary),
       ("status", .str status), ("priority", .str priority),
       ("assignee", Json.ofStringPtr assignee), ("dueDate", Json.ofStringPtr dueDate),
       ("createdAt", .str createdAt), ("updatedAt", .str updatedAt),
       ("children", .arr (jsonIssue.toJsonList children))]
/-- JSON documents of a slice of `jsonIssue`. -/
def jsonIssue.toJsonList : List jsonIssue → List Json
  | [] => []
  | issue :: rest => issue.toJson :: jsonIssue.toJsonList rest
end

/-- JSON document of a `jsonExportData`, key by key as its field tags say. -/
def jsonExportData.toJson (output : jsonExportData) : Json :=
  .obj
    [("project",
        .obj [("id", .num output.Project.ID), ("key", .str output.Project.Key),
          ("name", .str output.Project.Name)]),
     ("exportedAt", .str output.ExportedAt),
     ("summary",
        .obj [("total", .num output.Summary.Total),
          ("parentIssues", .num output.Summary.ParentIssues),
          ("childIssues", .num output.Summary.ChildIssues)]),
     ("issues", .arr (jsonIssue.toJsonList output.Issues))]

/-- Constant `time.RFC3339`. -/
def RFC3339 : String := "2006-01-02T15:04:05Z07:00"

/-- Method `JSONFormatter.getStatusName`. -/
def JSONFormatter.getStatusName (issue : Issue) : String :=
  match issue.Status with
  | some status => status.Name
  | none => ""

/-- Method `JSONFormatter.getPriorityName`. -/
def JSONFormatter.getPriorityName (issue : Issue) : String :=
  match issue.Priority with
  | some priority => priority.Name
  | none => ""

/-- Method `JSONFormatter.getAssigneeName`: a pointer to the name, or nil. -/
def JSONFormatter.getAssigneeName (issue : Issue) : Option String :=
  match issue.Assignee with
  | some assignee => some assignee.Name
  | none => none

/-- Loop `for _, x := range xs { out = append(out, f(x)) }` for an `f` that may fail
to return. -/
def appendEach {β : Type} (f : Ptr → Except Fault β) : List Ptr → Except Fault (List β)
  | [] => .ok []
  | x :: rest =>
    match f x with
    | .error fault => .error fault
    | .ok y =>
      match appendEach f rest with
      | .error fault => .error fault
      | .ok ys => .ok (y :: ys)

/-- Method `JSONFormatter.convertIssue`; the fuel bounds the depth of the recursion. -/
def JSONFormatter.convertIssue (timeFormat : TimeFormat) (h : Heap) :
    Nat → Ptr → Except Fault jsonIssue
  | 0, _ => .error .outOfFuel
  | fuel + 1, hi =>
    match h.node hi with
    | none => .error .nilDereference
    | some node =>
      let issue := node.Issue
      match appendEach (JSONFormatter.convertIssue timeFormat h fuel) node.Children with
      | .error fault => .error fault
      | .ok children =>
        .ok (.mk issue.ID issue.IssueKey issue.Summary (JSONFormatter.getStatusName issue)
          (JSONFormatter.getPriorityName issue) (JSONFormatter.getAssigneeName issue)
          issue.DueDate (timeFormat issue.Created RFC3339) (timeFormat issue.Updated RFC3339)
          children)

/-- Structure-building step of `JSONFormatter.Format`: the value `output` that is
handed to `json.MarshalIndent`. -/
def JSONFormatter.build (timeFormat : TimeFormat) (fuel : Nat) (data : ExportData) :
    Except Fault jsonExportData :=
  match data.Project with
  | none => .error .nilDereference
  | some project =>
    match appendEach (JSONFormatter.convertIssue timeFormat data.heap fuel) data.Issues with
    | .error fault => .error fault
    | .ok issues =>
      .ok
        { Project := { ID := project.ID, Key := project.ProjectKey, Name := project.Name }
          ExportedAt := timeFormat data.ExportedAt RFC3339
          Summary :=
            { Total := data.Summary.Total
              ParentIssues := data.Summary.ParentIssues
              ChildIssues := data.Summary.ChildIssues }
          Issues := issues }

/-- Method `JSONFormatter.Format`.  The call `json.MarshalIndent(output, "", "  ")` of
the standard library is the parameter `marshalIndent`, applied to the JSON document
of `output`. -/
def JSONFormatter.Format (timeFormat : TimeFormat)
    (marshalIndent : Json → Except GoError String) (fuel : Nat) (data : ExportData) :
    Except Fault (String × Option GoError) :=
  match JSONFormatter.build timeFormat fuel data with
  | .error fault => .error fault
  | .ok output =>
    match marshalIndent output.toJson with
    | .ok bytes => .ok (bytes, none)
    | .error err => .ok ("", some err)

/-- Method `Format` of the interface `Formatter`. -/
def Formatter.Format (f : Formatter) (timeFormat : TimeFormat)
    (marshalIndent : Json → Except GoError String) (fuel : Nat) (data : ExportData) :
    Except Fault (String × Option GoError) :=
  match f with
  | .TXTFormatter => TXTFormatter.Format timeFormat data
  | .MarkdownFormatter => MarkdownFormatter.Format timeFormat data
  | .JSONFormatter => JSONFormatter.Format timeFormat marshalIndent fuel data

/-- Issue with nothing but id, key and summary: no status, priority, assignee or due
date (the issue of `TestFormatter_NilValues`). -/
def bareIssue : Issue := { ID := 1, IssueKey := "TEST-1", Summary := "Test" }

/-- Heap that holds one node, wrapping `bareIssue`, without children. -/
def bareHeap : Heap := [{ Issue := bareIssue, Children := [] }]

/-- The node at `p` exists and so do all nodes below it, and the tree below `p` has at
most `d` levels: `p` is a node of depth at most `d`. -/
def Heap.depthOK (h : Heap) : Nat → Ptr → Bool
  | 0, _ => false
  | d + 1, p =>
    match h.node p with
    | none => false
    | some node => node.Children.all (Heap.depthOK h d)

/-- Issue keys of a tree of issues: the key of a node and the trees of its children,
in order. -/
inductive KeyTree where
  | node (key : String) (children : List KeyTree)
deriving Repr

mutual
/-- Key tree of a `jsonIssue`. -/
def jsonIssue.keyTree : jsonIssue → KeyTree
  | .mk _ key _ _ _ _ _ _ _ children => .node key (jsonIssue.keyTreeList children)
/-- Key trees of a slice of `jsonIssue`. -/
def jsonIssue.keyTreeList : List jsonIssue → List KeyTree
  | [] => []
  | issue :: rest => issue.keyTree :: jsonIssue.keyTreeList rest
end

/-- Key tree of the hierarchy node at a pointer, read off the heap; it fails as
`convertIssue` does, on a nil pointer or when the fuel runs out. -/
def Heap.keyTree (h : Heap) : Nat → Ptr → Except Fault KeyTree
  | 0, _ => .error .outOfFuel
  | fuel + 1, p =>
    match h.node p with
    | none => .error .nilDereference
    | some node =>
      match appendEach (Heap.keyTree h fuel) node.Children with
      | .error fault => .error fault
      | .ok children => .ok (.node node.Issue.IssueKey children)

mutual
/-- Number of issue objects in the document of a `jsonIssue`: itself and all its
descendants. -/
def jsonIssue.count : jsonIssue → Nat
  | .mk _ _ _ _ _ _ _ _ _ children => 1 + jsonIssue.countList children
/-- Number of issue objects in the documents of a slice of `jsonIssue`. -/
def jsonIssue.countList : List jsonIssue → Nat
  | [] => 0
  | issue :: rest => issue.count + jsonIssue.countList rest
end

/-- Number of nodes at all depths of the tree below a pointer, down to `d` levels. -/
def Heap.countNodes (h : Heap) : Nat → Ptr → Nat
  | 0, _ => 0
  | d + 1, p =>
    match h.node p with
    | none => 0
    | some node => 1 + (node.Children.map (Heap.countNodes h d)).sum

/-- Bundle that `Run` assembles from the project, the time of the export and the
result of `buildHierarchy`. -/
def Hierarchy.exportData (H : Hierarchy) (project : Option Project) (exportedAt : Time) :
    ExportData :=
  { Project := project
    ExportedAt := exportedAt
    Summary := H.summary
    heap := H.heap
    Issues := H.roots }

/-- Time format that returns the layout itself, whatever the time. -/
def layoutOnly : TimeFormat := fun _ layout => layout

/-- Heap with a chain of three nodes: node 0 wraps `P-1` and has the child 1, which
wraps `P-2` and has the child 2, which wraps `P-3`. -/
def deepHeap : Heap :=
  [{ Issue := { ID := 1, IssueKey := "P-1", Summary := "root" }, Children := [some 1] },
   { Issue := { ID := 2, IssueKey := "P-2", Summary := "child" }, Children := [some 2] },
   { Issue := { ID := 3, IssueKey := "P-3", Summary := "grandchild" }, Children := [] }]

/-- Heap like `deepHeap`, except that node 1 has no children. -/
def shallowHeap : Heap :=
  [{ Issue := { ID := 1, IssueKey := "P-1", Summary := "root" }, Children := [some 1] },
   { Issue := { ID := 2, IssueKey := "P-2", Summary := "child" }, Children := [] },
   { Issue := { ID := 3, IssueKey := "P-3", Summary := "grandchild" }, Children := [] }]

/-- Bundle over a heap with the single root 0. -/
def bundleOver (h : Heap) : ExportData :=
  { Project := some { ID := 1, ProjectKey := "P", Name := "Project" }
    ExportedAt := {}
    Summary := { Total := 3, ParentIssues := 1, ChildIssues := 2 }
    heap := h
    Issues := [some 0] }

/-- Encoder used in examples: every document is written as the same short text. -/
def sampleMarshal : Json → Except GoError String := fun _ => .ok "{ }"

/-- Document that `JSONFormatter.Format` hands to the encoder, if the
structure-building step returns. -/
def JSONFormatter.document (timeFormat : TimeFormat) (fuel : Nat) (data : ExportData) :
    Option Json :=
  match JSONFormatter.build timeFormat fuel data with
  | .ok output => some output.toJson
  | .error _ => none

/-- Document of the bundle of an export without issues. -/
def emptyDocument (timeFormat : TimeFormat) (project : Project) (exportedAt : Time) : Json :=
  .obj
    [("project",
        .obj [("id", .num project.ID), ("key", .str project.ProjectKey),
          ("name", .str project.Name)]),
     ("exportedAt", .str (timeFormat exportedAt RFC3339)),
     ("summary",
        .obj [("total", .num 0), ("parentIssues", .num 0), ("childIssues", .num 0)]),
     ("issues", .arr [])]

/-- Bundle of `TestFormatter_NilValues`: one root, whose issue has neither status nor
priority, assignee or due date. -/
def bareBundle : ExportData :=
  { Project := some { ID := 1, ProjectKey := "TEST", Name := "Test" }
    ExportedAt := {}
    Summary := { Total := 1, ParentIssues := 1, ChildIssues := 0 }
    heap := bareHeap
    Issues := [some 0] }

/-! ## `internal/config/config.go` -/

/-- Record `Config`. -/
structure Config where
  APIKey : String := ""
  Space : String := ""
  Domain : String := ""
  Project : String := ""
  Output : String := ""
  Format : OutputFormat := ""
  Assignee : Option Int := none
deriving DecidableEq, Repr

/-- Method `Config.Validate`: the configuration as the call leaves it, and the error
it returns. -/
def Config.Validate (c : Config) : Config × Option GoError :=
  if c.APIKey = "" then
    (c, some (.errorf "API key is required. Set --api-key or BACKLOG_API_KEY"))
  else if c.Space = "" then
    (c, some (.errorf "space is required. Use --space or -s"))
  else if c.Project = "" then
    (c, some (.errorf "project is required. Use --project or -p"))
  else
    let c := if c.Domain = "" then { c with Domain := "backlog.com" } else c
    let c := if c.Output = "" then { c with Output := "./" } else c
    let c := if c.Format = "" then { c with Format := FormatTXT } else c
    if c.Format = FormatTXT ∨ c.Format = FormatJSON ∨ c.Format = FormatMarkdown then
      (c, none)
    else
      (c, some (.errorf ("invalid format: " ++ c.Format ++ ". Use txt, json, or markdown")))

/-- Method `Config.Merge`: the receiver after the call. -/
def Config.Merge (c other : Config) : Config :=
  let c := if other.APIKey ≠ "" then { c with APIKey := other.APIKey } else c
  let c := if other.Space ≠ "" then { c with Space := other.Space } else c
  let c := if other.Domain ≠ "" then { c with Domain := other.Domain } else c
  let c := if other.Project ≠ "" then { c with Project := other.Project } else c
  let c := if other.Output ≠ "" then { c with Output := other.Output } else c
  let c := if other.Format ≠ "" then { c with Format := other.Format } else c
  match other.Assignee with
  | some a => { c with Assignee := some a }
  | none => c

/-- Configuration of `TestConfig_Validate_Defaults`. -/
def minimalConfig : Config := { APIKey := "test-key", Space := "mycompany", Project := "MYPROJ" }

/-- Base configuration of `TestConfig_Merge`. -/
def mergeBase : Config := { APIKey := "base-key", Space := "base-space", Domain := "base-domain" }

/-- Configuration merged into the base in `TestConfig_Merge`. -/
def mergeOther : Config :=
  { APIKey := "other-key", Project := "other-project", Output := "./output",
    Format := FormatJSON, Assignee := some 123 }

/-! ## `GetProject` and `GetStatuses` of `internal/backlog/client.go` -/

/-- Function `APIClient.GetProject`; `pathEscape` is `url.PathEscape` of the standard
library, and `n` the number of requests made before. -/
def GetProject (c : APIClient) (httpClient : HTTPClient)
    (decodeError : String → Except GoError (List APIErrorEntry))
    (decodeProject : String → Except GoError Project) (pathEscape : String → String)
    (n : Nat) (projectIDOrKey : String) : Option Project × Option GoError :=
  let endpoint := c.baseURL ++ "/projects/" ++ pathEscape projectIDOrKey
  match doRequest c httpClient decodeError decodeProject n endpoint none with
  | .error err => (none, some (.wrapf "failed to get project: " err))
  | .ok project => (some project, none)

/-- Function `APIClient.GetStatuses`. -/
def GetStatuses (c : APIClient) (httpClient : HTTPClient)
    (decodeError : String → Except GoError (List APIErrorEntry))
    (decodeStatuses : String → Except GoError (List Status)) (pathEscape : String → String)
    (n : Nat) (projectIDOrKey : String) : List Status × Option GoError :=
  let endpoint := c.baseURL ++ "/projects/" ++ pathEscape projectIDOrKey ++ "/statuses"
  match doRequest c httpClient decodeError decodeStatuses n endpoint none with
  | .error err => ([], some (.wrapf "failed to get statuses: " err))
  | .ok statuses => (statuses, none)

/-- Server of `TestAPIClient_GetProject_Error`: every request is answered with status
404 and a body that stands for the payload with the one error `Project not found`. -/
def notFoundServer : HTTPClient :=
  fun _ _ => .response 404 "not-found-payload"

/-- Decoder of error payloads that reads the body of `notFoundServer` and nothing
else. -/
def notFoundDecoder : String → Except GoError (List APIErrorEntry) :=
  fun body =>
    if body = "not-found-payload" then .ok [{ Message := "Project not found", Code := 6 }]
    else .error (.errorf "invalid character")

/-! ## `Exporter.Run` of `internal/exporter/exporter.go` -/

/-- What a call of `Client.GetIssues` does and returns: the calls it makes of the
progress callback, and its two return values. -/
structure IssuesResult where
  progress : List (Int × Int)
  issues : List Issue
  err : Option GoError
deriving DecidableEq, Repr

/-- Interface `backlog.Client`: what each method returns for its arguments.  `Run`
calls each method at most once, so the client's own state does not appear.  `none` for
`GetIssues` is a call that does not return. -/
structure Client where
  GetProject : String → Option Project × Option GoError
  GetStatuses : String → List Status × Option GoError
  GetIssues : Int → List Int → Option Int → Option IssuesResult

/-- What `Run` does to the outside, in order: a line handed to `output.Printf`, a call
of a method of the client, a call of the formatter, and a call of `os.WriteFile`. -/
inductive Event where
  | printf (text : String)
  | getProject (projectIDOrKey : String)
  | getStatuses (projectIDOrKey : String)
  | getIssues (projectID : Int) (statusIDs : List Int) (assigneeID : Option Int)
  | format (data : ExportData)
  | writeFile (name : String) (content : String)
deriving DecidableEq, Repr

/-- The event is a call of `GetStatuses`. -/
def Event.isGetStatuses : Event → Bool
  | .getStatuses _ => true
  | _ => false

/-- The event is a call of `GetIssues`. -/
def Event.isGetIssues : Event → Bool
  | .getIssues _ _ _ => true
  | _ => false

/-- The event is a call of the formatter. -/
def Event.isFormat : Event → Bool
  | .format _ => true
  | _ => false

/-- The event is a call of `os.WriteFile`. -/
def Event.isWriteFile : Event → Bool
  | .writeFile _ _ => true
  | _ => false

/-- Surroundings of `Run`: the functions of the standard library that it reaches
(`time.Time.Format`, `json.MarshalIndent`, `time.Now` by the number of the call,
`filepath.Join`, `os.WriteFile` with permission 0644) and the fuel for the recursion
of the JSON renderer. -/
structure RunEnv where
  timeFormat : TimeFormat
  marshalIndent : Json → Except GoError String
  fuel : Nat
  now : Nat → Time
  filepathJoin : String → String → String
  writeFile : String → String → Option GoError

/-- Record `Exporter`; its field `output` is the sink of the `printf` events. -/
structure Exporter where
  client : Client
  config : Config
  formatter : Formatter

/-- Functions `NewExporter` and `NewExporterWithOutput`. -/
def NewExporter (client : Client) (cfg : Config) : Exporter :=
  { client := client, config := cfg, formatter := NewFormatter cfg.Format }

/-- Method `Exporter.generateFilename`; `now` is what its call of `time.Now` returns. -/
def Exporter.generateFilename (e : Exporter) (timeFormat : TimeFormat) (now : Time)
    (projectKey : String) : String :=
  let timestamp := timeFormat now "20060102_150405"
  projectKey ++ "_tasks_" ++ timestamp ++ "." ++ e.formatter.Extension

/-- Text that the progress callback of `Run` prints. -/
def Exporter.progressText (fetched total : Int) : String :=
  if total > 0 ∧ fetched = total then
    "Fetching issues... " ++ Itoa fetched ++ "/" ++ Itoa total ++ " (complete)\n"
  else
    "Fetching issues... " ++ Itoa fetched ++ "\n"

/-- How `Run` ends: it returns a path and an error, or it does not return. -/
inductive RunEnd where
  | returned (outputPath : String) (err : Option GoError)
  | fault (f : Fault)
deriving DecidableEq, Repr

/-- A run of `Exporter.Run`: its events in order and how it ends. -/
structure RunTrace where
  events : List Event
  ending : RunEnd
deriving DecidableEq, Repr

/-- Method `Exporter.Run`. -/
def Exporter.Run (e : Exporter) (env : RunEnv) : RunTrace :=
  let ev : List Event :=
    [.printf ("Connecting to " ++ e.config.Space ++ "." ++ e.config.Domain ++ "...\n"),
     .getProject e.config.Project]
  match e.client.GetProject e.config.Project with
  | (_, some err) =>
    { events := ev, ending := .returned "" (some (.wrapf "failed to get project: " err)) }
  | (none, none) => { events := ev, ending := .fault .nilDereference }
  | (some project, none) =>
    let ev := ev ++
      [.printf ("Project: " ++ project.ProjectKey ++ " (" ++ project.Name ++ ")\n"),
       .printf "Fetching statuses... ",
       .getStatuses e.config.Project]
    match e.client.GetStatuses e.config.Project with
    | (_, some err) =>
      { events := ev, ending := .returned "" (some (.wrapf "failed to get statuses: " err)) }
    | (statuses, none) =>
      let incompleteStatusIDs := getIncompleteStatusIDs statuses
      let ev := ev ++
        [.printf "done\n", .getIssues project.ID incompleteStatusIDs e.config.Assignee]
      match e.client.GetIssues project.ID incompleteStatusIDs e.config.Assignee with
      | none => { events := ev, ending := .fault .outOfFuel }
      | some fetched =>
        let ev := ev ++
          fetched.progress.map (fun call => Event.printf (Exporter.progressText call.1 call.2))
        match fetched.err with
        | some err =>
          { events := ev, ending := .returned "" (some (.wrapf "failed to get issues: " err)) }
        | none =>
          let hierarchy := buildHierarchy fetched.issues
          let summary := hierarchy.summary
          let exportData := hierarchy.exportData (some project) (env.now 0)
          let ev := ev ++
            [.printf "Building hierarchy... ", .printf "done\n\n", .printf "Summary:\n",
             .printf ("  Total issues: " ++ Itoa summary.Total ++ "\n"),
             .printf ("  Parent issues: " ++ Itoa summary.ParentIssues ++ "\n"),
             .printf ("  Child issues: " ++ Itoa summary.ChildIssues ++ "\n\n"),
             .format exportData]
          match e.formatter.Format env.timeFormat env.marshalIndent env.fuel exportData with
          | .error fault => { events := ev, ending := .fault fault }
          | .ok (_, some err) =>
            { events := ev
              ending := .returned "" (some (.wrapf "failed to format output: " err)) }
          | .ok (content, none) =>
            let filename := e.generateFilename env.timeFormat (env.now 1) project.ProjectKey
            let outputPath := env.filepathJoin e.config.Output filename
            let ev := ev ++ [.writeFile outputPath content]
            match env.writeFile outputPath content with
            | some err =>
              { events := ev
                ending := .returned "" (some (.wrapf "failed to write file: " err)) }
            | none =>
              { events := ev ++
                  [.printf ("Output: " ++ outputPath ++ "\n"), .printf "Done!\n"]
                ending := .returned outputPath none }

/-- Method `Unwrap` of an error made by `fmt.Errorf` with `%w`: the wrapped error. -/
def GoError.Unwrap : GoError → Option GoError
  | .wrapf _ err => some err
  | _ => none

/-- Client whose `GetProject` fails with the tracker's error `Project not found`, as
against the server of `TestIntegration_ErrorHandling`. -/
def notFoundClient : Client :=
  { GetProject := fun _ =>
      (none, some (.wrapf "failed to get project: "
        (.api [{ Message := "Project not found", Code := 6 }])))
    GetStatuses := fun _ => ([], none)
    GetIssues := fun _ _ _ => some { progress := [], issues := [], err := none } }

/-- Client of `TestExporter_Run`: the scenario's project, statuses and issues. -/
def scenarioClient : Client :=
  { GetProject := fun _ => (some { ID := 1, ProjectKey := "MYPROJ", Name := "マイプロジェクト" }, none)
    GetStatuses := fun _ => (scenarioStatuses, none)
    GetIssues := fun _ _ _ =>
      some { progress := [(3, -1), (3, 3)], issues := scenarioIssues, err := none } }

/-- Configuration of `TestExporter_Run`, with the output directory `out`. -/
def scenarioConfig : Config :=
  { APIKey := "test-api-key", Space := "mycompany", Domain := "backlog.com",
    Project := "MYPROJ", Output := "out", Format := FormatTXT }

/-- Surroundings for examples: times print as their layout, paths are joined with a
slash, and every write succeeds. -/
def sampleEnv : RunEnv :=
  { timeFormat := layoutOnly
    marshalIndent := sampleMarshal
    fuel := 8
    now := fun _ => {}
    filepathJoin := fun dir name => dir ++ "/" ++ name
    writeFile := fun _ _ => none }

/-- Client whose `GetProject` succeeds and whose `GetStatuses` fails. -/
def statusesFailClient : Client :=
  { GetProject := fun _ => (some { ID := 1, ProjectKey := "MYPROJ", Name := "マイプロジェクト" }, none)
    GetStatuses := fun _ => ([], some (.errorf "status error"))
    GetIssues := fun _ _ _ => some { progress := [], issues := [], err := none } }

/-! ## Layouts of the two text outputs, as the specification describes them

The definitions of this section follow the words of the specification, not the code:
they give the text of a document from the issues of its roots and of their direct
children.  The theorems compare them with what the renderers write. -/

/-- Line of eighty copies of a character, without its line break. -/
def Layout.rule80 (c : Char) : String := String.mk (List.replicate 80 c)

/-- Plain-text layout: the heading line of a child, introduced by `connector`, and its
four field lines, each started by `mark`. -/
def TXTLayout.childLines (connector mark : String) (issue : Issue) : String :=
  (connector ++ "[" ++ issue.IssueKey ++ "] " ++ issue.Summary ++ "\n") ++
  (mark ++ "状態: " ++ TXTFormatter.getStatusName issue ++ "\n") ++
  (mark ++ "優先度: " ++ TXTFormatter.getPriorityName issue ++ "\n") ++
  (mark ++ "担当者: " ++ TXTFormatter.getAssigneeName issue ++ "\n") ++
  (mark ++ "期限日: " ++ TXTFormatter.getDueDate issue ++ "\n")

/-- Plain-text layout: the block of the child at index `i` (from 0) among `n`
children.  The last child has the connector `└─` and blank marks; every other child has
the connector `├─`, the mark `│` on its field lines, and a line `  │` after them. -/
def TXTLayout.childBlock (n i : Nat) (issue : Issue) : String :=
  if i + 1 = n then TXTLayout.childLines "  └─ " "       " issue
  else TXTLayout.childLines "  ├─ " "  │    " issue ++ "  │\n"

/-- Plain-text layout: the lines of a root itself, which end with the created and the
updated date. -/
def TXTLayout.rootLines (timeFormat : TimeFormat) (issue : Issue) : String :=
  ("[" ++ issue.IssueKey ++ "] " ++ issue.Summary ++ "\n") ++
  ("  状態: " ++ TXTFormatter.getStatusName issue ++ "\n") ++
  ("  優先度: " ++ TXTFormatter.getPriorityName issue ++ "\n") ++
  ("  担当者: " ++ TXTFormatter.getAssigneeName issue ++ "\n") ++
  ("  期限日: " ++ TXTFormatter.getDueDate issue ++ "\n") ++
  ("  作成日: " ++ timeFormat issue.Created "2006-01-02" ++ "\n") ++
  ("  更新日: " ++ timeFormat issue.Updated "2006-01-02" ++ "\n")

/-- Plain-text layout: the block of a root, its own lines and, after a blank line, the
blocks of its direct children in order. -/
def TXTLayout.rootBlock (timeFormat : TimeFormat) (issue : Issue) (children : List Issue) :
    String :=
  TXTLayout.rootLines timeFormat issue ++
    (if children.isEmpty then ""
     else "\n" ++ String.join
       (children.enum.map (fun ic => TXTLayout.childBlock children.length ic.1 ic.2)))

/-- Plain-text layout: the five lines of the header, and the blank line after them. -/
def TXTLayout.header (timeFormat : TimeFormat) (project : Project) (exportedAt : Time)
    (summary : ExportSummary) : String :=
  (Layout.rule80 '=' ++ "\n") ++
  ("プロジェクト: " ++ (project.ProjectKey ++ " - " ++ project.Name) ++ "\n") ++
  ("取得日時: " ++ timeFormat exportedAt "2006-01-02 15:04:05" ++ "\n") ++
  ("未完了タスク数: " ++ Itoa summary.Total ++ "件（親課題: " ++ Itoa summary.ParentIssues ++
    "件、子課題: " ++ Itoa summary.ChildIssues ++ "件）\n") ++
  (Layout.rule80 '=' ++ "\n") ++ "\n"

/-- Plain-text layout: the line of dashes between two root blocks, with the blank lines
around it. -/
def TXTLayout.separator : String := "\n" ++ (Layout.rule80 '-' ++ "\n") ++ "\n"

/-- Plain-text layout of a document: the header, then the root blocks with a separator
between consecutive blocks.  A root is given as its issue and the issues of its direct
children. -/
def TXTLayout.document (timeFormat : TimeFormat) (project : Project) (exportedAt : Time)
    (summary : ExportSummary) (roots : List (Issue × List Issue)) : String :=
  TXTLayout.header timeFormat project exportedAt summary ++
    String.intercalate TXTLayout.separator
      (roots.map (fun ic => TXTLayout.rootBlock timeFormat ic.1 ic.2))

/-- Markdown layout: a two-column table, its head and one row per name and value. -/
def MarkdownLayout.table (rows : List (String × String)) : String :=
  "| 項目 | 内容 |\n" ++ "|------|------|\n" ++
    String.join (rows.map (fun row => "| " ++ row.1 ++ " | " ++ row.2 ++ " |\n"))

/-- Markdown layout: the subsection of a child, a `####` heading and a table of four
rows, then a blank line. -/
def MarkdownLayout.childSection (issue : Issue) : String :=
  ("#### [" ++ issue.IssueKey ++ "] " ++ issue.Summary ++ "\n") ++
  MarkdownLayout.table
    [("状態", MarkdownFormatter.getStatusName issue),
     ("優先度", MarkdownFormatter.getPriorityName issue),
     ("担当者", MarkdownFormatter.getAssigneeName issue),
     ("期限日", MarkdownFormatter.getDueDate issue)] ++
  "\n"

/-- Markdown layout: the block of a root, a `##` heading and a table of six rows; if
the root has children, the heading of the children section and one subsection per
child, in order. -/
def MarkdownLayout.rootBlock (timeFormat : TimeFormat) (issue : Issue)
    (children : List Issue) : String :=
  ("## [" ++ issue.IssueKey ++ "] " ++ issue.Summary ++ "\n") ++
  MarkdownLayout.table
    [("状態", MarkdownFormatter.getStatusName issue),
     ("優先度", MarkdownFormatter.getPriorityName issue),
     ("担当者", MarkdownFormatter.getAssigneeName issue),
     ("期限日", MarkdownFormatter.getDueDate issue),
     ("作成日", timeFormat issue.Created "2006-01-02"),
     ("更新日", timeFormat issue.Updated "2006-01-02")] ++
  (if children.isEmpty then ""
   else "\n### 子課題\n\n" ++ String.join (children.map MarkdownLayout.childSection))

/-- Markdown layout of the part after the header: every root block is followed by a
blank line, a horizontal rule and a blank line. -/
def MarkdownLayout.body (timeFormat : TimeFormat) (roots : List (Issue × List Issue)) :
    String :=
  String.join (roots.map (fun ic => MarkdownLayout.rootBlock timeFormat ic.1 ic.2 ++ "\n---\n\n"))

/-- The pointers `roots` of the heap `h` are present nodes with present children:
`families` lists, for every root in order, its issue and the issues of its direct
children in order. -/
def Heap.families (h : Heap) (roots : List Ptr) (families : List (Issue × List Issue)) :
    Prop :=
  List.Forall₂
    (fun r (ic : Issue × List Issue) =>
      ∃ node, h.node r = some node ∧ node.Issue = ic.1 ∧
        node.Children.map h.issueAt = ic.2.map some)
    roots families

/-- Heap with two roots: node 0 wraps `F-1` and has the children 1 and 2, which wrap
`F-2` and `F-3`; node 3 wraps `F-4` and has no children. -/
def familyHeap : Heap :=
  [{ Issue := { ID := 1, IssueKey := "F-1", Summary := "one" }, Children := [some 1, some 2] },
   { Issue := { ID := 2, IssueKey := "F-2", Summary := "two" }, Children := [] },
   { Issue := { ID := 3, IssueKey := "F-3", Summary := "three" }, Children := [] },
   { Issue := { ID := 4, IssueKey := "F-4", Summary := "four" }, Children := [] }]

/-- Bundle over `familyHeap` with the roots 0 and 3. -/
def familyBundle : ExportData :=
  { Project := some { ID := 1, ProjectKey := "F", Name := "Family" }
    ExportedAt := {}
    Summary := { Total := 4, ParentIssues := 2, ChildIssues := 2 }
    heap := familyHeap
    Issues := [some 0, some 3] }

/-- Roots of `familyBundle` with their children, as issues. -/
def familyRoots : List (Issue × List Issue) :=
  [({ ID := 1, IssueKey := "F-1", Summary := "one" },
    [{ ID := 2, IssueKey := "F-2", Summary := "two" },
     { ID := 3, IssueKey := "F-3", Summary := "three" }]),
   ({ ID := 4, IssueKey := "F-4", Summary := "four" }, [])]

/-! ## `IsProjectID`, `GetProjectID` and `LoadFromEnv` of `internal/config/config.go` -/

/-- Loop of `Config.IsProjectID` over the runes of `c.Project`: `false` when the loop
returns `false` at a rune that is not a digit, `true` when it runs to its end.
`isDigit` is `unicode.IsDigit` of the standard library. -/
def Config.IsProjectID.loop (isDigit : Char → Bool) : List Char → Bool
  | [] => true
  | r :: rest => if !isDigit r then false else Config.IsProjectID.loop isDigit rest

/-- Method `Config.IsProjectID`; `len(c.Project)` is the number of bytes of the text.
The text is valid UTF-8, so that its runes are its characters. -/
def Config.IsProjectID (isDigit : Char → Bool) (c : Config) : Bool :=
  if Config.IsProjectID.loop isDigit c.Project.data then decide (c.Project.utf8ByteSize > 0)
  else false

/-- Method `Config.GetProjectID`: the number and the error it returns.  `atoi` is
`strconv.Atoi` of the standard library. -/
def Config.GetProjectID (isDigit : Char → Bool) (atoi : String → Int × Option GoError)
    (c : Config) : Int × Option GoError :=
  if !c.IsProjectID isDigit then (0, some (.errorf "project is not a numeric ID"))
  else atoi c.Project

/-- Largest value of the 64-bit `int`. -/
def maxInt : Int := 9223372036854775807

/-- Largest value of the unsigned 64-bit integers. -/
def maxUint64 : Nat := 18446744073709551615

/-- Ways in which the loop of `strconv.ParseUint` ends. -/
inductive Atoi.Parsed where
  | value (n : Nat)
  | malformed
  | outOfRange
deriving DecidableEq, Repr

/-- Loop of `strconv.ParseUint` in base ten over the characters of the text, with the
number `n` read so far: a character that is not one of the digits `0` to `9` ends it
as malformed, a number that leaves the unsigned 64-bit range ends it as out of range,
whichever comes first. -/
def Atoi.parseUint : List Char → Nat → Atoi.Parsed
  | [], n => .value n
  | ch :: rest, n =>
    if '0' ≤ ch ∧ ch ≤ '9' then
      if n ≥ maxUint64 / 10 + 1 then .outOfRange
      else
        let n1 := n * 10 + (ch.toNat - '0'.toNat)
        if n1 > maxUint64 then .outOfRange else Atoi.parseUint rest n1
    else .malformed

/-- Sign that `strconv.ParseInt` reads off the start of the text, as "is negative",
and the rest of the text. -/
def Atoi.sign : List Char → Bool × List Char
  | '-' :: rest => (true, rest)
  | '+' :: rest => (false, rest)
  | rest => (false, rest)

/-- Function `strconv.Atoi` of the standard library for the 64-bit `int`, as its
documentation describes it: an optional sign and one or more of the digits `0` to `9`
give the number they denote; a text of another form gives 0 and the error `invalid
syntax`; a number outside the range of `int` gives the nearest bound and the error
`value out of range`.  The text of the error quotes the input between quotation marks,
which is what `strconv.Quote` does for a text that needs no escape. -/
def Atoi (s : String) : Int × Option GoError :=
  let formError := GoError.errorf ("strconv.Atoi: parsing \"" ++ s ++ "\": invalid syntax")
  let rangeError :=
    GoError.errorf ("strconv.Atoi: parsing \"" ++ s ++ "\": value out of range")
  let neg := (Atoi.sign s.data).1
  let body := (Atoi.sign s.data).2
  if body = [] then (0, some formError)
  else
    match Atoi.parseUint body 0 with
    | .malformed => (0, some formError)
    | .outOfRange => if neg then (-(maxInt + 1), some rangeError) else (maxInt, some rangeError)
    | .value un =>
      if neg then
        if (un : Int) > maxInt + 1 then (-(maxInt + 1), some rangeError) else (-(un : Int), none)
      else
        if (un : Int) > maxInt then (maxInt, some rangeError) else ((un : Int), none)

/-- Function `LoadFromEnv`; `getenv` is `os.Getenv` of the standard library, which
returns the empty text for a variable that is not set. -/
def LoadFromEnv (getenv : String → String) : Config :=
  { APIKey := getenv "BACKLOG_API_KEY"
    Space := getenv "BACKLOG_SPACE"
    Domain := getenv "BACKLOG_DOMAIN" }

/-- Number that a text of digits denotes in base ten. -/
def decimalValue (digits : List Char) : Nat :=
  digits.foldl (fun n ch => n * 10 + (ch.toNat - '0'.toNat)) 0

/-! ## `cmd/backlog-tasks/main.go` -/

/-- Constant `ExitSuccess`. -/
def ExitSuccess : Int := 0

/-- Constant `ExitAPIKeyRequired`. -/
def ExitAPIKeyRequired : Int := 1

/-- Constant `ExitAuthError`. -/
def ExitAuthError : Int := 2

/-- Constant `ExitProjectNotFound`. -/
def ExitProjectNotFound : Int := 3

/-- Constant `ExitNetworkError`. -/
def ExitNetworkError : Int := 4

/-- Constant `ExitOutputDirError`. -/
def ExitOutputDirError : Int := 5

/-- Constant `ExitRateLimitExceeded`. -/
def ExitRateLimitExceeded : Int := 6

/-- Constant `ExitInvalidArgs`. -/
def ExitInvalidArgs : Int := 7

/-- Bytes of a Go string, as numbers: the UTF-8 encoding of the text.  `len`, `==` and
the slice expression of Go act on these bytes. -/
def goBytes (s : String) : List Nat := (s.data.flatMap String.utf8EncodeChar).map UInt8.toNat

/-- Slice expression `s[i:j]` on the bytes of a string; `none` is the panic for bounds
out of range. -/
def sliceBytes (s : List Nat) (i j : Nat) : Option (List Nat) :=
  if i ≤ j ∧ j ≤ s.length then some ((s.drop i).take (j - i)) else none

/-- Loop of `containsImpl` from the index `i` on, with fuel for its iterations. -/
def containsImpl.loop (s substr : List Nat) : Nat → Nat → Except Fault Bool
  | 0, _ => .error .outOfFuel
  | fuel + 1, i =>
    if (i : Int) ≤ (s.length : Int) - (substr.length : Int) then
      match sliceBytes s i (i + substr.length) with
      | none => .error .sliceOutOfRange
      | some window =>
        if window = substr then .ok true else containsImpl.loop s substr fuel (i + 1)
    else .ok false

/-- Function `containsImpl`.  The loop tests its condition at most `len(s) + 2` times,
which is the fuel given to it. -/
def containsImpl (s substr : List Nat) : Except Fault Bool :=
  containsImpl.loop s substr (s.length + 2) 0

/-- Function `contains`; `&&` and `||` evaluate their right side only when needed. -/
def contains (s substr : List Nat) : Except Fault Bool :=
  if (s.length : Int) ≥ (substr.length : Int) then
    if s = substr then .ok true
    else if (s.length : Int) > 0 then containsImpl s substr
    else .ok false
  else .ok false

/-- A case of the switch of `classifyError` with two expressions,
`case contains(errStr, a), contains(errStr, b):`; the second call is made only when
the first returns false. -/
def classifyError.either (errStr : List Nat) (a b : String) : Except Fault Bool :=
  match contains errStr (goBytes a) with
  | .error fault => .error fault
  | .ok true => .ok true
  | .ok false => contains errStr (goBytes b)

/-- Function `classifyError`. -/
def classifyError (err : GoError) : Except Fault Int :=
  let errStr := goBytes err.Error
  match contains errStr (goBytes "API key") with
  | .error fault => .error fault
  | .ok true => .ok ExitAPIKeyRequired
  | .ok false =>
    match classifyError.either errStr "Authentication failed" "401" with
    | .error fault => .error fault
    | .ok true => .ok ExitAuthError
    | .ok false =>
      match classifyError.either errStr "not found" "404" with
      | .error fault => .error fault
      | .ok true => .ok ExitProjectNotFound
      | .ok false =>
        match classifyError.either errStr "connect" "network" with
        | .error fault => .error fault
        | .ok true => .ok ExitNetworkError
        | .ok false =>
          match classifyError.either errStr "rate limit" "429" with
          | .error fault => .error fault
          | .ok true => .ok ExitRateLimitExceeded
          | .ok false => .ok ExitInvalidArgs

/-- Variables that `run` binds to the flags of the command line; the default of a
field is the default with which `run` registers the flag. -/
structure Flags where
  apiKey : String := ""
  space : String := ""
  domain : String := "backlog.com"
  project : String := ""
  output : String := "./"
  format : String := "txt"
  assignee : Int := 0
  showHelp : Bool := false
  showVersion : Bool := false
deriving DecidableEq, Repr

/-- A flag given on the command line, with its value; the long and the short name of
a flag (`--domain`, `-d`) are bound to the same variable. -/
inductive FlagSetting where
  | apiKey (value : String)
  | space (value : String)
  | domain (value : String)
  | project (value : String)
  | output (value : String)
  | format (value : String)
  | assignee (value : Int)
  | help (value : Bool)
  | version (value : Bool)
deriving DecidableEq, Repr

/-- Effect of one given flag on the variables. -/
def Flags.set (flags : Flags) : FlagSetting → Flags
  | .apiKey value => { flags with apiKey := value }
  | .space value => { flags with space := value }
  | .domain value => { flags with domain := value }
  | .project value => { flags with project := value }
  | .output value => { flags with output := value }
  | .format value => { flags with format := value }
  | .assignee value => { flags with assignee := value }
  | .help value => { flags with showHelp := value }
  | .version value => { flags with showVersion := value }

/-- Function `flag.Parse` of the standard library, seen through its effect on a
command line that it accepts: every flag that is given sets its variable, in order,
and the variable of a flag that is not given keeps its default. -/
def flagParse (given : List FlagSetting) : Flags := given.foldl Flags.set {}

/-- Configuration `cmdCfg` that `run` makes from the flags. -/
def run.cmdCfg (flags : Flags) : Config :=
  let cmdCfg : Config :=
    { APIKey := flags.apiKey
      Space := flags.space
      Domain := flags.domain
      Project := flags.project
      Output := flags.output
      Format := flags.format }
  if flags.assignee > 0 then { cmdCfg with Assignee := some flags.assignee } else cmdCfg

/-- Configuration `cfg` of `run` after `cfg.Merge(cmdCfg)`: the configuration of the
environment with the configuration of the command line merged over it. -/
def run.config (getenv : String → String) (flags : Flags) : Config :=
  (LoadFromEnv getenv).Merge (run.cmdCfg flags)

/-- Function `run`: the exit code it returns.  `getenv` is `os.Getenv`, `statNotExist`
tells whether `os.Stat` fails with an error for which `os.IsNotExist` holds, and
`newClient` is `backlog.NewClient` together with the tracker behind it.  The texts
written to the standard streams are left out. -/
def run (getenv : String → String) (statNotExist : String → Bool)
    (newClient : String → String → String → Client) (env : RunEnv)
    (given : List FlagSetting) : Except Fault Int :=
  let flags := flagParse given
  if flags.showHelp then .ok ExitSuccess
  else if flags.showVersion then .ok ExitSuccess
  else
    match (run.config getenv flags).Validate with
    | (_, some _) => .ok ExitInvalidArgs
    | (cfg, none) =>
      if statNotExist cfg.Output then .ok ExitOutputDirError
      else
        let client := newClient cfg.Space cfg.Domain cfg.APIKey
        let exp := NewExporter client cfg
        match (exp.Run env).ending with
        | .fault fault => .error fault
        | .returned _ (some err) => classifyError err
        | .returned _ none => .ok ExitSuccess

/-- Environment in which only `BACKLOG_DOMAIN` is set, to `backlog.jp`. -/
def domainEnv : String → String :=
  fun name => if name = "BACKLOG_DOMAIN" then "backlog.jp" else ""

/-- Environment in which no variable is set. -/
def emptyEnv : String → String := fun _ => ""

/-- All pointers that `buildHierarchy` has appended to a slice: the returned roots,
then the `Children` of every node of the heap, address by address. -/
def Hierarchy.appended (H : Hierarchy) : List Ptr :=
  H.roots ++ (List.range H.heap.length).flatMap (fun a => H.heap.childrenAt (some a))

/-- Two issues with the same id, both without parent. -/
def duplicateIssues : List Issue :=
  [{ ID := 1, IssueKey := "DUP-A" }, { ID := 1, IssueKey := "DUP-B" }]

/-- Pre-order flattening of the tree below a pointer: the issue of the node, then the
flattenings of its children in order.  It fails on a nil pointer, and when the tree is
deeper than the fuel. -/
def Heap.flatten (h : Heap) : Nat → Ptr → Except Fault (List Issue)
  | 0, _ => .error .outOfFuel
  | fuel + 1, p =>
    match h.node p with
    | none => .error .nilDereference
    | some node =>
      match appendEach (Heap.flatten h fuel) node.Children with
      | .error fault => .error fault
      | .ok below => .ok (node.Issue :: below.flatten)

/-- Pre-order flattening of the forest below the returned roots. -/
def Hierarchy.flatten (H : Hierarchy) (fuel : Nat) : Except Fault (List Issue) :=
  match appendEach (H.heap.flatten fuel) H.roots with
  | .error fault => .error fault
  | .ok trees => .ok trees.flatten

/-- The node at `p` belongs to the returned forest: it is one of the returned roots or
is reached from one through `Children` links. -/
def Hierarchy.inForest (H : Hierarchy) (p : Ptr) : Prop :=
  ∃ r ∈ H.roots, Relation.ReflTransGen H.heap.childEdge r p

/-- Two issues with the same id, of which the second names that id as its parent. -/
def loopIssues : List Issue :=
  [{ ID := 1, IssueKey := "LOOP-A" },
   { ID := 1, IssueKey := "LOOP-B", ParentIssueID := some 1 }]

/-- Bundle that `Run` assembles from the hierarchy built for `loopIssues`. -/
def loopBundle : ExportData :=
  (buildHierarchy loopIssues).exportData
    (some { ID := 1, ProjectKey := "LOOP", Name := "Loop" }) {}

/-! ### Reading a parsed JSON document -/

/-- String under a key of a JSON object. -/
def Json.stringField (j : Json) (key : String) : Option String :=
  match j.field key with
  | some (.str s) => some s
  | _ => none

/-- Integer under `name` in the object under `summary` of a parsed document. -/
def Json.summaryCount (doc : Json) (name : String) : Option Int :=
  match doc.field "summary" with
  | some summary =>
    match summary.field name with
    | some (.num n) => some n
    | _ => none
  | none => none

mutual
/-- Key tree read from the JSON object of an issue: the string under `issueKey` and
the trees read from the array under `children`. -/
def Json.keyTree : Json → Option KeyTree
  | .obj fields =>
    match Json.stringField (.obj fields) "issueKey", Json.childTreesIn fields with
    | some key, some children => some (.node key children)
    | _, _ => none
  | _ => none
/-- Key trees read from the value of the first key `children` of an object. -/
def Json.childTreesIn : List (String × Json) → Option (List KeyTree)
  | [] => none
  | (k, v) :: rest => if k = "children" then Json.keyTrees v else Json.childTreesIn rest
/-- Key trees read from a JSON array of issue objects. -/
def Json.keyTrees : Json → Option (List KeyTree)
  | .arr items => Json.keyTreeList items
  | _ => none
/-- Key trees read from a list of issue objects, in order. -/
def Json.keyTreeList : List Json → Option (List KeyTree)
  | [] => some []
  | j :: rest =>
    match Json.keyTree j, Json.keyTreeList rest with
    | some t, some ts => some (t :: ts)
    | _, _ => none
end

/-- Key trees read from the array under `issues` of a parsed document. -/
def Json.issueTrees (doc : Json) : Option (List KeyTree) :=
  match doc.field "issues" with
  | some issues => Json.keyTrees issues
  | none => none

/-- Bundle like `bareBundle`, except that its project pointer is nil. -/
def noProjectBundle : ExportData := { bareBundle with Project := none }

/-! ### An encoder and a parser of JSON text for the examples -/

/-- The quotation mark. -/
def jsonQuote : Char := Char.ofNat 34

/-- The backslash. -/
def jsonBackslash : Char := Char.ofNat 92

/-- The opening brace of an object. -/
def jsonOpenBrace : Char := Char.ofNat 123

/-- The closing brace of an object. -/
def jsonCloseBrace : Char := Char.ofNat 125

/-- The opening bracket of an array. -/
def jsonOpenBracket : Char := Char.ofNat 91

/-- The closing bracket of an array. -/
def jsonCloseBracket : Char := Char.ofNat 93

/-- The line feed. -/
def jsonNewline : Char := Char.ofNat 10

/-- The space. -/
def jsonSpace : Char := Char.ofNat 32

/-- The comma. -/
def jsonComma : Char := Char.ofNat 44

/-- The colon. -/
def jsonColon : Char := Char.ofNat 58

/-- The minus sign. -/
def jsonMinus : Char := Char.ofNat 45

/-- Characters of a string with a backslash put before every quotation mark and every
backslash. -/
def renderString.escape : List Char → List Char
  | [] => []
  | c :: cs =>
    if c = jsonQuote ∨ c = jsonBackslash then jsonBackslash :: c :: renderString.escape cs
    else c :: renderString.escape cs

/-- Text of a JSON string. -/
def renderString (s : String) : List Char :=
  jsonQuote :: renderString.escape s.data ++ [jsonQuote]

/-- Line break followed by two spaces for each level of nesting. -/
def renderIndent (level : Nat) : List Char :=
  jsonNewline :: List.replicate (2 * level) jsonSpace

mutual
/-- Text of a JSON document in the layout that `json.MarshalIndent(v, "", "  ")` uses:
one element or key per line, two spaces for each level of nesting, a space after the
colon, and `[]` and the empty object on one line. -/
def Json.render (level : Nat) : Json → List Char
  | .null => "null".data
  | .num n => (toString n).data
  | .str s => renderString s
  | .arr [] => [jsonOpenBracket, jsonCloseBracket]
  | .arr (item :: items) =>
    jsonOpenBracket :: renderIndent (level + 1) ++ Json.render (level + 1) item ++
      Json.renderItems level items
  | .obj [] => [jsonOpenBrace, jsonCloseBrace]
  | .obj ((key, value) :: fields) =>
    jsonOpenBrace :: renderIndent (level + 1) ++ renderString key ++
      [jsonColon, jsonSpace] ++ Json.render (level + 1) value ++
      Json.renderFields level fields
/-- Text of the elements of an array after the first, with the closing bracket. -/
def Json.renderItems (level : Nat) : List Json → List Char
  | [] => renderIndent level ++ [jsonCloseBracket]
  | item :: items =>
    jsonComma :: renderIndent (level + 1) ++ Json.render (level + 1) item ++
      Json.renderItems level items
/-- Text of the keys of an object after the first, with the closing brace. -/
def Json.renderFields (level : Nat) : List (String × Json) → List Char
  | [] => renderIndent level ++ [jsonCloseBrace]
  | (key, value) :: fields =>
    jsonComma :: renderIndent (level + 1) ++ renderString key ++
      [jsonColon, jsonSpace] ++ Json.render (level + 1) value ++
      Json.renderFields level fields
end

/-- Text without its leading spaces and line breaks. -/
def skipSpace : List Char → List Char
  | [] => []
  | c :: cs => if c = jsonSpace ∨ c = jsonNewline then skipSpace cs else c :: cs

/-- Reads a JSON string after its opening quotation mark: the string and the text
after the closing quotation mark.  `escaped` says that the last character was a
backslash; `acc` holds the characters read so far, last first. -/
def parseString : List Char → Bool → List Char → Option (String × List Char)
  | [], _, _ => none
  | c :: cs, true, acc => parseString cs false (c :: acc)
  | c :: cs, false, acc =>
    if c = jsonQuote then some (String.mk acc.reverse, cs)
    else if c = jsonBackslash then parseString cs true acc
    else parseString cs false (c :: acc)

/-- Reads decimal digits: the number they denote after `n`, and the text after
them. -/
def parseDigits : List Char → Nat → Nat × List Char
  | [], n => (n, [])
  | c :: cs, n =>
    if c.isDigit then parseDigits cs (10 * n + (c.toNat - 48)) else (n, c :: cs)

/-- Reads a JSON integer. -/
def parseNumber (cs : List Char) : Option (Json × List Char) :=
  match cs with
  | [] => none
  | c :: rest =>
    if c = jsonMinus then
      match rest with
      | [] => none
      | d :: _ =>
        if d.isDigit then
          some (.num (-((parseDigits rest 0).1 : Int)), (parseDigits rest 0).2)
        else none
    else if c.isDigit then
      some (.num ((parseDigits cs 0).1 : Int), (parseDigits cs 0).2)
    else none

mutual
/-- Reads one JSON value: the document and the text after it.  The fuel bounds the
depth of nesting and the number of elements. -/
def parseValue : Nat → List Char → Option (Json × List Char)
  | 0, _ => none
  | fuel + 1, cs =>
    match skipSpace cs with
    | [] => none
    | c :: rest =>
      if c = jsonQuote then
        match parseString rest false [] with
        | some (s, rest1) => some (.str s, rest1)
        | none => none
      else if c = jsonOpenBracket then
        match skipSpace rest with
        | [] => none
        | c1 :: rest1 =>
          if c1 = jsonCloseBracket then some (.arr [], rest1)
          else
            match parseItems fuel (c1 :: rest1) with
            | some (items, rest2) => some (.arr items, rest2)
            | none => none
      else if c = jsonOpenBrace then
        match skipSpace rest with
        | [] => none
        | c1 :: rest1 =>
          if c1 = jsonCloseBrace then some (.obj [], rest1)
          else
            match parseFields fuel (c1 :: rest1) with
            | some (fields, rest2) => some (.obj fields, rest2)
            | none => none
      else if (c :: rest).take 4 = "null".data then some (.null, rest.drop 3)
      else parseNumber (c :: rest)
/-- Reads the elements of an array up to the closing bracket. -/
def parseItems : Nat → List Char → Option (List Json × List Char)
  | 0, _ => none
  | fuel + 1, cs =>
    match parseValue fuel cs with
    | none => none
    | some (item, rest) =>
      match skipSpace rest with
      | [] => none
      | c :: rest1 =>
        if c = jsonCloseBracket then some ([item], rest1)
        else if c = jsonComma then
          match parseItems fuel rest1 with
          | some (items, rest2) => some (item :: items, rest2)
          | none => none
        else none
/-- Reads the keys of an object, with their values, up to the closing brace. -/
def parseFields : Nat → List Char → Option (List (String × Json) × List Char)
  | 0, _ => none
  | fuel + 1, cs =>
    match skipSpace cs with
    | [] => none
    | q :: rest =>
      if q = jsonQuote then
        match parseString rest false [] with
        | none => none
        | some (key, rest1) =>
          match skipSpace rest1 with
          | [] => none
          | colon :: rest2 =>
            if colon = jsonColon then
              match parseValue fuel rest2 with
              | none => none
              | some (value, rest3) =>
                match skipSpace rest3 with
                | [] => none
                | c :: rest4 =>
                  if c = jsonCloseBrace then some ([(key, value)], rest4)
                  else if c = jsonComma then
                    match parseFields fuel rest4 with
                    | some (fields, rest5) => some ((key, value) :: fields, rest5)
                    | none => none
                  else none
            else none
      else none
end

/-- Encoder used in the example of the round trip: the text of `Json.render`. -/
def exampleMarshalIndent : Json → Except GoError String :=
  fun doc => .ok (String.mk (Json.render 0 doc))

/-- Parser used in the example of the round trip: it reads one JSON value, and
nothing but spaces and line breaks after it. -/
def exampleUnmarshal : String → Option Json :=
  fun bytes =>
    match parseValue (bytes.length + 1) bytes.data with
    | some (doc, rest) => if skipSpace rest = [] then some doc else none
    | none => none

/-- Value that the structure-building step of `JSONFormatter.Format` returns for
`bundleOver deepHeap` when the times are written by `layoutOnly`. -/
def chainOutput : jsonExportData :=
  { Project := { ID := 1, Key := "P", Name := "Project" }
    ExportedAt := RFC3339
    Summary := { Total := 3, ParentIssues := 1, ChildIssues := 2 }
    Issues :=
      [.mk 1 "P-1" "root" "" "" none none RFC3339 RFC3339
        [.mk 2 "P-2" "child" "" "" none none RFC3339 RFC3339
          [.mk 3 "P-3" "grandchild" "" "" none none RFC3339 RFC3339 []]]] }

end BacklogExporter

namespace BacklogExporter

/-! ## The heap update -/

theorem appendChild_length (h : Heap) (p : Nat) (c : Ptr) :
    (appendChild h p c).length = h.length := by
  induction h generalizing p with
  | nil => rfl
  | cons n h ih =>
    cases p with
    | zero => rfl
    | succ p => simp [appendChild, ih]

theorem appendChild_getElem? (h : Heap) (p : Nat) (c : Ptr) (a : Nat) :
    (appendChild h p c)[a]? =
      (h[a]?).map (fun n => if a = p then { n with Children := n.Children ++ [c] } else n) := by
  induction h generalizing p a with
  | nil => simp [appendChild]
  | cons n h ih =>
    cases p with
    | zero =>
      cases a with
      | zero => simp [appendChild]
      | succ a => simp [appendChild]
    | succ p =>
      cases a with
      | zero => simp [appendChild]
      | succ a => simp [appendChild, ih]

/-! ## The index built by the first loop -/

theorem indexLoop_heap (l : List Issue) (m : IssueMap) (h : Heap) :
    (buildHierarchy.indexLoop l m h).2 = h ++ l.map freshNode := by
  induction l generalizing m h with
  | nil => simp [buildHierarchy.indexLoop]
  | cons i rest ih => simp [buildHierarchy.indexLoop, ih, freshNode]

theorem indexLoop_get?_of_not_mem (l : List Issue) (m : IssueMap) (h : Heap) (k : Int)
    (hk : k ∉ issueIDs l) :
    (buildHierarchy.indexLoop l m h).1.get? k = m.get? k := by
  induction l generalizing m h with
  | nil => rfl
  | cons i rest ih =>
    simp only [issueIDs, List.map_cons, List.mem_cons, not_or] at hk
    rw [buildHierarchy.indexLoop, ih _ _ hk.2]
    simp only [IssueMap.set, IssueMap.get?]
    rw [if_neg (fun e => hk.1 e.symm)]

theorem indexLoop_get?_some (l : List Issue) (m : IssueMap) (h : Heap) (k : Int) (a : Nat)
    (hk : (buildHierarchy.indexLoop l m h).1.get? k = some a) :
    m.get? k = some a ∨ ∃ j i, l[j]? = some i ∧ i.ID = k ∧ a = h.length + j := by
  induction l generalizing m h with
  | nil => exact Or.inl hk
  | cons i rest ih =>
    rw [buildHierarchy.indexLoop] at hk
    rcases ih _ _ hk with h1 | ⟨j, i', hj, hid, ha⟩
    · simp only [IssueMap.set, IssueMap.get?] at h1
      split at h1
      · rename_i e
        right
        refine ⟨0, i, by simp, e, ?_⟩
        simpa using (Option.some.inj h1).symm
      · exact Or.inl h1
    · right
      refine ⟨j + 1, i', by simpa using hj, hid, ?_⟩
      simp only [List.length_append, List.length_singleton] at ha
      omega

theorem indexLoop_get?_of_mem (l : List Issue) (m : IssueMap) (h : Heap) (k : Int)
    (hk : k ∈ issueIDs l) :
    ((buildHierarchy.indexLoop l m h).1.get? k).isSome = true := by
  induction l generalizing m h with
  | nil => simp [issueIDs] at hk
  | cons i rest ih =>
    rw [buildHierarchy.indexLoop]
    by_cases hr : k ∈ issueIDs rest
    · exact ih _ _ hr
    · rw [indexLoop_get?_of_not_mem _ _ _ _ hr]
      have : i.ID = k := by
        simp only [issueIDs, List.map_cons, List.mem_cons] at hk hr
        rcases hk with e | e
        · exact e.symm
        · exact absurd e hr
      simp [IssueMap.set, IssueMap.get?, this]

theorem indexLoop_get?_nodup (l : List Issue) (m : IssueMap) (h : Heap)
    (hnd : (issueIDs l).Nodup) (j : Nat) (i : Issue) (hj : l[j]? = some i) :
    (buildHierarchy.indexLoop l m h).1.get? i.ID = some (h.length + j) := by
  induction l generalizing m h j with
  | nil => simp at hj
  | cons i0 rest ih =>
    simp only [issueIDs, List.map_cons, List.nodup_cons] at hnd
    rw [buildHierarchy.indexLoop]
    cases j with
    | zero =>
      simp only [List.getElem?_cons_zero, Option.some.injEq] at hj
      subst hj
      rw [indexLoop_get?_of_not_mem _ _ _ _ hnd.1]
      simp [IssueMap.set, IssueMap.get?]
    | succ j =>
      simp only [List.getElem?_cons_succ] at hj
      rw [ih _ _ hnd.2 j hj]
      simp only [List.length_append, List.length_singleton]
      congr 1
      omega

/-! ## The second loop -/

theorem linkLoop_roots (m : IssueMap) (l : List Issue) (st : LinkState) :
    (buildHierarchy.linkLoop m l st).roots =
      st.roots ++ (l.filter (fun i => !attaches m i)).map (fun i => m.index i.ID) := by
  induction l generalizing st with
  | nil => simp [buildHierarchy.linkLoop]
  | cons i rest ih =>
    rw [buildHierarchy.linkLoop, ih]
    unfold buildHierarchy.linkStep attaches
    cases hp : i.ParentIssueID with
    | none => simp [List.filter_cons, hp, attaches]
    | some pid =>
      cases hg : m.get? pid with
      | none => simp [List.filter_cons, hp, hg, attaches]
      | some a => simp [List.filter_cons, hp, hg, attaches]

theorem linkLoop_childCount (m : IssueMap) (l : List Issue) (st : LinkState) :
    (buildHierarchy.linkLoop m l st).childCount =
      st.childCount + ((l.filter (attaches m)).length : Int) := by
  induction l generalizing st with
  | nil => simp [buildHierarchy.linkLoop]
  | cons i rest ih =>
    rw [buildHierarchy.linkLoop, ih]
    unfold buildHierarchy.linkStep
    cases hp : i.ParentIssueID with
    | none => simp [List.filter_cons, hp, attaches]
    | some pid =>
      cases hg : m.get? pid with
      | none => simp [List.filter_cons, hp, hg, attaches]
      | some a =>
        simp [List.filter_cons, hp, hg, attaches]
        omega

theorem linkLoop_heap (m : IssueMap) (l : List Issue) (st : LinkState) (a : Nat) :
    (buildHierarchy.linkLoop m l st).heap[a]? =
      (st.heap[a]?).map (fun n =>
        { n with
          Children :=
            n.Children ++ (l.filter (attachesTo m a)).map (fun i => m.index i.ID) }) := by
  induction l generalizing st with
  | nil => simp [buildHierarchy.linkLoop]
  | cons i rest ih =>
    rw [buildHierarchy.linkLoop, ih]
    unfold buildHierarchy.linkStep
    cases hp : i.ParentIssueID with
    | none => simp [List.filter_cons, hp, attachesTo]
    | some pid =>
      cases hg : m.get? pid with
      | none => simp [List.filter_cons, hp, hg, attachesTo]
      | some b =>
        by_cases hab : a = b
        · subst hab
          cases hn : st.heap[a]? <;>
            simp [List.filter_cons, hp, hg, attachesTo, appendChild_getElem?, hn]
        · have hba : ¬ b = a := fun e => hab e.symm
          cases hn : st.heap[a]? <;>
            simp [List.filter_cons, hp, hg, attachesTo, appendChild_getElem?, hn, hab, hba]

/-! ## What `buildHierarchy` returns -/

theorem buildHierarchy_heap (issues : List Issue) :
    (buildHierarchy issues).heap =
      (buildHierarchy.linkLoop (buildHierarchy.index issues) issues
        { heap := issues.map freshNode, roots := [], childCount := 0 }).heap := by
  have h := indexLoop_heap issues [] []
  simp only [buildHierarchy, buildHierarchy.index]
  rcases hx : buildHierarchy.indexLoop issues [] [] with ⟨m, hp⟩
  rw [hx] at h
  simp only [List.nil_append] at h
  subst h
  rfl

theorem buildHierarchy_roots (issues : List Issue) :
    (buildHierarchy issues).roots =
      (buildHierarchy.linkLoop (buildHierarchy.index issues) issues
        { heap := issues.map freshNode, roots := [], childCount := 0 }).roots := by
  have h := indexLoop_heap issues [] []
  simp only [buildHierarchy, buildHierarchy.index]
  rcases hx : buildHierarchy.indexLoop issues [] [] with ⟨m, hp⟩
  rw [hx] at h
  simp only [List.nil_append] at h
  subst h
  rfl

theorem buildHierarchy_childCount (issues : List Issue) :
    (buildHierarchy issues).summary.ChildIssues =
      (buildHierarchy.linkLoop (buildHierarchy.index issues) issues
        { heap := issues.map freshNode, roots := [], childCount := 0 }).childCount := by
  have h := indexLoop_heap issues [] []
  simp only [buildHierarchy, buildHierarchy.index]
  rcases hx : buildHierarchy.indexLoop issues [] [] with ⟨m, hp⟩
  rw [hx] at h
  simp only [List.nil_append] at h
  subst h
  rfl

theorem buildHierarchy_summary (issues : List Issue) :
    (buildHierarchy issues).summary.Total = (issues.length : Int) ∧
      (buildHierarchy issues).summary.ParentIssues =
        (issues.length : Int) - (buildHierarchy issues).summary.ChildIssues := by
  unfold buildHierarchy
  rcases buildHierarchy.indexLoop issues [] [] with ⟨m, hp⟩
  exact ⟨rfl, rfl⟩

theorem index_get?_eq_none (issues : List Issue) (k : Int) :
    (buildHierarchy.index issues).get? k = none ↔ k ∉ issueIDs issues := by
  constructor
  · intro h hk
    have := indexLoop_get?_of_mem issues [] [] k hk
    rw [buildHierarchy.index] at h
    rw [h] at this
    simp at this
  · intro hk
    rw [buildHierarchy.index, indexLoop_get?_of_not_mem _ _ _ _ hk]
    rfl

theorem attaches_index (issues : List Issue) (i : Issue) :
    attaches (buildHierarchy.index issues) i = hasFetchedParent issues i := by
  unfold attaches hasFetchedParent
  cases i.ParentIssueID with
  | none => rfl
  | some pid =>
    by_cases hk : pid ∈ issueIDs issues
    · have := indexLoop_get?_of_mem issues [] [] pid hk
      simp [buildHierarchy.index, this, hk]
    · have := (index_get?_eq_none issues pid).2 hk
      simp [this, hk]

theorem index_of_getElem? (issues : List Issue) (hnd : (issueIDs issues).Nodup)
    (j : Nat) (i : Issue) (hj : issues[j]? = some i) :
    (buildHierarchy.index issues).index i.ID = some j := by
  have := indexLoop_get?_nodup issues [] [] hnd j i hj
  simpa [buildHierarchy.index, IssueMap.index] using this

theorem index_get?_iff (issues : List Issue) (hnd : (issueIDs issues).Nodup)
    (a : Nat) (P : Issue) (ha : issues[a]? = some P) (pid : Int) :
    (buildHierarchy.index issues).get? pid = some a ↔ pid = P.ID := by
  constructor
  · intro h
    rcases indexLoop_get?_some issues [] [] pid a h with h0 | ⟨j, i, hj, hid, hja⟩
    · simp [IssueMap.get?] at h0
    · simp only [List.length_nil, Nat.zero_add] at hja
      subst hja
      rw [ha] at hj
      cases hj
      exact hid.symm
  · intro h
    subst h
    simpa [buildHierarchy.index] using indexLoop_get?_nodup issues [] [] hnd a P ha

theorem attachesTo_index (issues : List Issue) (hnd : (issueIDs issues).Nodup)
    (a : Nat) (P : Issue) (ha : issues[a]? = some P) (c : Issue) :
    attachesTo (buildHierarchy.index issues) a c = decide (c.ParentIssueID = some P.ID) := by
  unfold attachesTo
  cases c.ParentIssueID with
  | none => simp
  | some pid => simp [index_get?_iff issues hnd a P ha pid]

theorem buildHierarchy_getElem? (issues : List Issue) (a : Nat) :
    (buildHierarchy issues).heap[a]? =
      (issues[a]?).map (fun P =>
        { Issue := P
          Children :=
            (issues.filter (attachesTo (buildHierarchy.index issues) a)).map
              (fun c => (buildHierarchy.index issues).index c.ID) }) := by
  rw [buildHierarchy_heap, linkLoop_heap]
  simp [freshNode, Function.comp_def]

theorem buildHierarchy_length (issues : List Issue) :
    (buildHierarchy issues).heap.length = issues.length := by
  by_contra hne
  rcases Nat.lt_or_gt_of_ne hne with h | h
  · have h1 := buildHierarchy_getElem? issues (buildHierarchy issues).heap.length
    rw [List.getElem?_eq_none (Nat.le_refl _), List.getElem?_eq_getElem h] at h1
    simp at h1
  · have h1 := buildHierarchy_getElem? issues issues.length
    rw [List.getElem?_eq_none (Nat.le_refl _), List.getElem?_eq_getElem h] at h1
    simp at h1

theorem buildHierarchy_issueAt (issues : List Issue) (a : Nat) :
    (buildHierarchy issues).heap.issueAt (some a) = issues[a]? := by
  simp [Heap.issueAt, Heap.node, buildHierarchy_getElem?, Function.comp_def]

theorem issueAt_index (issues : List Issue) (hnd : (issueIDs issues).Nodup)
    (i : Issue) (hi : i ∈ issues) :
    (buildHierarchy issues).heap.issueAt ((buildHierarchy.index issues).index i.ID) = some i := by
  rcases List.getElem?_of_mem hi with ⟨j, hj⟩
  rw [index_of_getElem? issues hnd j i hj, buildHierarchy_issueAt, hj]

theorem buildHierarchy_roots_eq (issues : List Issue) :
    (buildHierarchy issues).roots =
      (issues.filter (fun i => !hasFetchedParent issues i)).map
        (fun i => (buildHierarchy.index issues).index i.ID) := by
  rw [buildHierarchy_roots, linkLoop_roots]
  simp [attaches_index]

theorem buildHierarchy_childCount_eq (issues : List Issue) :
    (buildHierarchy issues).summary.ChildIssues =
      ((issues.filter (hasFetchedParent issues)).length : Int) := by
  rw [buildHierarchy_childCount, linkLoop_childCount]
  have : attaches (buildHierarchy.index issues) = hasFetchedParent issues :=
    funext (attaches_index issues)
  simp [this]

theorem buildHierarchy_childrenAt (issues : List Issue) (hnd : (issueIDs issues).Nodup)
    (a : Nat) (P : Issue) (ha : issues[a]? = some P) :
    (buildHierarchy issues).heap.childrenAt (some a) =
      (issues.filter (fun c => decide (c.ParentIssueID = some P.ID))).map
        (fun c => (buildHierarchy.index issues).index c.ID) := by
  have : attachesTo (buildHierarchy.index issues) a =
      fun c => decide (c.ParentIssueID = some P.ID) :=
    funext (attachesTo_index issues hnd a P ha)
  simp [Heap.childrenAt, Heap.node, buildHierarchy_getElem?, ha, this]

theorem nodup_of_issueIDs_nodup (issues : List Issue) (hnd : (issueIDs issues).Nodup) :
    issues.Nodup :=
  List.Nodup.of_map _ hnd

theorem map_issueAt_index (issues : List Issue) (hnd : (issueIDs issues).Nodup)
    (l : List Issue) (hl : ∀ c ∈ l, c ∈ issues) :
    (l.map (fun c => (buildHierarchy.index issues).index c.ID)).map
        (buildHierarchy issues).heap.issueAt = l.map some := by
  rw [List.map_map]
  apply List.map_congr_left
  intro c hc
  exact issueAt_index issues hnd c (hl c hc)

/-! ## Counts and roots -/

/-- C1: for every list of issues the summary has `Total` equal to the length of the
list, and `ParentIssues + ChildIssues` equal to `Total`. -/
theorem buildHierarchy_total_split (issues : List Issue) :
    (buildHierarchy issues).summary.Total = (issues.length : Int) ∧
      (buildHierarchy issues).summary.ParentIssues + (buildHierarchy issues).summary.ChildIssues =
        (buildHierarchy issues).summary.Total := by
  obtain ⟨h1, h2⟩ := buildHierarchy_summary issues
  refine ⟨h1, ?_⟩
  rw [h1, h2]
  omega

/-- C2: when the ids are pairwise distinct, the issues wrapped by the returned roots
are, in input order, exactly the input issues that declare no parent or a parent that
is the id of no issue of the list; the root pointers are pairwise distinct, so each
such issue is a root once. -/
theorem buildHierarchy_roots_unresolved (issues : List Issue)
    (hnd : (issueIDs issues).Nodup) :
    (buildHierarchy issues).roots.map (buildHierarchy issues).heap.issueAt =
        (issues.filter (fun i => !hasFetchedParent issues i)).map some ∧
      (buildHierarchy issues).roots.Nodup := by
  have h1 : (buildHierarchy issues).roots.map (buildHierarchy issues).heap.issueAt =
      (issues.filter (fun i => !hasFetchedParent issues i)).map some := by
    rw [buildHierarchy_roots_eq]
    exact map_issueAt_index issues hnd _ (fun c hc => (List.mem_filter.1 hc).1)
  refine ⟨h1, ?_⟩
  apply List.Nodup.of_map (buildHierarchy issues).heap.issueAt
  rw [h1]
  exact ((nodup_of_issueIDs_nodup issues hnd).filter _).map (Option.some_injective _)

/-- C2, scenario of the test: issues 100, 101 (parent 100) and 200 give the roots
100 and 200. -/
theorem buildHierarchy_roots_unresolved_witness :
    (issueIDs scenarioIssues).Nodup ∧
      (buildHierarchy scenarioIssues).roots.map (buildHierarchy scenarioIssues).heap.idAt =
        [some 100, some 200] :=
  ⟨by decide, by
    have h := (buildHierarchy_roots_unresolved scenarioIssues (by decide)).1
    have h2 : (buildHierarchy scenarioIssues).roots.map (buildHierarchy scenarioIssues).heap.idAt =
        ((buildHierarchy scenarioIssues).roots.map
          (buildHierarchy scenarioIssues).heap.issueAt).map (Option.map (·.ID)) := by
      rw [List.map_map]; rfl
    rw [h2, h]
    decide⟩

/-- C3: for every list of issues `ParentIssues` is the number of returned roots and
`ChildIssues` is the number of input issues whose declared parent is the id of some
issue of the list; an issue that declares the unfetched parent 999 is a root and is
not counted as a child. -/
theorem buildHierarchy_counts (issues : List Issue) :
    ((buildHierarchy issues).summary.ParentIssues = ((buildHierarchy issues).roots.length : Int) ∧
      (buildHierarchy issues).summary.ChildIssues =
        ((issues.filter (hasFetchedParent issues)).length : Int)) ∧
      ((buildHierarchy [{ ID := 1, ParentIssueID := some 999 }]).summary.ChildIssues = 0 ∧
        (buildHierarchy [{ ID := 1, ParentIssueID := some 999 }]).roots = [some 0]) := by
  refine ⟨⟨?_, buildHierarchy_childCount_eq issues⟩, by decide⟩
  rw [(buildHierarchy_summary issues).2, buildHierarchy_childCount_eq, buildHierarchy_roots_eq,
    List.length_map]
  have h := List.length_eq_length_filter_add (l := issues) (hasFetchedParent issues)
  omega

/-- C4: when the ids are pairwise distinct, every input issue `P` is wrapped by a node
of the hierarchy, and the children of any node wrapping `P` wrap, in input order,
exactly the input issues whose declared parent is the id of `P`. -/
theorem buildHierarchy_children_in_order (issues : List Issue) (hnd : (issueIDs issues).Nodup)
    (P : Issue) (hP : P ∈ issues) :
    (∃ ptr, (buildHierarchy issues).heap.issueAt ptr = some P) ∧
      ∀ ptr, (buildHierarchy issues).heap.issueAt ptr = some P →
        ((buildHierarchy issues).heap.childrenAt ptr).map (buildHierarchy issues).heap.issueAt =
          (issues.filter (fun c => decide (c.ParentIssueID = some P.ID))).map some := by
  refine ⟨⟨_, issueAt_index issues hnd P hP⟩, ?_⟩
  intro ptr hptr
  cases ptr with
  | none => simp [Heap.issueAt, Heap.node] at hptr
  | some a =>
    rw [buildHierarchy_issueAt] at hptr
    rw [buildHierarchy_childrenAt issues hnd a P hptr]
    exact map_issueAt_index issues hnd _ (fun c hc => (List.mem_filter.1 hc).1)

/-- C4, scenario of the test: the node of issue 100 has the single child 101. -/
theorem buildHierarchy_children_in_order_witness :
    (issueIDs scenarioIssues).Nodup ∧
      ((buildHierarchy scenarioIssues).heap.childrenAt (some 0)).map
          (buildHierarchy scenarioIssues).heap.issueAt =
        [some { ID := 101, IssueKey := "MYPROJ-101", ParentIssueID := some 100 }] :=
  ⟨by decide,
    ((buildHierarchy_children_in_order scenarioIssues (by decide)
      { ID := 100, IssueKey := "MYPROJ-100" } (by decide)).2 (some 0) (by decide)).trans
      (by decide)⟩

/-! ## Cycles -/

theorem find?_of_mem_nodup (issues : List Issue) (hnd : (issueIDs issues).Nodup)
    (P : Issue) (hP : P ∈ issues) :
    issues.find? (fun p => decide (p.ID = P.ID)) = some P := by
  induction issues with
  | nil => simp at hP
  | cons i rest ih =>
    simp only [issueIDs, List.map_cons, List.nodup_cons] at hnd
    rcases List.mem_cons.1 hP with e | e
    · subst e
      simp
    · have hne : ¬ i.ID = P.ID := by
        intro h
        apply hnd.1
        rw [h]
        exact List.mem_map_of_mem _ e
      rw [List.find?_cons_of_neg _ (by simpa using hne)]
      exact ih hnd.2 e

theorem childEdge_parentOf (issues : List Issue) (hnd : (issueIDs issues).Nodup)
    (p q : Ptr) (he : (buildHierarchy issues).heap.childEdge p q) :
    ∃ P c, (buildHierarchy issues).heap.issueAt p = some P ∧
      (buildHierarchy issues).heap.issueAt q = some c ∧ P ∈ issues ∧ c ∈ issues ∧
      c.ParentIssueID = some P.ID ∧ parentOf issues c = some P := by
  cases p with
  | none => simp [Heap.childEdge, Heap.childrenAt, Heap.node] at he
  | some a =>
    cases ha : issues[a]? with
    | none =>
      have : (buildHierarchy issues).heap[a]? = none := by
        rw [buildHierarchy_getElem?, ha]; rfl
      simp [Heap.childEdge, Heap.childrenAt, Heap.node, this] at he
    | some P =>
      have hPmem : P ∈ issues := List.getElem?_mem ha
      rw [Heap.childEdge, buildHierarchy_childrenAt issues hnd a P ha] at he
      rcases List.mem_map.1 he with ⟨c, hc, hq⟩
      rcases List.mem_filter.1 hc with ⟨hcmem, hpar⟩
      have hpar' : c.ParentIssueID = some P.ID := by simpa using hpar
      refine ⟨P, c, ?_, ?_, hPmem, hcmem, hpar', ?_⟩
      · rw [buildHierarchy_issueAt, ha]
      · rw [← hq]
        exact issueAt_index issues hnd c hcmem
      · rw [parentOf, hpar']
        exact find?_of_mem_nodup issues hnd P hPmem

theorem transGen_childEdge_ancestor (issues : List Issue) (hnd : (issueIDs issues).Nodup)
    (p q : Ptr) (h : Relation.TransGen (buildHierarchy issues).heap.childEdge p q) :
    ∃ P c k, (buildHierarchy issues).heap.issueAt p = some P ∧
      (buildHierarchy issues).heap.issueAt q = some c ∧ c ∈ issues ∧
      ancestor issues (k + 1) c = some P := by
  induction h with
  | single he =>
    obtain ⟨P, c, hp, hq, _, hc, _, hpar⟩ := childEdge_parentOf issues hnd _ _ he
    exact ⟨P, c, 0, hp, hq, hc, by simp [ancestor, hpar]⟩
  | tail _ he ih =>
    obtain ⟨P, B, k, hp, hb, _, hanc⟩ := ih
    obtain ⟨B', c, hb', hq, _, hc, _, hpar⟩ := childEdge_parentOf issues hnd _ _ he
    rw [hb] at hb'
    cases hb'
    refine ⟨P, c, k + 1, hp, hq, hc, ?_⟩
    rw [ancestor, hpar]
    exact hanc

theorem scenarioIssues_parentAcyclic : ParentAcyclic scenarioIssues := by
  intro i hi k
  simp only [scenarioIssues, List.mem_cons, List.mem_singleton, List.not_mem_nil, or_false] at hi
  rcases hi with rfl | rfl | rfl
  · simp [ancestor, parentOf]
  · cases k with
    | zero => simp [ancestor, parentOf, scenarioIssues]
    | succ k => simp [ancestor, parentOf, scenarioIssues]
  · simp [ancestor, parentOf]

/-- Nodes that no root reaches: the single issue that declares itself as its parent
gets a node that is in its own `Children` slice, but `buildHierarchy` returns no root
for it, so the node is not part of the returned forest. -/
theorem self_parent_outside_forest :
    (buildHierarchy [selfParentIssue]).roots = [] ∧
      (buildHierarchy [selfParentIssue]).heap.childEdge (some 0) (some 0) ∧
      ∀ p, ¬ (buildHierarchy [selfParentIssue]).inForest p := by
  refine ⟨by decide, by unfold Heap.childEdge; decide, ?_⟩
  rintro p ⟨r, hr, _⟩
  have hroots : (buildHierarchy [selfParentIssue]).roots = [] := by decide
  rw [hroots] at hr
  cases hr

/-- Heap-wide form: when the ids are pairwise distinct and following the parent
references never returns to the starting issue, no node of the heap, reached from a
root or not, lies on a cycle of `Children` links or is in its own `Children` slice. -/
theorem heap_acyclic_of_parentAcyclic (issues : List Issue) (hnd : (issueIDs issues).Nodup)
    (hac : ParentAcyclic issues) :
    (buildHierarchy issues).heap.Acyclic ∧
      ∀ p, ¬ (buildHierarchy issues).heap.childEdge p p := by
  have hcyc : (buildHierarchy issues).heap.Acyclic := by
    intro p hp
    obtain ⟨P, c, k, h1, h2, hc, hanc⟩ := transGen_childEdge_ancestor issues hnd p p hp
    rw [h1] at h2
    cases h2
    exact hac P hc k hanc
  exact ⟨hcyc, fun p he => hcyc p (Relation.TransGen.single he)⟩

/-! ## Independence of the input order -/

theorem buildHierarchy_idAt (issues : List Issue) (a : Nat) :
    (buildHierarchy issues).heap.idAt (some a) = (issues[a]?).map (·.ID) := by
  rw [Heap.idAt, buildHierarchy_issueAt]

theorem idAt_index (issues : List Issue) (hnd : (issueIDs issues).Nodup)
    (i : Issue) (hi : i ∈ issues) :
    (buildHierarchy issues).heap.idAt ((buildHierarchy.index issues).index i.ID) = some i.ID := by
  rw [Heap.idAt, issueAt_index issues hnd i hi]
  rfl

theorem mem_attachments (issues : List Issue) (hnd : (issueIDs issues).Nodup)
    (x : Option Int × Option Int) :
    x ∈ (buildHierarchy issues).attachments ↔
      ∃ P ∈ issues, ∃ c ∈ issues, c.ParentIssueID = some P.ID ∧ x = (some P.ID, some c.ID) := by
  simp only [Hierarchy.attachments, List.mem_flatMap, List.mem_range, List.mem_map]
  constructor
  · rintro ⟨a, ha, q, hq, rfl⟩
    rw [buildHierarchy_length] at ha
    have hP : issues[a]? = some issues[a] := List.getElem?_eq_getElem ha
    rw [buildHierarchy_childrenAt issues hnd a _ hP] at hq
    rcases List.mem_map.1 hq with ⟨c, hc, rfl⟩
    rcases List.mem_filter.1 hc with ⟨hcmem, hpar⟩
    refine ⟨issues[a], List.getElem?_mem hP, c, hcmem, by simpa using hpar, ?_⟩
    rw [buildHierarchy_idAt, hP, idAt_index issues hnd c hcmem]
    rfl
  · rintro ⟨P, hP, c, hc, hpar, rfl⟩
    rcases List.getElem?_of_mem hP with ⟨a, ha⟩
    have hlt : a < issues.length := by
      by_contra hge
      rw [List.getElem?_eq_none (Nat.le_of_not_lt hge)] at ha
      cases ha
    refine ⟨a, by rw [buildHierarchy_length]; exact hlt,
      (buildHierarchy.index issues).index c.ID, ?_, ?_⟩
    · rw [buildHierarchy_childrenAt issues hnd a P ha]
      exact List.mem_map_of_mem _ (List.mem_filter.2 ⟨hc, by simpa using hpar⟩)
    · rw [buildHierarchy_idAt, ha, idAt_index issues hnd c hc]
      rfl

theorem mem_rootIDs (issues : List Issue) (hnd : (issueIDs issues).Nodup) (r : Option Int) :
    r ∈ (buildHierarchy issues).rootIDs ↔
      ∃ i ∈ issues, hasFetchedParent issues i = false ∧ r = some i.ID := by
  simp only [Hierarchy.rootIDs, buildHierarchy_roots_eq, List.mem_map, List.mem_filter]
  constructor
  · rintro ⟨q, ⟨i, ⟨hi, hroot⟩, rfl⟩, rfl⟩
    exact ⟨i, hi, by simpa using hroot, idAt_index issues hnd i hi⟩
  · rintro ⟨i, hi, hroot, rfl⟩
    exact ⟨_, ⟨i, ⟨hi, by simpa using hroot⟩, rfl⟩, idAt_index issues hnd i hi⟩

theorem hasFetchedParent_perm (issues issues' : List Issue) (hperm : issues.Perm issues') :
    hasFetchedParent issues = hasFetchedParent issues' := by
  funext i
  unfold hasFetchedParent
  cases i.ParentIssueID with
  | none => rfl
  | some pid =>
    have : pid ∈ issueIDs issues ↔ pid ∈ issueIDs issues' := (hperm.map _).mem_iff
    simp [this]

theorem buildHierarchy_summary_eq (issues : List Issue) :
    (buildHierarchy issues).summary =
      { Total := (issues.length : Int)
        ParentIssues :=
          (issues.length : Int) - ((issues.filter (hasFetchedParent issues)).length : Int)
        ChildIssues := ((issues.filter (hasFetchedParent issues)).length : Int) } := by
  obtain ⟨h1, h2⟩ := buildHierarchy_summary issues
  have h3 := buildHierarchy_childCount_eq issues
  rw [h3] at h2
  rcases hs : (buildHierarchy issues).summary with ⟨t, p, c⟩
  rw [hs] at h1 h2 h3
  simp only at h1 h2 h3
  rw [h1, h2, h3]

/-- C6: for a list of issues with pairwise distinct ids and any permutation of it,
`buildHierarchy` yields the same set of (parent id, child id) attachments, the same
set of root ids and the same summary. -/
theorem buildHierarchy_perm (issues issues' : List Issue) (hperm : issues.Perm issues')
    (hnd : (issueIDs issues).Nodup) :
    (∀ x, x ∈ (buildHierarchy issues).attachments ↔ x ∈ (buildHierarchy issues').attachments) ∧
      (∀ r, r ∈ (buildHierarchy issues).rootIDs ↔ r ∈ (buildHierarchy issues').rootIDs) ∧
      (buildHierarchy issues).summary = (buildHierarchy issues').summary := by
  have hnd' : (issueIDs issues').Nodup := (hperm.map _).nodup_iff.1 hnd
  have hmem : ∀ i, i ∈ issues ↔ i ∈ issues' := fun i => hperm.mem_iff
  have hfp := hasFetchedParent_perm issues issues' hperm
  refine ⟨?_, ?_, ?_⟩
  · intro x
    rw [mem_attachments issues hnd, mem_attachments issues' hnd']
    simp only [hmem]
  · intro r
    rw [mem_rootIDs issues hnd, mem_rootIDs issues' hnd', hfp]
    simp only [hmem]
  · rw [buildHierarchy_summary_eq, buildHierarchy_summary_eq, hfp, hperm.length_eq,
      (hperm.filter _).length_eq]

/-- C6, child listed before its parent: the input `[101, 100]`, a permutation of
`[100, 101]`, attaches 101 under 100 all the same. -/
theorem buildHierarchy_perm_witness :
    parentFirstIssues.Perm childFirstIssues ∧ (issueIDs parentFirstIssues).Nodup ∧
      (some 100, some 101) ∈ (buildHierarchy childFirstIssues).attachments ∧
      (buildHierarchy childFirstIssues).rootIDs = [some 100] :=
  ⟨List.Perm.swap _ _ _, by decide,
    ((buildHierarchy_perm parentFirstIssues childFirstIssues (List.Perm.swap _ _ _)
      (by decide)).1 (some 100, some 101)).1 (by decide),
    by decide⟩

/-! ## The status filter -/

theorem getIncompleteStatusIDs_loop (l : List Status) (ids : List Int) :
    getIncompleteStatusIDs.loop l ids =
      ids ++ (l.filter (fun s =>
        decide (¬ (s.ID = defaultCompletedStatusID ∨ s.Name = "完了")))).map (·.ID) := by
  induction l generalizing ids with
  | nil => simp [getIncompleteStatusIDs.loop]
  | cons s rest ih =>
    rw [getIncompleteStatusIDs.loop]
    by_cases h : s.ID = defaultCompletedStatusID ∨ s.Name = "完了"
    · rw [if_pos h, ih, List.filter_cons_of_neg (by rw [decide_eq_true_eq]; exact not_not.2 h)]
    · rw [if_neg h, ih, List.filter_cons_of_pos (by rw [decide_eq_true_eq]; exact h)]
      simp

/-- C7: `getIncompleteStatusIDs` returns, in input order, the ids of exactly the
statuses whose id is not 4 and whose name is not "完了"; the id 4 is never in the
result, every returned id belongs to a status that is neither, and the four statuses
of the scenario give `[1, 2, 3]`. -/
theorem getIncompleteStatusIDs_spec (statuses : List Status) :
    getIncompleteStatusIDs statuses =
        (statuses.filter (fun s => decide (s.ID ≠ 4 ∧ s.Name ≠ "完了"))).map (·.ID) ∧
      4 ∉ getIncompleteStatusIDs statuses ∧
      (∀ id ∈ getIncompleteStatusIDs statuses,
        ∃ s ∈ statuses, s.ID = id ∧ s.ID ≠ 4 ∧ s.Name ≠ "完了") ∧
      getIncompleteStatusIDs scenarioStatuses = [1, 2, 3] := by
  have h : getIncompleteStatusIDs statuses =
      (statuses.filter (fun s => decide (s.ID ≠ 4 ∧ s.Name ≠ "完了"))).map (·.ID) := by
    rw [getIncompleteStatusIDs, getIncompleteStatusIDs_loop, List.nil_append]
    congr 1
    apply List.filter_congr
    intro s _
    simp [defaultCompletedStatusID, not_or]
  refine ⟨h, ?_, ?_, by decide⟩
  · rw [h]
    simp only [List.mem_map, List.mem_filter, not_exists, not_and]
    intro s hs hid
    have := hs.2
    simp only [decide_eq_true_eq] at this
    exact this.1 hid
  · intro id hid
    rw [h] at hid
    rcases List.mem_map.1 hid with ⟨s, hs, rfl⟩
    rcases List.mem_filter.1 hs with ⟨hmem, hp⟩
    simp only [decide_eq_true_eq] at hp
    exact ⟨s, hmem, rfl, hp.1, hp.2⟩

/-! ## Request parameters -/

theorem Values.get_Set (v : Values) (key value key' : String) :
    (v.Set key value).get key' = if key = key' then [value] else v.get key' := by
  induction v with
  | nil =>
    by_cases h : key = key' <;> simp [Values.Set, Values.get, h]
  | cons e v ih =>
    obtain ⟨k, vs⟩ := e
    by_cases hk : k = key
    · subst hk
      by_cases h : k = key' <;> simp [Values.Set, Values.get, h]
    · by_cases h : key = key'
      · subst h
        simp [Values.Set, Values.get, hk, ih]
      · by_cases h2 : k = key'
        · subst h2
          simp [Values.Set, Values.get, hk, h]
        · simp [Values.Set, Values.get, hk, h, h2, ih]

theorem Values.get_Add_of_ne (v : Values) (key value key' : String) (h : key ≠ key') :
    (v.Add key value).get key' = v.get key' := by
  induction v with
  | nil => simp [Values.Add, Values.get, h]
  | cons e v ih =>
    obtain ⟨k, vs⟩ := e
    by_cases hk : k = key
    · subst hk
      simp [Values.Add, Values.get, h]
    · by_cases h2 : k = key'
      · subst h2
        simp [Values.Add, Values.get, hk]
      · simp [Values.Add, Values.get, hk, h2, ih]

theorem Values.get_foldl_Add_of_ne (ids : List Int) (v : Values) (key key' : String)
    (h : key ≠ key') :
    (ids.foldl (fun ps statusID => ps.Add key (Itoa statusID)) v).get key' = v.get key' := by
  induction ids generalizing v with
  | nil => rfl
  | cons i rest ih => rw [List.foldl_cons, ih, Values.get_Add_of_ne _ _ _ _ h]

theorem params_get_count (projectID : Int) (statusIDs : List Int) (assigneeID : Option Int)
    (offset : Int) :
    (GetIssues.params projectID statusIDs assigneeID offset).get "count" = [Itoa maxCount] := by
  unfold GetIssues.params
  cases assigneeID with
  | none =>
    simp only [Values.get_foldl_Add_of_ne _ _ "statusId[]" "count" (by decide), Values.get_Set]
    simp
  | some a =>
    simp only [Values.get_foldl_Add_of_ne _ _ "statusId[]" "count" (by decide), Values.get_Set]
    simp

theorem params_get_offset (projectID : Int) (statusIDs : List Int) (assigneeID : Option Int)
    (offset : Int) :
    (GetIssues.params projectID statusIDs assigneeID offset).get "offset" = [Itoa offset] := by
  unfold GetIssues.params
  cases assigneeID with
  | none =>
    simp only [Values.get_foldl_Add_of_ne _ _ "statusId[]" "offset" (by decide), Values.get_Set]
    simp
  | some a =>
    simp only [Values.get_foldl_Add_of_ne _ _ "statusId[]" "offset" (by decide), Values.get_Set]
    simp

theorem Itoa_maxCount : Itoa maxCount = "100" := by decide

/-! ## The pagination loop -/

theorem fetchedUpTo_succ (pages : Nat → List Issue) (k : Nat) :
    fetchedUpTo pages (k + 1) = fetchedUpTo pages k ++ pages k := by
  simp [fetchedUpTo, List.range_succ, List.flatMap_append]

theorem pageProgress_succ (pages : Nat → List Issue) (k : Nat) :
    pageProgress pages (k + 1) =
      pageProgress pages k ++ [(((fetchedUpTo pages (k + 1)).length : Int), -1)] := by
  simp [pageProgress, List.range_succ]

theorem pageProgress_length (pages : Nat → List Issue) (k : Nat) :
    (pageProgress pages k).length = k := by
  simp [pageProgress]

theorem stateAfter_requests_length (c : APIClient) (projectID : Int) (statusIDs : List Int)
    (assigneeID : Option Int) (progressFn : Bool) (pages : Nat → List Issue) (k : Nat) :
    (stateAfter c projectID statusIDs assigneeID progressFn pages k).requests.length = k := by
  simp [stateAfter]

theorem loop_success (c : APIClient) (doRequest : PageSource) (projectID : Int)
    (statusIDs : List Int) (assigneeID : Option Int) (progressFn : Bool)
    (pages : Nat → List Issue) (n : Nat)
    (hok : ∀ j, j ≤ n →
      doRequest j (c.baseURL ++ "/issues")
        (GetIssues.params projectID statusIDs assigneeID (maxCount * (j : Int))) = .ok (pages j))
    (hfull : ∀ j, j < n → 100 ≤ (pages j).length)
    (hshort : (pages n).length < 100)
    (d k : Nat) (hk : k + d = n) (fuel : Nat) (hf : d < fuel) :
    GetIssues.loop c doRequest projectID statusIDs assigneeID progressFn fuel
        (stateAfter c projectID statusIDs assigneeID progressFn pages k) =
      some (.broke
        { stateAfter c projectID statusIDs assigneeID progressFn pages (n + 1) with
          offset := maxCount * (n : Int) }) := by
  induction d generalizing k fuel with
  | zero =>
    have hkn : k = n := by omega
    subst hkn
    cases fuel with
    | zero => omega
    | succ fuel =>
      have hs : ((pages k).length : Int) < maxCount := by
        unfold maxCount
        exact_mod_cast hshort
      rw [GetIssues.loop]
      simp only [stateAfter_requests_length]
      have hreq := hok k (Nat.le_refl k)
      simp only [stateAfter] at hreq ⊢
      rw [hreq]
      simp only [if_pos hs]
      cases progressFn <;>
        simp [fetchedUpTo_succ, pageProgress_succ, List.range_succ, GetIssues.request]
  | succ d ih =>
    cases fuel with
    | zero => omega
    | succ fuel =>
      have hlt : k < n := by omega
      have hs : ¬ ((pages k).length : Int) < maxCount := by
        unfold maxCount
        have := hfull k hlt
        intro h
        have h' : (pages k).length < 100 := by exact_mod_cast h
        omega
      have hnext := ih (k + 1) (by omega) fuel (by omega)
      rw [GetIssues.loop]
      simp only [stateAfter_requests_length]
      have hreq := hok k (Nat.le_of_lt hlt)
      simp only [stateAfter] at hreq hnext ⊢
      rw [hreq]
      simp only [if_neg hs]
      rw [← hnext]
      congr 1
      cases progressFn <;>
        simp [fetchedUpTo_succ, pageProgress_succ, List.range_succ, GetIssues.request, mul_add]

theorem GetIssues_success (c : APIClient) (doRequest : PageSource) (projectID : Int)
    (statusIDs : List Int) (assigneeID : Option Int) (progressFn : Bool)
    (pages : Nat → List Issue) (n : Nat)
    (hok : ∀ j, j ≤ n →
      doRequest j (c.baseURL ++ "/issues")
        (GetIssues.params projectID statusIDs assigneeID (maxCount * (j : Int))) = .ok (pages j))
    (hfull : ∀ j, j < n → 100 ≤ (pages j).length)
    (hshort : (pages n).length < 100) (fuel : Nat) (hf : n < fuel) :
    GetIssues c doRequest projectID statusIDs assigneeID progressFn fuel =
      some
        { requests :=
            (List.range (n + 1)).map (GetIssues.request c projectID statusIDs assigneeID)
          progress :=
            if progressFn then
              pageProgress pages (n + 1) ++
                [(((fetchedUpTo pages (n + 1)).length : Int),
                  ((fetchedUpTo pages (n + 1)).length : Int))]
            else []
          issues := fetchedUpTo pages (n + 1)
          err := none } := by
  have h := loop_success c doRequest projectID statusIDs assigneeID progressFn pages n
    hok hfull hshort n 0 (by omega) fuel hf
  have h0 : stateAfter c projectID statusIDs assigneeID progressFn pages 0 =
      { allIssues := [], offset := 0, requests := [], progress := [] } := by
    cases progressFn <;> simp [stateAfter, fetchedUpTo, pageProgress, maxCount]
  rw [h0] at h
  rw [GetIssues, h]
  cases progressFn <;> simp [stateAfter]

theorem fetchedUpTo_length_full (pages : Nat → List Issue) (k : Nat)
    (hfull : ∀ j, j < k → (pages j).length = 100) :
    (fetchedUpTo pages k).length = 100 * k := by
  induction k with
  | zero => simp [fetchedUpTo]
  | succ k ih =>
    rw [fetchedUpTo_succ, List.length_append, ih (fun j hj => hfull j (by omega)),
      hfull k (by omega)]
    omega

theorem fetchedUpTo_length_mono (pages : Nat → List Issue) (i j : Nat) (h : i ≤ j) :
    (fetchedUpTo pages i).length ≤ (fetchedUpTo pages j).length := by
  induction j with
  | zero =>
    have : i = 0 := by omega
    subst this
    exact Nat.le_refl _
  | succ j ih =>
    rcases Nat.eq_or_lt_of_le h with e | hlt
    · subst e
      exact Nat.le_refl _
    · rw [fetchedUpTo_succ, List.length_append]
      have := ih (by omega)
      omega

theorem pageProgress_getElem? (pages : Nat → List Issue) (k i : Nat) (hi : i < k) :
    (pageProgress pages k)[i]? = some (((fetchedUpTo pages (i + 1)).length : Int), -1) := by
  simp [pageProgress, List.getElem?_range hi]

theorem paginationSource_ok (ep : String) (ps : Values) (j : Nat) :
    paginationSource j ep ps = .ok (paginationPages j) := rfl

theorem fullThenEmptySource_ok (ep : String) (ps : Values) (j : Nat) :
    fullThenEmptySource j ep ps = .ok (fullThenEmptyPages j) := rfl

theorem paginationPages_full (j : Nat) (hj : j < 1) : (paginationPages j).length = 100 := by
  have : j = 0 := by omega
  subst this
  simp [paginationPages]

theorem fullThenEmptyPages_full (j : Nat) (hj : j < 1) :
    (fullThenEmptyPages j).length = 100 := by
  have : j = 0 := by omega
  subst this
  simp [fullThenEmptyPages]

/-! ## Number of page requests -/

/-- C8 as stated fails: a source that serves one page of 100 issues and then an empty
page (so `N = 100`) makes `GetIssues` issue two requests, while `⌈100/100⌉` is one. -/
theorem GetIssues_full_then_empty :
    ∃ run, GetIssues {} fullThenEmptySource 1 [1, 2, 3] none false 2 = some run ∧
      run.err = none ∧ run.issues.length = 100 ∧ run.requests.length = 2 ∧
      run.requests.length ≠ (run.issues.length + 99) / 100 := by
  have h := GetIssues_success {} fullThenEmptySource 1 [1, 2, 3] none false fullThenEmptyPages 1
    (fun j _ => fullThenEmptySource_ok _ _ j)
    (fun j hj => Nat.le_of_eq (fullThenEmptyPages_full j hj).symm)
    (by simp [fullThenEmptyPages]) 2 (by omega)
  refine ⟨_, h, rfl, ?_⟩
  have hlen : (fetchedUpTo fullThenEmptyPages (1 + 1)).length = 100 := by
    rw [fetchedUpTo_succ, List.length_append,
      fetchedUpTo_length_full _ 1 fullThenEmptyPages_full]
    simp [fullThenEmptyPages]
  simp [hlen]

/-- C8 amended: for a source that serves `k` pages of exactly 100 issues and then a
page of fewer than 100, `GetIssues` with enough fuel succeeds after exactly `k + 1`
requests, the last being the first short page; with `N` issues in total this is
`⌊N/100⌋ + 1`, which equals `⌈N/100⌉` whenever `N` is not a multiple of 100. -/
theorem GetIssues_request_count (c : APIClient) (doRequest : PageSource) (projectID : Int)
    (statusIDs : List Int) (assigneeID : Option Int) (progressFn : Bool)
    (pages : Nat → List Issue) (k : Nat)
    (hok : ∀ j, j ≤ k →
      doRequest j (c.baseURL ++ "/issues")
        (GetIssues.params projectID statusIDs assigneeID (maxCount * (j : Int))) = .ok (pages j))
    (hfull : ∀ j, j < k → (pages j).length = 100)
    (hshort : (pages k).length < 100) (fuel : Nat) (hf : k < fuel) :
    ∃ run, GetIssues c doRequest projectID statusIDs assigneeID progressFn fuel = some run ∧
      run.err = none ∧
      run.issues.length = 100 * k + (pages k).length ∧
      run.requests.length = k + 1 ∧
      run.requests.length = run.issues.length / 100 + 1 ∧
      (run.issues.length % 100 ≠ 0 → run.requests.length = (run.issues.length + 99) / 100) := by
  have h := GetIssues_success c doRequest projectID statusIDs assigneeID progressFn pages k
    hok (fun j hj => Nat.le_of_eq (hfull j hj).symm) hshort fuel hf
  have hlen : (fetchedUpTo pages (k + 1)).length = 100 * k + (pages k).length := by
    rw [fetchedUpTo_succ, List.length_append, fetchedUpTo_length_full pages k hfull]
  refine ⟨_, h, rfl, hlen, by simp, ?_, ?_⟩
  · simp only [List.length_map, List.length_range, hlen]
    omega
  · simp only [List.length_map, List.length_range, hlen]
    omega

/-- C8 amended, on the source of `TestAPIClient_GetIssues_Pagination`: pages of 100
and 50 issues give two requests and 150 issues. -/
theorem GetIssues_request_count_witness :
    ∃ run, GetIssues {} paginationSource 1 [1, 2, 3] none false 2 = some run ∧
      run.issues.length = 150 ∧ run.requests.length = 2 ∧
      run.requests.length = (run.issues.length + 99) / 100 := by
  obtain ⟨run, h1, _, h3, h4, _, h6⟩ :=
    GetIssues_request_count {} paginationSource 1 [1, 2, 3] none false paginationPages 1
      (fun j _ => paginationSource_ok _ _ j) paginationPages_full
      (by simp [paginationPages]) 2 (by omega)
  have h150 : run.issues.length = 150 := by
    rw [h3]
    simp [paginationPages]
  exact ⟨run, h1, h150, h4, h6 (by omega)⟩

/-! ## Result and progress of a successful fetch -/

theorem request_getElem? (c : APIClient) (projectID : Int) (statusIDs : List Int)
    (assigneeID : Option Int) (n i : Nat) (hi : i < n) :
    ((List.range n).map (GetIssues.request c projectID statusIDs assigneeID))[i]? =
      some (c.baseURL ++ "/issues",
        GetIssues.params projectID statusIDs assigneeID (maxCount * (i : Int))) := by
  simp [List.getElem?_range hi, GetIssues.request]

theorem pageProgress_fst_pairwise (pages : Nat → List Issue) (k : Nat) :
    List.Pairwise (· ≤ ·) ((pageProgress pages k).map Prod.fst) := by
  rw [pageProgress, List.map_map, List.pairwise_map]
  refine (List.pairwise_le_range k).imp ?_
  intro a b hab
  simp only [Function.comp_apply]
  exact_mod_cast fetchedUpTo_length_mono pages (a + 1) (b + 1) (by omega)

theorem pageProgress_fst_le (pages : Nat → List Issue) (k : Nat) (a : Int)
    (ha : a ∈ (pageProgress pages k).map Prod.fst) :
    a ≤ ((fetchedUpTo pages k).length : Int) := by
  simp only [pageProgress, List.map_map, List.mem_map, List.mem_range, Function.comp_apply]
    at ha
  obtain ⟨i, hi, rfl⟩ := ha
  exact_mod_cast fetchedUpTo_length_mono pages (i + 1) k (by omega)

/-- C9: if the requests that `GetIssues` makes are answered without error by the pages
`pages 0, pages 1, ...` and `pages n` is the first with fewer than 100 issues, then
`GetIssues` with enough fuel returns, without error, the concatenation of the pages
`0 .. n`; it makes exactly `n + 1` requests, and request number `i` (from zero) goes to
the issues endpoint with `count = 100` and `offset = 100 * i`. -/
theorem GetIssues_concat (c : APIClient) (doRequest : PageSource) (projectID : Int)
    (statusIDs : List Int) (assigneeID : Option Int) (progressFn : Bool)
    (pages : Nat → List Issue) (n : Nat)
    (hok : ∀ j, j ≤ n →
      doRequest j (c.baseURL ++ "/issues")
        (GetIssues.params projectID statusIDs assigneeID (maxCount * (j : Int))) = .ok (pages j))
    (hfull : ∀ j, j < n → ¬ (pages j).length < 100)
    (hshort : (pages n).length < 100) (fuel : Nat) (hf : n < fuel) :
    ∃ run, GetIssues c doRequest projectID statusIDs assigneeID progressFn fuel = some run ∧
      run.err = none ∧
      run.issues = (List.range (n + 1)).flatMap pages ∧
      run.requests.length = n + 1 ∧
      ∀ i, i < n + 1 →
        ∃ ps, run.requests[i]? = some (c.baseURL ++ "/issues", ps) ∧
          ps.get "count" = ["100"] ∧ ps.get "offset" = [Itoa (100 * (i : Int))] := by
  have h := GetIssues_success c doRequest projectID statusIDs assigneeID progressFn pages n
    hok (fun j hj => Nat.le_of_not_lt (hfull j hj)) hshort fuel hf
  refine ⟨_, h, rfl, rfl, by simp, ?_⟩
  intro i hi
  refine ⟨_, request_getElem? c projectID statusIDs assigneeID (n + 1) i hi, ?_, ?_⟩
  · rw [params_get_count, Itoa_maxCount]
  · rw [params_get_offset]
    rfl

/-- C9, on the source of `TestAPIClient_GetIssues`: one page of 50 issues is returned
after a single request, which carries offset 0. -/
theorem GetIssues_concat_witness :
    ∃ run, GetIssues {} singlePageSource 1 [1, 2, 3] none true 1 = some run ∧
      run.err = none ∧ run.issues = List.replicate 50 {} ∧ run.requests.length = 1 := by
  obtain ⟨run, h1, h2, h3, h4, _⟩ :=
    GetIssues_concat {} singlePageSource 1 [1, 2, 3] none true (fun _ => List.replicate 50 {}) 0
      (fun _ _ => rfl) (fun j hj => absurd hj (Nat.not_lt_zero j)) (by simp) 1 (by omega)
  refine ⟨run, h1, h2, ?_, h4⟩
  rw [h3]
  rfl

/-- C10: when a callback is supplied and the fetch succeeds after `n + 1` page requests,
the callback is called `n + 2` times: after page `i` with the number of issues of the
pages `0 .. i` and `-1`, and then once with `(total, total)`, `total` being the length
of the returned list; the first arguments never decrease, and the last call is the
only one with two equal arguments. -/
theorem GetIssues_progress (c : APIClient) (doRequest : PageSource) (projectID : Int)
    (statusIDs : List Int) (assigneeID : Option Int)
    (pages : Nat → List Issue) (n : Nat)
    (hok : ∀ j, j ≤ n →
      doRequest j (c.baseURL ++ "/issues")
        (GetIssues.params projectID statusIDs assigneeID (maxCount * (j : Int))) = .ok (pages j))
    (hfull : ∀ j, j < n → ¬ (pages j).length < 100)
    (hshort : (pages n).length < 100) (fuel : Nat) (hf : n < fuel) :
    ∃ run, GetIssues c doRequest projectID statusIDs assigneeID true fuel = some run ∧
      run.err = none ∧
      run.requests.length = n + 1 ∧
      run.progress.length = run.requests.length + 1 ∧
      (∀ i, i < n + 1 →
        run.progress[i]? = some ((((List.range (i + 1)).flatMap pages).length : Int), -1)) ∧
      run.progress[n + 1]? = some ((run.issues.length : Int), (run.issues.length : Int)) ∧
      List.Pairwise (· ≤ ·) (run.progress.map Prod.fst) ∧
      ∀ i f t, run.progress[i]? = some (f, t) → (f = t ↔ i = n + 1) := by
  have h := GetIssues_success c doRequest projectID statusIDs assigneeID true pages n
    hok (fun j hj => Nat.le_of_not_lt (hfull j hj)) hshort fuel hf
  have hlen := pageProgress_length pages (n + 1)
  refine ⟨_, h, rfl, by simp, by simp [hlen], ?_, ?_, ?_, ?_⟩
  · intro i hi
    simp only [if_true]
    rw [List.getElem?_append_left (by rw [hlen]; exact hi)]
    exact pageProgress_getElem? pages (n + 1) i hi
  · simp only [if_true]
    rw [List.getElem?_append_right (by rw [hlen]), hlen]
    simp
  · simp only [if_true, List.map_append, List.map_cons, List.map_nil]
    rw [List.pairwise_append]
    refine ⟨pageProgress_fst_pairwise pages (n + 1), List.pairwise_singleton _ _, ?_⟩
    intro a ha b hb
    rw [List.mem_singleton] at hb
    subst hb
    exact pageProgress_fst_le pages (n + 1) a ha
  · intro i f t hi
    simp only [if_true] at hi
    rcases Nat.lt_trichotomy i (n + 1) with hlt | heq | hgt
    · rw [List.getElem?_append_left (by rw [hlen]; exact hlt),
        pageProgress_getElem? pages (n + 1) i hlt] at hi
      simp only [Option.some.injEq, Prod.mk.injEq] at hi
      constructor
      · intro hft
        have h0 : (0 : Int) ≤ f := by
          rw [← hi.1]
          exact Int.ofNat_nonneg _
        omega
      · intro hin
        omega
    · subst heq
      rw [List.getElem?_append_right (by rw [hlen]), hlen] at hi
      simp only [Nat.sub_self, List.getElem?_cons_zero, Option.some.injEq, Prod.mk.injEq] at hi
      constructor
      · intro _
        rfl
      · intro _
        rw [← hi.1, ← hi.2]
    · rw [List.getElem?_eq_none (by simp [hlen]; omega)] at hi
      cases hi

/-- C10, on the source of `TestAPIClient_GetIssues_Pagination`: the callback is called
with `(100, -1)`, `(150, -1)` and `(150, 150)`. -/
theorem GetIssues_progress_witness :
    ∃ run, GetIssues {} paginationSource 1 [1, 2, 3] none true 2 = some run ∧
      run.requests.length = 2 ∧ run.progress.length = 3 ∧
      run.progress[0]? = some (100, -1) ∧ run.progress[1]? = some (150, -1) := by
  obtain ⟨run, h1, _, h3, h4, h5, _⟩ :=
    GetIssues_progress {} paginationSource 1 [1, 2, 3] none paginationPages 1
      (fun j _ => paginationSource_ok _ _ j)
      (fun j hj => by rw [paginationPages_full j hj]; omega)
      (by simp [paginationPages]) 2 (by omega)
  have e0 : ((List.range (0 + 1)).flatMap paginationPages).length = 100 := rfl
  have e1 : ((List.range (1 + 1)).flatMap paginationPages).length = 150 := rfl
  refine ⟨run, h1, h3, by rw [h4, h3], ?_, ?_⟩
  · rw [h5 0 (by omega), e0]
    rfl
  · rw [h5 1 (by omega), e1]
    rfl

/-! ## Every parameter of a page request -/

theorem Values.get_Add_self (v : Values) (key value : String) :
    (v.Add key value).get key = v.get key ++ [value] := by
  induction v with
  | nil => simp [Values.Add, Values.get]
  | cons e v ih =>
    obtain ⟨k, vs⟩ := e
    by_cases hk : k = key
    · subst hk
      simp [Values.Add, Values.get]
    · simp [Values.Add, Values.get, hk, ih]

theorem Values.get_foldl_Add_self (ids : List Int) (v : Values) (key : String) :
    (ids.foldl (fun ps statusID => ps.Add key (Itoa statusID)) v).get key =
      v.get key ++ ids.map Itoa := by
  induction ids generalizing v with
  | nil => simp
  | cons i rest ih => rw [List.foldl_cons, ih, Values.get_Add_self]; simp

theorem Values.mem_keys_Set (v : Values) (key value key' : String) :
    key' ∈ (v.Set key value).keys ↔ key' = key ∨ key' ∈ v.keys := by
  induction v with
  | nil => simp [Values.Set, Values.keys]
  | cons e v ih =>
    obtain ⟨k, vs⟩ := e
    by_cases hk : k = key
    · subst hk
      simp [Values.Set, Values.keys]
    · simp only [Values.keys] at ih
      simp only [Values.Set, hk, if_false, Values.keys, List.map_cons, List.mem_cons, ih]
      tauto

theorem Values.mem_keys_Add (v : Values) (key value key' : String) :
    key' ∈ (v.Add key value).keys ↔ key' = key ∨ key' ∈ v.keys := by
  induction v with
  | nil => simp [Values.Add, Values.keys]
  | cons e v ih =>
    obtain ⟨k, vs⟩ := e
    by_cases hk : k = key
    · subst hk
      simp [Values.Add, Values.keys]
    · simp only [Values.keys] at ih
      simp only [Values.Add, hk, if_false, Values.keys, List.map_cons, List.mem_cons, ih]
      tauto

theorem Values.mem_keys_foldl_Add (ids : List Int) (v : Values) (key key' : String) :
    key' ∈ (ids.foldl (fun ps statusID => ps.Add key (Itoa statusID)) v).keys ↔
      (ids ≠ [] ∧ key' = key) ∨ key' ∈ v.keys := by
  induction ids generalizing v with
  | nil => simp
  | cons i rest ih =>
    rw [List.foldl_cons, ih, Values.mem_keys_Add]
    simp only [ne_eq, reduceCtorEq, not_false_eq_true, true_and]
    tauto

theorem Values.get_of_not_mem_keys (v : Values) (key : String) (h : key ∉ v.keys) :
    v.get key = [] := by
  induction v with
  | nil => rfl
  | cons e v ih =>
    obtain ⟨k, vs⟩ := e
    simp only [Values.keys, List.map_cons, List.mem_cons, not_or] at h
    simp only [Values.get]
    rw [if_neg (fun e => h.1 e.symm)]
    exact ih h.2

theorem params_get_fixed (projectID : Int) (statusIDs : List Int) (assigneeID : Option Int)
    (offset : Int) :
    (GetIssues.params projectID statusIDs assigneeID offset).get "sort" = ["created"] ∧
      (GetIssues.params projectID statusIDs assigneeID offset).get "order" = ["asc"] ∧
      (GetIssues.params projectID statusIDs assigneeID offset).get "projectId[]" =
        [Itoa projectID] := by
  unfold GetIssues.params
  cases assigneeID with
  | none =>
    simp only [Values.get_foldl_Add_of_ne _ _ "statusId[]" "sort" (by decide),
      Values.get_foldl_Add_of_ne _ _ "statusId[]" "order" (by decide),
      Values.get_foldl_Add_of_ne _ _ "statusId[]" "projectId[]" (by decide), Values.get_Set]
    simp
  | some a =>
    simp only [Values.get_foldl_Add_of_ne _ _ "statusId[]" "sort" (by decide),
      Values.get_foldl_Add_of_ne _ _ "statusId[]" "order" (by decide),
      Values.get_foldl_Add_of_ne _ _ "statusId[]" "projectId[]" (by decide), Values.get_Set]
    simp

theorem params_get_statusId (projectID : Int) (statusIDs : List Int) (assigneeID : Option Int)
    (offset : Int) :
    (GetIssues.params projectID statusIDs assigneeID offset).get "statusId[]" =
      statusIDs.map Itoa := by
  unfold GetIssues.params
  cases assigneeID with
  | none =>
    simp only [Values.get_foldl_Add_self, Values.get_Set]
    simp [Values.get]
  | some a =>
    simp only [Values.get_foldl_Add_self, Values.get_Set]
    simp [Values.get]

theorem params_keys_statusId (projectID : Int) (assigneeID : Option Int) (offset : Int) :
    "statusId[]" ∉ (GetIssues.params projectID [] assigneeID offset).keys := by
  unfold GetIssues.params
  cases assigneeID with
  | none =>
    simp only [List.foldl_nil, Values.mem_keys_Set]
    simp [Values.keys]
  | some a =>
    simp only [List.foldl_nil, Values.mem_keys_Set]
    simp [Values.keys]

theorem params_get_assigneeId (projectID : Int) (statusIDs : List Int) (a : Int)
    (offset : Int) :
    (GetIssues.params projectID statusIDs (some a) offset).get "assigneeId[]" = [Itoa a] := by
  unfold GetIssues.params
  simp [Values.get_Set]

theorem params_keys_assigneeId (projectID : Int) (statusIDs : List Int) (offset : Int) :
    "assigneeId[]" ∉ (GetIssues.params projectID statusIDs none offset).keys := by
  unfold GetIssues.params
  simp only [Values.mem_keys_foldl_Add, Values.mem_keys_Set]
  simp [Values.keys]

theorem loop_requests_form (c : APIClient) (doRequest : PageSource) (projectID : Int)
    (statusIDs : List Int) (assigneeID : Option Int) (progressFn : Bool)
    (fuel : Nat) (st : FetchState) (out : LoopExit)
    (hst : ∀ r ∈ st.requests, ∃ offset : Int,
      r = (c.baseURL ++ "/issues", GetIssues.params projectID statusIDs assigneeID offset))
    (h : GetIssues.loop c doRequest projectID statusIDs assigneeID progressFn fuel st = some out) :
    ∀ r ∈ out.requests, ∃ offset : Int,
      r = (c.baseURL ++ "/issues", GetIssues.params projectID statusIDs assigneeID offset) := by
  induction fuel generalizing st with
  | zero => simp [GetIssues.loop] at h
  | succ fuel ih =>
    have hnew : ∀ r ∈ st.requests ++
        [(c.baseURL ++ "/issues", GetIssues.params projectID statusIDs assigneeID st.offset)],
        ∃ offset : Int,
          r = (c.baseURL ++ "/issues",
            GetIssues.params projectID statusIDs assigneeID offset) := by
      intro r hr
      rcases List.mem_append.1 hr with h1 | h1
      · exact hst r h1
      · exact ⟨st.offset, by simpa using h1⟩
    rw [GetIssues.loop] at h
    cases hreq : doRequest st.requests.length (c.baseURL ++ "/issues")
        (GetIssues.params projectID statusIDs assigneeID st.offset) with
    | error err =>
      simp only [hreq, Option.some.injEq] at h
      subst h
      exact hnew
    | ok issues =>
      simp only [hreq] at h
      split at h
      · simp only [Option.some.injEq] at h
        subst h
        exact hnew
      · exact ih _ hnew h

theorem GetIssues_requests_form (c : APIClient) (doRequest : PageSource) (projectID : Int)
    (statusIDs : List Int) (assigneeID : Option Int) (progressFn : Bool)
    (fuel : Nat) (run : GetIssuesRun)
    (h : GetIssues c doRequest projectID statusIDs assigneeID progressFn fuel = some run) :
    ∀ r ∈ run.requests, ∃ offset : Int,
      r = (c.baseURL ++ "/issues", GetIssues.params projectID statusIDs assigneeID offset) := by
  rw [GetIssues] at h
  cases hl : GetIssues.loop c doRequest projectID statusIDs assigneeID progressFn fuel
      { allIssues := [], offset := 0, requests := [], progress := [] } with
  | none => simp [hl] at h
  | some out =>
    have hform := loop_requests_form c doRequest projectID statusIDs assigneeID progressFn
      fuel _ out (by simp) hl
    cases out with
    | returned r0 =>
      simp only [hl, Option.some.injEq] at h
      subst h
      exact hform
    | broke st =>
      simp only [hl, Option.some.injEq] at h
      subst h
      exact hform

theorem loop_failure (c : APIClient) (doRequest : PageSource) (projectID : Int)
    (statusIDs : List Int) (assigneeID : Option Int) (progressFn : Bool)
    (pages : Nat → List Issue) (n : Nat) (e : GoError)
    (hok : ∀ j, j < n →
      doRequest j (c.baseURL ++ "/issues")
        (GetIssues.params projectID statusIDs assigneeID (maxCount * (j : Int))) = .ok (pages j))
    (hfull : ∀ j, j < n → 100 ≤ (pages j).length)
    (herr : doRequest n (c.baseURL ++ "/issues")
        (GetIssues.params projectID statusIDs assigneeID (maxCount * (n : Int))) = .error e)
    (d k : Nat) (hk : k + d = n) (fuel : Nat) (hf : d < fuel) :
    GetIssues.loop c doRequest projectID statusIDs assigneeID progressFn fuel
        (stateAfter c projectID statusIDs assigneeID progressFn pages k) =
      some (.returned
        { requests :=
            (List.range (n + 1)).map (GetIssues.request c projectID statusIDs assigneeID)
          progress := if progressFn then pageProgress pages n else []
          issues := []
          err := some (.wrapf "failed to get issues: " e) }) := by
  induction d generalizing k fuel with
  | zero =>
    have hkn : k = n := by omega
    subst hkn
    cases fuel with
    | zero => omega
    | succ fuel =>
      rw [GetIssues.loop]
      simp only [stateAfter_requests_length]
      simp only [stateAfter] at herr ⊢
      rw [herr]
      simp [List.range_succ, GetIssues.request]
  | succ d ih =>
    cases fuel with
    | zero => omega
    | succ fuel =>
      have hlt : k < n := by omega
      have hs : ¬ ((pages k).length : Int) < maxCount := by
        unfold maxCount
        have := hfull k hlt
        intro h
        have h' : (pages k).length < 100 := by exact_mod_cast h
        omega
      have hnext := ih (k + 1) (by omega) fuel (by omega)
      rw [GetIssues.loop]
      simp only [stateAfter_requests_length]
      have hreq := hok k hlt
      simp only [stateAfter] at hreq hnext ⊢
      rw [hreq]
      simp only [if_neg hs]
      rw [← hnext]
      congr 1
      cases progressFn <;>
        simp [fetchedUpTo_succ, pageProgress_succ, List.range_succ, GetIssues.request, mul_add]

theorem GetIssues_failure (c : APIClient) (doRequest : PageSource) (projectID : Int)
    (statusIDs : List Int) (assigneeID : Option Int) (progressFn : Bool)
    (pages : Nat → List Issue) (n : Nat) (e : GoError)
    (hok : ∀ j, j < n →
      doRequest j (c.baseURL ++ "/issues")
        (GetIssues.params projectID statusIDs assigneeID (maxCount * (j : Int))) = .ok (pages j))
    (hfull : ∀ j, j < n → 100 ≤ (pages j).length)
    (herr : doRequest n (c.baseURL ++ "/issues")
        (GetIssues.params projectID statusIDs assigneeID (maxCount * (n : Int))) = .error e)
    (fuel : Nat) (hf : n < fuel) :
    GetIssues c doRequest projectID statusIDs assigneeID progressFn fuel =
      some
        { requests :=
            (List.range (n + 1)).map (GetIssues.request c projectID statusIDs assigneeID)
          progress := if progressFn then pageProgress pages n else []
          issues := []
          err := some (.wrapf "failed to get issues: " e) } := by
  have h := loop_failure c doRequest projectID statusIDs assigneeID progressFn pages n e
    hok hfull herr n 0 (by omega) fuel hf
  have h0 : stateAfter c projectID statusIDs assigneeID progressFn pages 0 =
      { allIssues := [], offset := 0, requests := [], progress := [] } := by
    cases progressFn <;> simp [stateAfter, fetchedUpTo, pageProgress, maxCount]
  rw [h0] at h
  rw [GetIssues, h]

theorem pageProgress_snd (pages : Nat → List Issue) (k : Nat) (call : Int × Int)
    (h : call ∈ pageProgress pages k) : call.2 = -1 := by
  simp only [pageProgress, List.mem_map] at h
  obtain ⟨i, _, rfl⟩ := h
  rfl

/-! ## Failure of a page fetch -/

/-- C11: if the requests `0 .. n-1` are answered by pages that do not end the loop and
request `n` fails with `e`, then `GetIssues` with enough fuel returns the wrapped error
and no issues; the requests made are exactly the requests `0 .. n`, each once (nothing
after the failing one, no retry), and every progress call made has `-1` as its second
argument, so the final `(total, total)` call is not made. -/
theorem GetIssues_fail_fast (c : APIClient) (doRequest : PageSource) (projectID : Int)
    (statusIDs : List Int) (assigneeID : Option Int) (progressFn : Bool)
    (pages : Nat → List Issue) (n : Nat) (e : GoError)
    (hok : ∀ j, j < n →
      doRequest j (c.baseURL ++ "/issues")
        (GetIssues.params projectID statusIDs assigneeID (maxCount * (j : Int))) = .ok (pages j))
    (hfull : ∀ j, j < n → ¬ (pages j).length < 100)
    (herr : doRequest n (c.baseURL ++ "/issues")
        (GetIssues.params projectID statusIDs assigneeID (maxCount * (n : Int))) = .error e)
    (fuel : Nat) (hf : n < fuel) :
    ∃ run, GetIssues c doRequest projectID statusIDs assigneeID progressFn fuel = some run ∧
      run.err = some (.wrapf "failed to get issues: " e) ∧
      run.issues = [] ∧
      run.requests =
        (List.range (n + 1)).map (GetIssues.request c projectID statusIDs assigneeID) ∧
      run.requests.length = n + 1 ∧
      run.progress.length = (if progressFn then n else 0) ∧
      ∀ call ∈ run.progress, call.2 = -1 := by
  have h := GetIssues_failure c doRequest projectID statusIDs assigneeID progressFn pages n e
    hok (fun j hj => Nat.le_of_not_lt (hfull j hj)) herr fuel hf
  refine ⟨_, h, rfl, rfl, rfl, by simp, ?_, ?_⟩
  · cases progressFn <;> simp [pageProgress_length]
  · intro call hcall
    cases progressFn
    · simp at hcall
    · simp only [if_true] at hcall
      exact pageProgress_snd pages n call hcall

/-- C11, on a source that serves 100 issues and then fails: two requests, no issues,
one progress call `(100, -1)`. -/
theorem GetIssues_fail_fast_witness :
    ∃ run, GetIssues {} failingSource 1 [1, 2, 3] none true 2 = some run ∧
      run.err = some (.wrapf "failed to get issues: " (.errorf "connection reset")) ∧
      run.issues = [] ∧ run.requests.length = 2 ∧ run.progress.length = 1 := by
  obtain ⟨run, h1, h2, h3, _, h5, h6, _⟩ :=
    GetIssues_fail_fast {} failingSource 1 [1, 2, 3] none true
      (fun _ => List.replicate 100 {}) 1 (.errorf "connection reset")
      (fun j hj => by
        have : j = 0 := by omega
        subst this
        rfl)
      (fun j _ => by simp) rfl 2 (by omega)
  exact ⟨run, h1, h2, h3, h5, h6⟩

/-! ## Parameters of every page request -/

theorem httpQuery_get_apiKey (c : APIClient) (call : String × Values) :
    (GetIssues.httpQuery c call).get "apiKey" = [c.apiKey] := by
  simp [GetIssues.httpQuery, doRequest.httpRequest, Values.get_Set]

theorem httpQuery_get_of_ne (c : APIClient) (call : String × Values) (key : String)
    (h : "apiKey" ≠ key) :
    (GetIssues.httpQuery c call).get key = call.2.get key := by
  simp [GetIssues.httpQuery, doRequest.httpRequest, Values.get_Set, h]

theorem httpQuery_mem_keys (c : APIClient) (call : String × Values) (key : String) :
    key ∈ (GetIssues.httpQuery c call).keys ↔ key = "apiKey" ∨ key ∈ call.2.keys := by
  simp [GetIssues.httpQuery, doRequest.httpRequest, Values.mem_keys_Set]

/-- C12: every request that `GetIssues` makes, as sent by `doRequest`, carries
`sort=created`, `order=asc`, `count=100`, `projectId[]` equal to the project id, the
elements of `statusIDs` in order under `statusId[]` (and no such key when the list is
empty), `assigneeId[]` exactly when an assignee id is supplied, and `apiKey` equal to
the key of the client. -/
theorem GetIssues_request_params (c : APIClient) (doRequest : PageSource) (projectID : Int)
    (statusIDs : List Int) (assigneeID : Option Int) (progressFn : Bool)
    (fuel : Nat) (run : GetIssuesRun)
    (hrun : GetIssues c doRequest projectID statusIDs assigneeID progressFn fuel = some run) :
    ∀ call ∈ run.requests,
      call.1 = c.baseURL ++ "/issues" ∧
      (GetIssues.httpQuery c call).get "sort" = ["created"] ∧
      (GetIssues.httpQuery c call).get "order" = ["asc"] ∧
      (GetIssues.httpQuery c call).get "count" = ["100"] ∧
      (GetIssues.httpQuery c call).get "projectId[]" = [Itoa projectID] ∧
      (GetIssues.httpQuery c call).get "statusId[]" = statusIDs.map Itoa ∧
      (statusIDs = [] → "statusId[]" ∉ (GetIssues.httpQuery c call).keys) ∧
      (∀ a, assigneeID = some a →
        (GetIssues.httpQuery c call).get "assigneeId[]" = [Itoa a]) ∧
      (assigneeID = none → "assigneeId[]" ∉ (GetIssues.httpQuery c call).keys) ∧
      (GetIssues.httpQuery c call).get "apiKey" = [c.apiKey] := by
  intro call hcall
  obtain ⟨offset, rfl⟩ :=
    GetIssues_requests_form c doRequest projectID statusIDs assigneeID progressFn fuel run hrun
      call hcall
  obtain ⟨hsort, horder, hproj⟩ := params_get_fixed projectID statusIDs assigneeID offset
  refine ⟨rfl, ?_, ?_, ?_, ?_, ?_, ?_, ?_, ?_, httpQuery_get_apiKey c _⟩
  · rw [httpQuery_get_of_ne c _ "sort" (by decide)]
    exact hsort
  · rw [httpQuery_get_of_ne c _ "order" (by decide)]
    exact horder
  · rw [httpQuery_get_of_ne c _ "count" (by decide)]
    simpa only [Itoa_maxCount] using params_get_count projectID statusIDs assigneeID offset
  · rw [httpQuery_get_of_ne c _ "projectId[]" (by decide)]
    exact hproj
  · rw [httpQuery_get_of_ne c _ "statusId[]" (by decide)]
    exact params_get_statusId projectID statusIDs assigneeID offset
  · intro hempty
    subst hempty
    rw [httpQuery_mem_keys]
    intro h
    rcases h with h | h
    · exact absurd h (by decide)
    · exact params_keys_statusId projectID assigneeID offset h
  · intro a ha
    subst ha
    rw [httpQuery_get_of_ne c _ "assigneeId[]" (by decide)]
    exact params_get_assigneeId projectID statusIDs a offset
  · intro hnone
    subst hnone
    rw [httpQuery_mem_keys]
    intro h
    rcases h with h | h
    · exact absurd h (by decide)
    · exact params_keys_assigneeId projectID statusIDs offset h

/-- C12, on the call of `TestAPIClient_GetIssues`: the single request carries the three
status ids, no assignee and the configured key. -/
theorem GetIssues_request_params_witness :
    ∃ run, GetIssues { apiKey := "test-api-key" } singlePageSource 1 [1, 2, 3] none false 1 =
        some run ∧
      ∀ call ∈ run.requests,
        (GetIssues.httpQuery { apiKey := "test-api-key" } call).get "statusId[]" =
            ["1", "2", "3"] ∧
          "assigneeId[]" ∉ (GetIssues.httpQuery { apiKey := "test-api-key" } call).keys ∧
          (GetIssues.httpQuery { apiKey := "test-api-key" } call).get "apiKey" =
            ["test-api-key"] := by
  have hrun := GetIssues_success { apiKey := "test-api-key" } singlePageSource 1 [1, 2, 3] none
    false (fun _ => List.replicate 50 {}) 0 (fun _ _ => rfl)
    (fun j hj => absurd hj (Nat.not_lt_zero j)) (by simp) 1 (by omega)
  refine ⟨_, hrun, ?_⟩
  intro call hcall
  obtain ⟨_, _, _, _, _, h6, _, _, h9, h10⟩ :=
    GetIssues_request_params { apiKey := "test-api-key" } singlePageSource 1 [1, 2, 3] none
      false 1 _ hrun call hcall
  exact ⟨h6.trans (by decide), h9 rfl, h10⟩

/-! ## Selection of the renderer -/

/-- C16: `NewFormatter` maps every token to a renderer: `"json"` to the JSON renderer,
`"markdown"` to the Markdown renderer and every other token (`"txt"`, the empty
string, an unknown value) to the plain-text renderer; the extensions are `json`, `md`
and `txt`, all lower-case and without a leading dot. -/
theorem NewFormatter_mapping (format : OutputFormat) :
    NewFormatter format =
        (if format = "json" then Formatter.JSONFormatter
          else if format = "markdown" then Formatter.MarkdownFormatter
          else Formatter.TXTFormatter) ∧
      (NewFormatter "json").Extension = "json" ∧
      (NewFormatter "markdown").Extension = "md" ∧
      (NewFormatter "txt").Extension = "txt" ∧
      (NewFormatter "").Extension = "txt" ∧
      (NewFormatter "yaml").Extension = "txt" ∧
      (NewFormatter "JSON").Extension = "txt" ∧
      ((NewFormatter format).Extension = "json" ∨ (NewFormatter format).Extension = "md" ∨
        (NewFormatter format).Extension = "txt") ∧
      (NewFormatter format).Extension.toList.all Char.isLower = true ∧
      (NewFormatter format).Extension.toList.head? ≠ some '.' := by
  refine ⟨rfl, by decide, by decide, by decide, by decide, by decide, by decide, ?_, ?_, ?_⟩
  · cases (NewFormatter format) <;> simp [Formatter.Extension]
  · cases (NewFormatter format) <;> decide
  · cases (NewFormatter format) <;> decide

/-! ## Placeholders for absent fields -/

/-- C17 as stated fails: for an issue without assignee the Markdown renderer writes the
assignee row with the placeholder `-`, not with the marker `(未割当)`. -/
theorem MarkdownFormatter_unassigned_dash :
    ¬ (∀ issue : Issue, issue.Assignee = none →
        TXTFormatter.getAssigneeName issue = "(未割当)" ∧
          MarkdownFormatter.getAssigneeName issue = "(未割当)" ∧
          JSONFormatter.getAssigneeName issue = none) := by
  intro h
  exact absurd (h bareIssue rfl).2.1 (by decide)

/-- C17 amended: for an issue without assignee the plain-text renderer writes
`(未割当)`, the Markdown renderer writes `-` and the JSON renderer yields nil, which
is `null` in the document; for an issue with an assignee all three give the name of
the assignee.  The Markdown block of an unassigned issue is shown in full. -/
theorem getAssigneeName_spec (issue : Issue) (timeFormat : TimeFormat) :
    TXTFormatter.getAssigneeName issue =
        (match issue.Assignee with
          | some assignee => assignee.Name
          | none => "(未割当)") ∧
      MarkdownFormatter.getAssigneeName issue =
        (match issue.Assignee with
          | some assignee => assignee.Name
          | none => "-") ∧
      JSONFormatter.getAssigneeName issue = issue.Assignee.map (·.Name) ∧
      Json.ofStringPtr (JSONFormatter.getAssigneeName issue) =
        (match issue.Assignee with
          | some assignee => Json.str assignee.Name
          | none => Json.null) ∧
      MarkdownFormatter.formatIssue timeFormat bareHeap (some 0) =
        .ok (("## [" ++ "TEST-1" ++ "] " ++ "Test" ++ "\n") ++
          "| 項目 | 内容 |\n" ++
          "|------|------|\n" ++
          ("| 状態 | " ++ "-" ++ " |\n") ++
          ("| 優先度 | " ++ "-" ++ " |\n") ++
          ("| 担当者 | " ++ "-" ++ " |\n") ++
          ("| 期限日 | " ++ "-" ++ " |\n") ++
          ("| 作成日 | " ++ timeFormat {} "2006-01-02" ++ " |\n") ++
          ("| 更新日 | " ++ timeFormat {} "2006-01-02" ++ " |\n")) := by
  refine ⟨rfl, rfl, ?_, ?_, rfl⟩
  · unfold JSONFormatter.getAssigneeName
    cases issue.Assignee <;> rfl
  · unfold JSONFormatter.getAssigneeName
    cases issue.Assignee <;> rfl

/-- C18: the plain-text and Markdown renderers write the name of the status and of the
priority when present and `-` when absent, and the due date when it is present and
not empty and `-` otherwise; the JSON renderer yields the empty string for an absent
status or priority and hands the due date on unchanged, so it is `null` exactly when
absent. -/
theorem field_placeholders (issue : Issue) :
    (TXTFormatter.getStatusName issue = (issue.Status.map (·.Name)).getD "-" ∧
        MarkdownFormatter.getStatusName issue = (issue.Status.map (·.Name)).getD "-" ∧
        TXTFormatter.getPriorityName issue = (issue.Priority.map (·.Name)).getD "-" ∧
        MarkdownFormatter.getPriorityName issue = (issue.Priority.map (·.Name)).getD "-") ∧
      (TXTFormatter.getDueDate issue =
          (match issue.DueDate with
            | some d => if d = "" then "-" else d
            | none => "-") ∧
        MarkdownFormatter.getDueDate issue =
          (match issue.DueDate with
            | some d => if d = "" then "-" else d
            | none => "-")) ∧
      (JSONFormatter.getStatusName issue = (issue.Status.map (·.Name)).getD "" ∧
        JSONFormatter.getPriorityName issue = (issue.Priority.map (·.Name)).getD "") ∧
      (∀ (timeFormat : TimeFormat) (h : Heap) (fuel : Nat),
        JSONFormatter.convertIssue timeFormat (h ++ [{ Issue := issue, Children := [] }])
            (fuel + 1) (some h.length) =
          .ok (.mk issue.ID issue.IssueKey issue.Summary (JSONFormatter.getStatusName issue)
            (JSONFormatter.getPriorityName issue) (JSONFormatter.getAssigneeName issue)
            issue.DueDate (timeFormat issue.Created RFC3339) (timeFormat issue.Updated RFC3339)
            [])) ∧
      (Json.ofStringPtr issue.DueDate = Json.null ↔ issue.DueDate = none) := by
  refine ⟨⟨?_, ?_, ?_, ?_⟩, ⟨?_, ?_⟩, ⟨?_, ?_⟩, ?_, ?_⟩
  · unfold TXTFormatter.getStatusName; cases issue.Status <;> rfl
  · unfold MarkdownFormatter.getStatusName; cases issue.Status <;> rfl
  · unfold TXTFormatter.getPriorityName; cases issue.Priority <;> rfl
  · unfold MarkdownFormatter.getPriorityName; cases issue.Priority <;> rfl
  · unfold TXTFormatter.getDueDate
    cases issue.DueDate with
    | none => rfl
    | some d => by_cases hd : d = "" <;> simp [hd]
  · unfold MarkdownFormatter.getDueDate
    cases issue.DueDate with
    | none => rfl
    | some d => by_cases hd : d = "" <;> simp [hd]
  · unfold JSONFormatter.getStatusName; cases issue.Status <;> rfl
  · unfold JSONFormatter.getPriorityName; cases issue.Priority <;> rfl
  · intro timeFormat h fuel
    simp [JSONFormatter.convertIssue, Heap.node, appendEach]
  · cases issue.DueDate <;> simp [Json.ofStringPtr]

/-! ## The recursion of the JSON renderer -/

theorem appendEach_ok_iff {β : Type} (f : Ptr → Except Fault β) (xs : List Ptr)
    (ys : List β) :
    appendEach f xs = .ok ys ↔ List.Forall₂ (fun x y => f x = .ok y) xs ys := by
  induction xs generalizing ys with
  | nil =>
    constructor
    · intro h
      simp only [appendEach, Except.ok.injEq] at h
      subst h
      exact List.Forall₂.nil
    · intro h
      cases h
      rfl
  | cons x rest ih =>
    constructor
    · intro h
      rw [appendEach] at h
      cases hx : f x with
      | error fault => simp [hx] at h
      | ok y =>
        cases hr : appendEach f rest with
        | error fault => simp [hx, hr] at h
        | ok ys' =>
          simp only [hx, hr, Except.ok.injEq] at h
          subst h
          exact List.Forall₂.cons hx ((ih ys').1 hr)
    · intro h
      cases h with
      | cons hx hrest =>
        rw [appendEach, hx, (ih _).2 hrest]

theorem appendEach_ok_of_forall {β : Type} (f : Ptr → Except Fault β) (xs : List Ptr)
    (h : ∀ x ∈ xs, ∃ y, f x = .ok y) : ∃ ys, appendEach f xs = .ok ys := by
  induction xs with
  | nil => exact ⟨[], rfl⟩
  | cons x rest ih =>
    obtain ⟨y, hy⟩ := h x (List.mem_cons_self x rest)
    obtain ⟨ys, hys⟩ := ih (fun z hz => h z (List.mem_cons_of_mem x hz))
    exact ⟨y :: ys, by rw [appendEach, hy, hys]⟩

theorem appendEach_congr {β : Type} (f g : Ptr → Except Fault β) (xs : List Ptr)
    (h : ∀ x ∈ xs, f x = g x) : appendEach f xs = appendEach g xs := by
  induction xs with
  | nil => rfl
  | cons x rest ih =>
    rw [appendEach, appendEach, h x (List.mem_cons_self x rest),
      ih (fun z hz => h z (List.mem_cons_of_mem x hz))]

theorem jsonIssue.toJsonList_eq_map (l : List jsonIssue) :
    jsonIssue.toJsonList l = l.map jsonIssue.toJson := by
  induction l with
  | nil => rfl
  | cons x xs ih => simp [jsonIssue.toJsonList, ih]

theorem jsonIssue.keyTreeList_eq_map (l : List jsonIssue) :
    jsonIssue.keyTreeList l = l.map jsonIssue.keyTree := by
  induction l with
  | nil => rfl
  | cons x xs ih => simp [jsonIssue.keyTreeList, ih]

theorem jsonIssue.countList_eq_sum (l : List jsonIssue) :
    jsonIssue.countList l = (l.map jsonIssue.count).sum := by
  induction l with
  | nil => rfl
  | cons x xs ih => simp [jsonIssue.countList, ih]

theorem convertIssue_ok_unfold (timeFormat : TimeFormat) (h : Heap) (fuel : Nat) (p : Ptr)
    (ji : jsonIssue) (hji : JSONFormatter.convertIssue timeFormat h fuel p = .ok ji) :
    ∃ fuel' node children, fuel = fuel' + 1 ∧ h.node p = some node ∧
      appendEach (JSONFormatter.convertIssue timeFormat h fuel') node.Children = .ok children ∧
      ji = .mk node.Issue.ID node.Issue.IssueKey node.Issue.Summary
        (JSONFormatter.getStatusName node.Issue) (JSONFormatter.getPriorityName node.Issue)
        (JSONFormatter.getAssigneeName node.Issue) node.Issue.DueDate
        (timeFormat node.Issue.Created RFC3339) (timeFormat node.Issue.Updated RFC3339)
        children := by
  cases fuel with
  | zero => simp [JSONFormatter.convertIssue] at hji
  | succ fuel' =>
    rw [JSONFormatter.convertIssue] at hji
    cases hn : h.node p with
    | none => simp [hn] at hji
    | some node =>
      cases hc : appendEach (JSONFormatter.convertIssue timeFormat h fuel') node.Children with
      | error fault => simp [hn, hc] at hji
      | ok children =>
        simp only [hn, hc, Except.ok.injEq] at hji
        exact ⟨fuel', node, children, rfl, rfl, hc, hji.symm⟩

theorem convertIssue_fuel_succ (timeFormat : TimeFormat) (h : Heap) (fuel : Nat) :
    ∀ (p : Ptr) (ji : jsonIssue), JSONFormatter.convertIssue timeFormat h fuel p = .ok ji →
      JSONFormatter.convertIssue timeFormat h (fuel + 1) p = .ok ji := by
  induction fuel with
  | zero =>
    intro p ji hji
    simp [JSONFormatter.convertIssue] at hji
  | succ fuel ih =>
    intro p ji hji
    obtain ⟨fuel', node, children, hf, hn, hc, rfl⟩ :=
      convertIssue_ok_unfold timeFormat h (fuel + 1) p ji hji
    have hf' : fuel' = fuel := by omega
    subst hf'
    have hc' : appendEach (JSONFormatter.convertIssue timeFormat h (fuel' + 1)) node.Children =
        .ok children := by
      rw [appendEach_ok_iff] at hc ⊢
      exact hc.imp (fun {x y} hxy => ih x y hxy)
    rw [JSONFormatter.convertIssue, hn]
    simp only [hc']

theorem convertIssue_fuel_mono (timeFormat : TimeFormat) (h : Heap) (fuel fuel' : Nat)
    (hle : fuel ≤ fuel') (p : Ptr) (ji : jsonIssue)
    (hji : JSONFormatter.convertIssue timeFormat h fuel p = .ok ji) :
    JSONFormatter.convertIssue timeFormat h fuel' p = .ok ji := by
  induction hle with
  | refl => exact hji
  | step _ ih => exact convertIssue_fuel_succ timeFormat h _ p ji ih

theorem convertIssue_ok_of_depthOK (timeFormat : TimeFormat) (h : Heap) (d : Nat) :
    ∀ p : Ptr, h.depthOK d p = true →
      ∃ ji, JSONFormatter.convertIssue timeFormat h d p = .ok ji := by
  induction d with
  | zero =>
    intro p hp
    simp [Heap.depthOK] at hp
  | succ d ih =>
    intro p hp
    rw [Heap.depthOK] at hp
    cases hn : h.node p with
    | none => simp [hn] at hp
    | some node =>
      simp only [hn, List.all_eq_true] at hp
      obtain ⟨children, hc⟩ := appendEach_ok_of_forall
        (JSONFormatter.convertIssue timeFormat h d) node.Children (fun c hcm => ih c (hp c hcm))
      refine ⟨.mk node.Issue.ID node.Issue.IssueKey node.Issue.Summary
        (JSONFormatter.getStatusName node.Issue) (JSONFormatter.getPriorityName node.Issue)
        (JSONFormatter.getAssigneeName node.Issue) node.Issue.DueDate
        (timeFormat node.Issue.Created RFC3339) (timeFormat node.Issue.Updated RFC3339)
        children, ?_⟩
      rw [JSONFormatter.convertIssue, hn]
      simp only [hc]

theorem depthOK_node (h : Heap) (d : Nat) (p : Ptr) (hp : h.depthOK d p = true) :
    ∃ node, h.node p = some node ∧ ∀ c ∈ node.Children, ∃ cn, h.node c = some cn := by
  cases d with
  | zero => simp [Heap.depthOK] at hp
  | succ d =>
    rw [Heap.depthOK] at hp
    cases hn : h.node p with
    | none => simp [hn] at hp
    | some node =>
      simp only [hn, List.all_eq_true] at hp
      refine ⟨node, rfl, ?_⟩
      intro c hc
      have hcd := hp c hc
      cases d with
      | zero => simp [Heap.depthOK] at hcd
      | succ d =>
        rw [Heap.depthOK] at hcd
        cases hcn : h.node c with
        | none => simp [hcn] at hcd
        | some cn => exact ⟨cn, rfl⟩

theorem forall₂_sum_eq {α β : Type} (g : α → Nat) (k : β → Nat) (xs : List α) (ys : List β)
    (h : List.Forall₂ (fun x y => k y = g x) xs ys) :
    (ys.map k).sum = (xs.map g).sum := by
  induction h with
  | nil => rfl
  | cons hxy _ ih => simp [hxy, ih]

theorem convertIssue_keyTree (timeFormat : TimeFormat) (h : Heap) (fuel : Nat) :
    ∀ (p : Ptr) (ji : jsonIssue), JSONFormatter.convertIssue timeFormat h fuel p = .ok ji →
      h.keyTree fuel p = .ok ji.keyTree := by
  induction fuel with
  | zero =>
    intro p ji hji
    simp [JSONFormatter.convertIssue] at hji
  | succ fuel ih =>
    intro p ji hji
    obtain ⟨fuel', node, children, hf, hn, hc, rfl⟩ :=
      convertIssue_ok_unfold timeFormat h (fuel + 1) p ji hji
    have hf' : fuel' = fuel := by omega
    subst hf'
    have hk : appendEach (Heap.keyTree h fuel') node.Children =
        .ok (children.map jsonIssue.keyTree) := by
      rw [appendEach_ok_iff] at hc ⊢
      rw [List.forall₂_map_right_iff]
      exact hc.imp (fun {x y} hxy => ih x y hxy)
    rw [Heap.keyTree, hn]
    simp only [hk, jsonIssue.keyTree, jsonIssue.keyTreeList_eq_map]

theorem convertIssue_count (timeFormat : TimeFormat) (h : Heap) (fuel : Nat) :
    ∀ (p : Ptr) (ji : jsonIssue), JSONFormatter.convertIssue timeFormat h fuel p = .ok ji →
      ji.count = h.countNodes fuel p := by
  induction fuel with
  | zero =>
    intro p ji hji
    simp [JSONFormatter.convertIssue] at hji
  | succ fuel ih =>
    intro p ji hji
    obtain ⟨fuel', node, children, hf, hn, hc, rfl⟩ :=
      convertIssue_ok_unfold timeFormat h (fuel + 1) p ji hji
    have hf' : fuel' = fuel := by omega
    subst hf'
    rw [appendEach_ok_iff] at hc
    have hsum : (children.map jsonIssue.count).sum =
        (node.Children.map (Heap.countNodes h fuel')).sum :=
      forall₂_sum_eq (Heap.countNodes h fuel') jsonIssue.count node.Children children
        (hc.imp (fun {x y} hxy => ih x y hxy))
    rw [Heap.countNodes, hn]
    simp only [jsonIssue.count, jsonIssue.countList_eq_sum, hsum]

/-- C14: for a hierarchy node of depth at most `d` and fuel at least `d`,
`convertIssue` returns a `jsonIssue` that carries the id, the key and the summary of
the node's issue and has as many children as the node, child `i` being the result of
`convertIssue` for child `i` of the node; the number of issue objects in the result
is the number of nodes below the pointer at all depths. -/
theorem convertIssue_same_shape (timeFormat : TimeFormat) (h : Heap) (d : Nat) (p : Ptr)
    (hp : h.depthOK d p = true) (fuel : Nat) (hfuel : d ≤ fuel) :
    ∃ ji node, JSONFormatter.convertIssue timeFormat h fuel p = .ok ji ∧
      h.node p = some node ∧
      ji.ID = node.Issue.ID ∧ ji.IssueKey = node.Issue.IssueKey ∧
      ji.Summary = node.Issue.Summary ∧
      ji.Children.length = node.Children.length ∧
      List.Forall₂ (fun child cj => JSONFormatter.convertIssue timeFormat h fuel child = .ok cj)
        node.Children ji.Children ∧
      ji.count = h.countNodes fuel p := by
  obtain ⟨ji, hd⟩ := convertIssue_ok_of_depthOK timeFormat h d p hp
  have hji := convertIssue_fuel_mono timeFormat h d fuel hfuel p ji hd
  obtain ⟨fuel', node, children, hf, hn, hc, hmk⟩ :=
    convertIssue_ok_unfold timeFormat h fuel p ji hji
  have hall := (appendEach_ok_iff _ _ _).1 hc
  refine ⟨ji, node, hji, hn, ?_, ?_, ?_, ?_, ?_, convertIssue_count timeFormat h fuel p ji hji⟩
  · rw [hmk]; rfl
  · rw [hmk]; rfl
  · rw [hmk]; rfl
  · rw [hmk]
    exact hall.length_eq.symm
  · rw [hmk]
    exact hall.imp (fun {x y} hxy =>
      convertIssue_fuel_mono timeFormat h fuel' fuel (by omega) x y hxy)

/-- C14, on a chain of three nodes: the result for the root has one child, and three
issue objects in all. -/
theorem convertIssue_same_shape_witness :
    deepHeap.depthOK 3 (some 0) = true ∧
      ∃ ji, JSONFormatter.convertIssue layoutOnly deepHeap 5 (some 0) = .ok ji ∧
        ji.IssueKey = "P-1" ∧ ji.Children.length = 1 ∧ ji.count = 3 := by
  refine ⟨by decide, ?_⟩
  obtain ⟨ji, node, h1, h2, _, h4, _, h6, _, h8⟩ :=
    convertIssue_same_shape layoutOnly deepHeap 3 (some 0) (by decide) 5 (by omega)
  have hnode : deepHeap.node (some 0) = deepHeap[0]? := rfl
  rw [hnode] at h2
  simp only [deepHeap, List.getElem?_cons_zero, Option.some.injEq] at h2
  subst h2
  exact ⟨ji, h1, h4, h6, h8.trans (by decide)⟩

/-! ## The JSON document of a bundle -/

theorem build_ok (timeFormat : TimeFormat) (data : ExportData) (project : Project)
    (d fuel : Nat) (hproj : data.Project = some project)
    (hfin : ∀ r ∈ data.Issues, data.heap.depthOK d r = true) (hfuel : d ≤ fuel) :
    ∃ issues, appendEach (JSONFormatter.convertIssue timeFormat data.heap fuel) data.Issues =
        .ok issues ∧
      JSONFormatter.build timeFormat fuel data =
        .ok
          { Project := { ID := project.ID, Key := project.ProjectKey, Name := project.Name }
            ExportedAt := timeFormat data.ExportedAt RFC3339
            Summary :=
              { Total := data.Summary.Total
                ParentIssues := data.Summary.ParentIssues
                ChildIssues := data.Summary.ChildIssues }
            Issues := issues } := by
  obtain ⟨issues, hissues⟩ := appendEach_ok_of_forall
    (JSONFormatter.convertIssue timeFormat data.heap fuel) data.Issues
    (fun r hr => by
      obtain ⟨ji, hji⟩ := convertIssue_ok_of_depthOK timeFormat data.heap d r (hfin r hr)
      exact ⟨ji, convertIssue_fuel_mono timeFormat data.heap d fuel hfuel r ji hji⟩)
  refine ⟨issues, hissues, ?_⟩
  rw [JSONFormatter.build, hproj]
  simp only [hissues]

theorem appendEach_keyTree (timeFormat : TimeFormat) (h : Heap) (fuel : Nat)
    (roots : List Ptr) (issues : List jsonIssue)
    (hissues : appendEach (JSONFormatter.convertIssue timeFormat h fuel) roots = .ok issues) :
    issues.map (fun ji => (Except.ok ji.keyTree : Except Fault KeyTree)) =
      roots.map (h.keyTree fuel) := by
  rw [appendEach_ok_iff] at hissues
  induction hissues with
  | nil => rfl
  | cons hxy _ ih =>
    simp only [List.map_cons, ih, convertIssue_keyTree timeFormat h fuel _ _ hxy]

mutual
theorem Json.keyTree_toJson : ∀ ji : jsonIssue, Json.keyTree ji.toJson = some ji.keyTree
  | .mk _ key _ _ _ _ _ _ _ children => by
    have h := Json.keyTreeList_toJsonList children
    simp [jsonIssue.toJson, Json.keyTree, Json.stringField, Json.field, List.lookup,
      Json.childTreesIn, Json.keyTrees, jsonIssue.keyTree, h]
theorem Json.keyTreeList_toJsonList : ∀ l : List jsonIssue,
    Json.keyTreeList (jsonIssue.toJsonList l) = some (jsonIssue.keyTreeList l)
  | [] => rfl
  | ji :: rest => by
    have h1 := Json.keyTree_toJson ji
    have h2 := Json.keyTreeList_toJsonList rest
    simp [jsonIssue.toJsonList, Json.keyTreeList, jsonIssue.keyTreeList, h1, h2]
end

theorem jsonExportData.issueTrees_toJson (output : jsonExportData) :
    output.toJson.issueTrees = some (output.Issues.map jsonIssue.keyTree) := by
  simp [Json.issueTrees, jsonExportData.toJson, Json.field, List.lookup, Json.keyTrees,
    Json.keyTreeList_toJsonList, jsonIssue.keyTreeList_eq_map]

theorem jsonExportData.summaryCount_toJson (output : jsonExportData) :
    output.toJson.summaryCount "total" = some output.Summary.Total ∧
      output.toJson.summaryCount "parentIssues" = some output.Summary.ParentIssues ∧
      output.toJson.summaryCount "childIssues" = some output.Summary.ChildIssues := by
  simp [Json.summaryCount, jsonExportData.toJson, Json.field, List.lookup]

theorem convertIssue_loop (timeFormat : TimeFormat) (fuel : Nat) :
    JSONFormatter.convertIssue timeFormat loopBundle.heap fuel (some 1) =
      .error .outOfFuel := by
  have hnode : loopBundle.heap.node (some 1) =
      some { Issue := { ID := 1, IssueKey := "LOOP-B", ParentIssueID := some 1 },
             Children := [some 1] } := by decide
  induction fuel with
  | zero => rfl
  | succ fuel ih =>
    rw [JSONFormatter.convertIssue, hnode]
    simp only [appendEach, ih]

theorem build_first_root_error (timeFormat : TimeFormat) (fuel : Nat) (data : ExportData)
    (project : Project) (r : Ptr) (rest : List Ptr) (fault : Fault)
    (hproj : data.Project = some project) (hroots : data.Issues = r :: rest)
    (hr : JSONFormatter.convertIssue timeFormat data.heap fuel r = .error fault) :
    JSONFormatter.build timeFormat fuel data = .error fault := by
  rw [JSONFormatter.build, hproj]
  simp only [hroots, appendEach, hr]

theorem build_loop (timeFormat : TimeFormat) (fuel : Nat) :
    JSONFormatter.build timeFormat fuel loopBundle = .error .outOfFuel :=
  build_first_root_error timeFormat fuel loopBundle
    { ID := 1, ProjectKey := "LOOP", Name := "Loop" } (some 1) [] .outOfFuel rfl (by decide)
    (convertIssue_loop timeFormat fuel)

/-- C13, counterexample: `JSONFormatter.Format` produces no bytes for the bundle of
`loopIssues`, in which the project and every node are present and the root is its own
child: whatever the fuel, `convertIssue` has not returned; and it produces none for the
bundle without project, where it dereferences the nil pointer. -/
theorem JSONFormatter_Format_no_bytes :
    loopBundle.Issues = [some 1] ∧
      loopBundle.heap.childrenAt (some 1) = [some 1] ∧
      (∀ (timeFormat : TimeFormat) (marshalIndent : Json → Except GoError String)
          (fuel : Nat),
        JSONFormatter.Format timeFormat marshalIndent fuel loopBundle =
          .error .outOfFuel) ∧
      noProjectBundle.Project = none ∧
      ∀ (timeFormat : TimeFormat) (marshalIndent : Json → Except GoError String)
          (fuel : Nat),
        JSONFormatter.Format timeFormat marshalIndent fuel noProjectBundle =
          .error .nilDereference := by
  refine ⟨by decide, by decide, ?_, rfl, ?_⟩
  · intro timeFormat marshalIndent fuel
    rw [JSONFormatter.Format, build_loop]
  · intro timeFormat marshalIndent fuel
    rfl

/-- C13, amended: for a bundle whose project is present and whose forest has finite
depth (below every root there are at most `d` levels of nodes, all present), and for
the encoder and the parser of JSON text, of which the parser reads the encoding of the
document of the bundle back as that document, `Format` returns the bytes without
error, parsing them succeeds, and the parsed document has under `summary` the three
counts of the bundle's summary and under `issues` an array of issue objects whose
keys form, root by root and child by child in the same order, the trees of the keys of
the bundle's forest. -/
theorem JSONFormatter_roundtrip (timeFormat : TimeFormat)
    (marshalIndent : Json → Except GoError String) (unmarshal : String → Option Json)
    (data : ExportData) (project : Project) (d fuel : Nat)
    (hproj : data.Project = some project)
    (hfin : ∀ r ∈ data.Issues, data.heap.depthOK d r = true) (hfuel : d ≤ fuel)
    (hcodec : ∀ doc, JSONFormatter.document timeFormat fuel data = some doc →
      ∃ bytes, marshalIndent doc = .ok bytes ∧ unmarshal bytes = some doc) :
    ∃ (bytes : String) (doc : Json) (trees : List KeyTree),
      JSONFormatter.Format timeFormat marshalIndent fuel data = .ok (bytes, none) ∧
      unmarshal bytes = some doc ∧
      doc.summaryCount "total" = some data.Summary.Total ∧
      doc.summaryCount "parentIssues" = some data.Summary.ParentIssues ∧
      doc.summaryCount "childIssues" = some data.Summary.ChildIssues ∧
      doc.issueTrees = some trees ∧
      trees.length = data.Issues.length ∧
      data.Issues.map (data.heap.keyTree fuel) = trees.map Except.ok := by
  obtain ⟨issues, hissues, hbuild⟩ := build_ok timeFormat data project d fuel hproj hfin hfuel
  obtain ⟨bytes, hm, hu⟩ := hcodec _ (by rw [JSONFormatter.document, hbuild])
  obtain ⟨h1, h2, h3⟩ := jsonExportData.summaryCount_toJson
    { Project := { ID := project.ID, Key := project.ProjectKey, Name := project.Name }
      ExportedAt := timeFormat data.ExportedAt RFC3339
      Summary :=
        { Total := data.Summary.Total
          ParentIssues := data.Summary.ParentIssues
          ChildIssues := data.Summary.ChildIssues }
      Issues := issues }
  refine ⟨bytes, _, issues.map jsonIssue.keyTree, ?_, hu, h1, h2, h3,
    jsonExportData.issueTrees_toJson _, ?_, ?_⟩
  · rw [JSONFormatter.Format, hbuild]
    simp only [hm]
  · rw [List.length_map]
    exact ((appendEach_ok_iff _ _ _).1 hissues).length_eq.symm
  · rw [← appendEach_keyTree timeFormat data.heap fuel data.Issues issues hissues,
      List.map_map]
    rfl

set_option maxRecDepth 1000000 in
/-- C13, amended, on a bundle with a chain of three issues, with an encoder that
writes JSON text and a parser that reads it: the document parsed from the bytes of
`Format` has the counts 3, 1 and 2 and, under `issues`, the chain `P-1`, `P-2`,
`P-3`. -/
theorem JSONFormatter_roundtrip_witness :
    ∃ (bytes : String) (doc : Json),
      JSONFormatter.Format layoutOnly exampleMarshalIndent 3 (bundleOver deepHeap) =
        .ok (bytes, none) ∧
      exampleUnmarshal bytes = some doc ∧
      doc.summaryCount "total" = some 3 ∧
      doc.summaryCount "parentIssues" = some 1 ∧
      doc.summaryCount "childIssues" = some 2 ∧
      doc.issueTrees = some [.node "P-1" [.node "P-2" [.node "P-3" []]]] := by
  obtain ⟨bytes, doc, trees, h1, h2, h3, h4, h5, h6, _, h8⟩ :=
    JSONFormatter_roundtrip layoutOnly exampleMarshalIndent exampleUnmarshal
      (bundleOver deepHeap) { ID := 1, ProjectKey := "P", Name := "Project" } 3 3 rfl
      (by decide) (Nat.le_refl 3)
      (fun doc hdoc => by
        have hbuilt : JSONFormatter.document layoutOnly 3 (bundleOver deepHeap) =
            some chainOutput.toJson := rfl
        obtain rfl : chainOutput.toJson = doc := Option.some.inj (hbuilt.symm.trans hdoc)
        exact ⟨String.mk (Json.render 0 chainOutput.toJson), rfl, rfl⟩)
  have hforest : (bundleOver deepHeap).Issues.map ((bundleOver deepHeap).heap.keyTree 3) =
      [.ok (.node "P-1" [.node "P-2" [.node "P-3" []]])] := rfl
  rw [hforest] at h8
  match trees, h8 with
  | [t], h8 =>
    simp only [List.map_cons, List.map_nil, List.cons.injEq, Except.ok.injEq, and_true] at h8
    subst h8
    exact ⟨bytes, doc, h1, h2, h3, h4, h5, h6⟩

/-! ## Two levels in the text renderers -/

theorem issueAt_eq_cases (h1 h2 : Heap) (c : Ptr) (hc : h1.issueAt c = h2.issueAt c) :
    (h1.node c = none ∧ h2.node c = none) ∨
      ∃ n1 n2, h1.node c = some n1 ∧ h2.node c = some n2 ∧ n1.Issue = n2.Issue := by
  unfold Heap.issueAt at hc
  cases hn1 : h1.node c with
  | none =>
    cases hn2 : h2.node c with
    | none => exact Or.inl ⟨rfl, rfl⟩
    | some n2 => simp [hn1, hn2] at hc
  | some n1 =>
    cases hn2 : h2.node c with
    | none => simp [hn1, hn2] at hc
    | some n2 =>
      simp only [hn1, hn2, Option.map_some', Option.some.injEq] at hc
      exact Or.inr ⟨n1, n2, rfl, rfl, hc⟩

theorem TXTFormatter_formatChildren_congr (h1 h2 : Heap) (len : Nat) (cs : List Ptr)
    (hcs : ∀ c ∈ cs, h1.issueAt c = h2.issueAt c) (i : Nat) :
    TXTFormatter.formatChildren h1 len i cs = TXTFormatter.formatChildren h2 len i cs := by
  induction cs generalizing i with
  | nil => rfl
  | cons c rest ih =>
    have hrest := ih (fun x hx => hcs x (List.mem_cons_of_mem c hx)) (i + 1)
    rcases issueAt_eq_cases h1 h2 c (hcs c (List.mem_cons_self c rest)) with
      ⟨hn1, hn2⟩ | ⟨n1, n2, hn1, hn2, hissue⟩
    · rw [TXTFormatter.formatChildren, TXTFormatter.formatChildren, hn1, hn2]
    · rw [TXTFormatter.formatChildren, TXTFormatter.formatChildren, hn1, hn2]
      simp only [hissue, hrest]

theorem MarkdownFormatter_formatChildren_congr (h1 h2 : Heap) (cs : List Ptr)
    (hcs : ∀ c ∈ cs, h1.issueAt c = h2.issueAt c) :
    MarkdownFormatter.formatChildren h1 cs = MarkdownFormatter.formatChildren h2 cs := by
  induction cs with
  | nil => rfl
  | cons c rest ih =>
    have hrest := ih (fun x hx => hcs x (List.mem_cons_of_mem c hx))
    rcases issueAt_eq_cases h1 h2 c (hcs c (List.mem_cons_self c rest)) with
      ⟨hn1, hn2⟩ | ⟨n1, n2, hn1, hn2, hissue⟩
    · rw [MarkdownFormatter.formatChildren, MarkdownFormatter.formatChildren, hn1, hn2]
    · rw [MarkdownFormatter.formatChildren, MarkdownFormatter.formatChildren, hn1, hn2]
      simp only [hissue, hrest]

theorem TXTFormatter_formatIssue_congr (timeFormat : TimeFormat) (h1 h2 : Heap) (r : Ptr)
    (isChild : Bool) (hr : h1.node r = h2.node r)
    (hcs : ∀ c ∈ h1.childrenAt r, h1.issueAt c = h2.issueAt c) :
    TXTFormatter.formatIssue timeFormat h1 r isChild =
      TXTFormatter.formatIssue timeFormat h2 r isChild := by
  unfold TXTFormatter.formatIssue
  rw [← hr]
  cases hn : h1.node r with
  | none => rfl
  | some node =>
    have hcs' : ∀ c ∈ node.Children, h1.issueAt c = h2.issueAt c := by
      simpa [Heap.childrenAt, hn] using hcs
    simp only [TXTFormatter_formatChildren_congr h1 h2 node.Children.length node.Children hcs' 0]

theorem MarkdownFormatter_formatIssue_congr (timeFormat : TimeFormat) (h1 h2 : Heap) (r : Ptr)
    (hr : h1.node r = h2.node r)
    (hcs : ∀ c ∈ h1.childrenAt r, h1.issueAt c = h2.issueAt c) :
    MarkdownFormatter.formatIssue timeFormat h1 r =
      MarkdownFormatter.formatIssue timeFormat h2 r := by
  unfold MarkdownFormatter.formatIssue
  rw [← hr]
  cases hn : h1.node r with
  | none => rfl
  | some node =>
    have hcs' : ∀ c ∈ node.Children, h1.issueAt c = h2.issueAt c := by
      simpa [Heap.childrenAt, hn] using hcs
    simp only [MarkdownFormatter_formatChildren_congr h1 h2 node.Children hcs']

theorem TXTFormatter_formatRoots_congr (timeFormat : TimeFormat) (h1 h2 : Heap) (len : Nat)
    (roots : List Ptr) (hroots : ∀ r ∈ roots, h1.node r = h2.node r)
    (hcs : ∀ r ∈ roots, ∀ c ∈ h1.childrenAt r, h1.issueAt c = h2.issueAt c) (i : Nat) :
    TXTFormatter.formatRoots timeFormat h1 len i roots =
      TXTFormatter.formatRoots timeFormat h2 len i roots := by
  induction roots generalizing i with
  | nil => rfl
  | cons r rest ih =>
    rw [TXTFormatter.formatRoots, TXTFormatter.formatRoots,
      TXTFormatter_formatIssue_congr timeFormat h1 h2 r false
        (hroots r (List.mem_cons_self r rest)) (hcs r (List.mem_cons_self r rest)),
      ih (fun x hx => hroots x (List.mem_cons_of_mem r hx))
        (fun x hx => hcs x (List.mem_cons_of_mem r hx)) (i + 1)]

theorem MarkdownFormatter_formatRoots_congr (timeFormat : TimeFormat) (h1 h2 : Heap)
    (roots : List Ptr) (hroots : ∀ r ∈ roots, h1.node r = h2.node r)
    (hcs : ∀ r ∈ roots, ∀ c ∈ h1.childrenAt r, h1.issueAt c = h2.issueAt c) :
    MarkdownFormatter.formatRoots timeFormat h1 roots =
      MarkdownFormatter.formatRoots timeFormat h2 roots := by
  induction roots with
  | nil => rfl
  | cons r rest ih =>
    rw [MarkdownFormatter.formatRoots, MarkdownFormatter.formatRoots,
      MarkdownFormatter_formatIssue_congr timeFormat h1 h2 r
        (hroots r (List.mem_cons_self r rest)) (hcs r (List.mem_cons_self r rest)),
      ih (fun x hx => hroots x (List.mem_cons_of_mem r hx))
        (fun x hx => hcs x (List.mem_cons_of_mem r hx))]

/-- C15: two bundles with the same project, time, summary and root pointers, whose
root nodes are equal (issue and list of child pointers) and whose nodes at depth 2
wrap the same issues, so that they can differ only in the children of the nodes at
depth 2 and below, are rendered to the same result by `TXTFormatter.Format` and by
`MarkdownFormatter.Format`. -/
theorem renderers_two_levels (timeFormat : TimeFormat) (d1 d2 : ExportData)
    (hproj : d1.Project = d2.Project) (htime : d1.ExportedAt = d2.ExportedAt)
    (hsum : d1.Summary = d2.Summary) (hissues : d1.Issues = d2.Issues)
    (hroots : ∀ r ∈ d1.Issues, d1.heap.node r = d2.heap.node r)
    (hchildren : ∀ r ∈ d1.Issues, ∀ c ∈ d1.heap.childrenAt r,
      d1.heap.issueAt c = d2.heap.issueAt c) :
    TXTFormatter.Format timeFormat d1 = TXTFormatter.Format timeFormat d2 ∧
      MarkdownFormatter.Format timeFormat d1 = MarkdownFormatter.Format timeFormat d2 := by
  constructor
  · unfold TXTFormatter.Format
    rw [← hproj, ← htime, ← hsum, ← hissues,
      TXTFormatter_formatRoots_congr timeFormat d1.heap d2.heap d1.Issues.length d1.Issues
        hroots hchildren 0]
  · unfold MarkdownFormatter.Format
    rw [← hproj, ← htime, ← hsum, ← hissues,
      MarkdownFormatter_formatRoots_congr timeFormat d1.heap d2.heap d1.Issues hroots hchildren]

/-- C15, on two bundles that differ in a grandchild: with and without the node `P-3`
below `P-2`, both renderers give the same result. -/
theorem renderers_two_levels_witness :
    deepHeap ≠ shallowHeap ∧
      TXTFormatter.Format layoutOnly (bundleOver deepHeap) =
        TXTFormatter.Format layoutOnly (bundleOver shallowHeap) ∧
      MarkdownFormatter.Format layoutOnly (bundleOver deepHeap) =
        MarkdownFormatter.Format layoutOnly (bundleOver shallowHeap) :=
  ⟨by decide,
    renderers_two_levels layoutOnly (bundleOver deepHeap) (bundleOver shallowHeap) rfl rfl rfl rfl
      (fun r hr => by
        have : r = some 0 := by simpa [bundleOver] using hr
        subst this
        rfl)
      (fun r hr c hc => by
        have : r = some 0 := by simpa [bundleOver] using hr
        subst this
        have : c = some 1 := by
          simpa [bundleOver, deepHeap, Heap.childrenAt, Heap.node] using hc
        subst this
        rfl)⟩

/-! ## The empty export -/

theorem buildHierarchy_nil :
    buildHierarchy [] =
      { heap := [], roots := [], summary := { Total := 0, ParentIssues := 0, ChildIssues := 0 } } :=
  rfl

theorem TXTFormatter_header_length (timeFormat : TimeFormat) (project : Project)
    (exportedAt : Time) (summary : ExportSummary) (written : String) :
    TXTFormatter.header timeFormat project exportedAt summary ++ written ≠ "" := by
  intro h
  have hlen := congrArg String.length h
  have h81 : ("================================================================================\n" : String).length = 81 := by decide
  simp only [TXTFormatter.header, String.length_append, h81] at hlen
  have h0 : ("" : String).length = 0 := rfl
  omega

theorem MarkdownFormatter_header_length (timeFormat : TimeFormat) (project : Project)
    (exportedAt : Time) (summary : ExportSummary) (written : String) :
    MarkdownFormatter.header timeFormat project exportedAt summary ++ written ≠ "" := by
  intro h
  have hlen := congrArg String.length h
  have h2 : ("# " : String).length = 2 := by decide
  simp only [MarkdownFormatter.header, String.length_append, h2] at hlen
  have h0 : ("" : String).length = 0 := rfl
  omega

/-- C19: for the empty issue list `buildHierarchy` returns no roots and the summary
`(0, 0, 0)`; for the bundle assembled from it, the plain-text renderer returns, without
error, exactly the five header lines followed by an empty line, the Markdown renderer
returns its header without error, both not empty, and the JSON renderer builds the
document with `total` 0 and the empty array (not `null`) under `issues`, and returns
without error the bytes that the encoder gives for this document. -/
theorem empty_export (timeFormat : TimeFormat) (marshalIndent : Json → Except GoError String)
    (project : Project) (exportedAt : Time) (fuel : Nat) (bytes : String)
    (hm : marshalIndent (emptyDocument timeFormat project exportedAt) = .ok bytes) :
    (buildHierarchy []).roots = [] ∧
      (buildHierarchy []).summary = { Total := 0, ParentIssues := 0, ChildIssues := 0 } ∧
      (∃ txt, TXTFormatter.Format timeFormat
            ((buildHierarchy []).exportData (some project) exportedAt) = .ok (txt, none) ∧
          txt ≠ "" ∧
          txt =
            "================================================================================\n" ++
            ("プロジェクト: " ++ project.ProjectKey ++ " - " ++ project.Name ++ "\n") ++
            ("取得日時: " ++ timeFormat exportedAt "2006-01-02 15:04:05" ++ "\n") ++
            ("未完了タスク数: " ++ "0" ++ "件（親課題: " ++ "0" ++ "件、子課題: " ++ "0" ++ "件）\n") ++
            "================================================================================\n\n") ∧
      (∃ md, MarkdownFormatter.Format timeFormat
            ((buildHierarchy []).exportData (some project) exportedAt) = .ok (md, none) ∧
          md ≠ "") ∧
      (∃ output, JSONFormatter.build timeFormat fuel
            ((buildHierarchy []).exportData (some project) exportedAt) = .ok output ∧
          output.Issues = [] ∧
          output.toJson = emptyDocument timeFormat project exportedAt ∧
          output.toJson.field "issues" = some (.arr []) ∧
          output.toJson.field "summary" =
            some (.obj [("total", .num 0), ("parentIssues", .num 0), ("childIssues", .num 0)])) ∧
      JSONFormatter.Format timeFormat marshalIndent fuel
          ((buildHierarchy []).exportData (some project) exportedAt) = .ok (bytes, none) := by
  have hbuild : JSONFormatter.build timeFormat fuel
      ((buildHierarchy []).exportData (some project) exportedAt) =
      .ok
        { Project := { ID := project.ID, Key := project.ProjectKey, Name := project.Name }
          ExportedAt := timeFormat exportedAt RFC3339
          Summary := { Total := 0, ParentIssues := 0, ChildIssues := 0 }
          Issues := [] } := rfl
  refine ⟨rfl, rfl, ?_, ?_, ⟨_, hbuild, rfl, rfl, ?_, ?_⟩, ?_⟩
  · refine ⟨_, rfl, ?_, ?_⟩
    · exact TXTFormatter_header_length timeFormat project exportedAt _ _
    · simp only [buildHierarchy_nil, Hierarchy.exportData, String.append_empty]
      rfl
  · exact ⟨_, rfl, MarkdownFormatter_header_length timeFormat project exportedAt _ _⟩
  · simp [jsonExportData.toJson, Json.field, List.lookup, jsonIssue.toJsonList]
  · simp [jsonExportData.toJson, Json.field, List.lookup]
  · obtain ⟨output, hb, hdoc⟩ : ∃ output, JSONFormatter.build timeFormat fuel
        ((buildHierarchy []).exportData (some project) exportedAt) = .ok output ∧
        output.toJson = emptyDocument timeFormat project exportedAt := ⟨_, hbuild, rfl⟩
    rw [JSONFormatter.Format, hb]
    simp only [hdoc, hm]

/-- C19, for the project of `TestIntegration_EmptyIssues`. -/
theorem empty_export_witness :
    JSONFormatter.Format layoutOnly sampleMarshal 0
        ((buildHierarchy []).exportData
          (some { ID := 200, ProjectKey := "EMPTYPROJ", Name := "空のプロジェクト" }) {}) =
      .ok ("{ }", none) :=
  (empty_export layoutOnly sampleMarshal
    { ID := 200, ProjectKey := "EMPTYPROJ", Name := "空のプロジェクト" } {} 0 "{ }" rfl).2.2.2.2.2

/-! ## Absent optional fields -/

theorem TXTFormatter_formatChildren_ok (h : Heap) (len : Nat) (cs : List Ptr)
    (hcs : ∀ c ∈ cs, ∃ cn, h.node c = some cn) (i : Nat) :
    ∃ s, TXTFormatter.formatChildren h len i cs = .ok s := by
  induction cs generalizing i with
  | nil => exact ⟨"", rfl⟩
  | cons c rest ih =>
    obtain ⟨cn, hcn⟩ := hcs c (List.mem_cons_self c rest)
    obtain ⟨s, hs⟩ := ih (fun x hx => hcs x (List.mem_cons_of_mem c hx)) (i + 1)
    rw [TXTFormatter.formatChildren, hcn]
    simp only [hs]
    exact ⟨_, rfl⟩

theorem MarkdownFormatter_formatChildren_ok (h : Heap) (cs : List Ptr)
    (hcs : ∀ c ∈ cs, ∃ cn, h.node c = some cn) :
    ∃ s, MarkdownFormatter.formatChildren h cs = .ok s := by
  induction cs with
  | nil => exact ⟨"", rfl⟩
  | cons c rest ih =>
    obtain ⟨cn, hcn⟩ := hcs c (List.mem_cons_self c rest)
    obtain ⟨s, hs⟩ := ih (fun x hx => hcs x (List.mem_cons_of_mem c hx))
    rw [MarkdownFormatter.formatChildren, hcn]
    simp only [hs]
    exact ⟨_, rfl⟩

theorem TXTFormatter_formatIssue_ok (timeFormat : TimeFormat) (h : Heap) (r : Ptr)
    (isChild : Bool) (node : HierarchicalIssue) (hr : h.node r = some node)
    (hcs : ∀ c ∈ node.Children, ∃ cn, h.node c = some cn) :
    ∃ s, TXTFormatter.formatIssue timeFormat h r isChild = .ok s := by
  obtain ⟨s, hs⟩ := TXTFormatter_formatChildren_ok h node.Children.length node.Children hcs 0
  rw [TXTFormatter.formatIssue, hr]
  simp only [hs]
  split <;> exact ⟨_, rfl⟩

theorem MarkdownFormatter_formatIssue_ok (timeFormat : TimeFormat) (h : Heap) (r : Ptr)
    (node : HierarchicalIssue) (hr : h.node r = some node)
    (hcs : ∀ c ∈ node.Children, ∃ cn, h.node c = some cn) :
    ∃ s, MarkdownFormatter.formatIssue timeFormat h r = .ok s := by
  obtain ⟨s, hs⟩ := MarkdownFormatter_formatChildren_ok h node.Children hcs
  rw [MarkdownFormatter.formatIssue, hr]
  simp only [hs]
  split <;> exact ⟨_, rfl⟩

theorem TXTFormatter_formatRoots_ok (timeFormat : TimeFormat) (h : Heap) (len : Nat)
    (roots : List Ptr)
    (hroots : ∀ r ∈ roots, ∃ node, h.node r = some node ∧
      ∀ c ∈ node.Children, ∃ cn, h.node c = some cn) (i : Nat) :
    ∃ s, TXTFormatter.formatRoots timeFormat h len i roots = .ok s := by
  induction roots generalizing i with
  | nil => exact ⟨"", rfl⟩
  | cons r rest ih =>
    obtain ⟨node, hr, hcs⟩ := hroots r (List.mem_cons_self r rest)
    obtain ⟨b, hb⟩ := TXTFormatter_formatIssue_ok timeFormat h r false node hr hcs
    obtain ⟨s, hs⟩ := ih (fun x hx => hroots x (List.mem_cons_of_mem r hx)) (i + 1)
    rw [TXTFormatter.formatRoots, hb]
    simp only [hs]
    exact ⟨_, rfl⟩

theorem MarkdownFormatter_formatRoots_ok (timeFormat : TimeFormat) (h : Heap)
    (roots : List Ptr)
    (hroots : ∀ r ∈ roots, ∃ node, h.node r = some node ∧
      ∀ c ∈ node.Children, ∃ cn, h.node c = some cn) :
    ∃ s, MarkdownFormatter.formatRoots timeFormat h roots = .ok s := by
  induction roots with
  | nil => exact ⟨"", rfl⟩
  | cons r rest ih =>
    obtain ⟨node, hr, hcs⟩ := hroots r (List.mem_cons_self r rest)
    obtain ⟨b, hb⟩ := MarkdownFormatter_formatIssue_ok timeFormat h r node hr hcs
    obtain ⟨s, hs⟩ := ih (fun x hx => hroots x (List.mem_cons_of_mem r hx))
    rw [MarkdownFormatter.formatRoots, hb]
    simp only [hs]
    exact ⟨_, rfl⟩

theorem text_renderers_ok (timeFormat : TimeFormat) (data : ExportData) (project : Project)
    (hproj : data.Project = some project)
    (hroots : ∀ r ∈ data.Issues, ∃ node, data.heap.node r = some node ∧
      ∀ c ∈ node.Children, ∃ cn, data.heap.node c = some cn) :
    (∃ txt, TXTFormatter.Format timeFormat data = .ok (txt, none) ∧ txt ≠ "") ∧
      ∃ md, MarkdownFormatter.Format timeFormat data = .ok (md, none) ∧ md ≠ "" := by
  refine ⟨?_, ?_⟩
  · obtain ⟨s, hs⟩ := TXTFormatter_formatRoots_ok timeFormat data.heap data.Issues.length
      data.Issues hroots 0
    refine ⟨_, ?_, TXTFormatter_header_length timeFormat project data.ExportedAt
      data.Summary s⟩
    rw [TXTFormatter.Format, hproj]
    simp only [hs]
  · obtain ⟨s, hs⟩ := MarkdownFormatter_formatRoots_ok timeFormat data.heap data.Issues hroots
    refine ⟨_, ?_, MarkdownFormatter_header_length timeFormat project data.ExportedAt
      data.Summary s⟩
    rw [MarkdownFormatter.Format, hproj]
    simp only [hs]

/-- C20, counterexample: for the two issues of `loopIssues`, which share the id 1 and
of which the second names 1 as its parent, `buildHierarchy` returns one root, whose
node is its own child.  In the bundle made of it the project and every node are
present; `TXTFormatter.Format` and `MarkdownFormatter.Format` return a text that is
not empty, but the structure-building step of `JSONFormatter.Format` returns for no
fuel: `convertIssue` calls itself on the same node without end. -/
theorem JSONFormatter_build_never_returns :
    loopBundle.Project = some { ID := 1, ProjectKey := "LOOP", Name := "Loop" } ∧
      loopBundle.Issues = [some 1] ∧
      loopBundle.heap.node (some 1) =
        some { Issue := { ID := 1, IssueKey := "LOOP-B", ParentIssueID := some 1 },
               Children := [some 1] } ∧
      (∃ txt, TXTFormatter.Format layoutOnly loopBundle = .ok (txt, none) ∧ txt ≠ "") ∧
      (∃ md, MarkdownFormatter.Format layoutOnly loopBundle = .ok (md, none) ∧ md ≠ "") ∧
      ∀ (timeFormat : TimeFormat) (fuel : Nat),
        JSONFormatter.build timeFormat fuel loopBundle = .error .outOfFuel := by
  have hroots : loopBundle.Issues = [some 1] := by decide
  have hnode : loopBundle.heap.node (some 1) =
      some { Issue := { ID := 1, IssueKey := "LOOP-B", ParentIssueID := some 1 },
             Children := [some 1] } := by decide
  have htext := text_renderers_ok layoutOnly loopBundle
    { ID := 1, ProjectKey := "LOOP", Name := "Loop" } rfl
    (fun r hr => by
      rw [hroots, List.mem_singleton] at hr
      subst hr
      refine ⟨_, hnode, fun c hc => ?_⟩
      rw [List.mem_singleton] at hc
      subst hc
      exact ⟨_, hnode⟩)
  exact ⟨rfl, hroots, hnode, htext.1, htext.2, build_loop⟩

/-- C20, amended: for a bundle whose project is present and in which the roots and
their children are present, whatever status, priority, assignee or due date the issues
lack, `TXTFormatter.Format` and `MarkdownFormatter.Format` return a text that is not
empty and no error; when moreover the forest has finite depth (below every root there
are at most `d` levels of nodes, all present), the structure-building step of
`JSONFormatter.Format` returns its value, with one entry per root, and
`JSONFormatter.Format` then returns what the encoder gives for the document of that
value. -/
theorem renderers_complete (timeFormat : TimeFormat) (data : ExportData) (project : Project)
    (hproj : data.Project = some project)
    (hroots : ∀ r ∈ data.Issues, ∃ node, data.heap.node r = some node ∧
      ∀ c ∈ node.Children, ∃ cn, data.heap.node c = some cn) :
    (∃ txt, TXTFormatter.Format timeFormat data = .ok (txt, none) ∧ txt ≠ "") ∧
      (∃ md, MarkdownFormatter.Format timeFormat data = .ok (md, none) ∧ md ≠ "") ∧
      ∀ d fuel : Nat, (∀ r ∈ data.Issues, data.heap.depthOK d r = true) → d ≤ fuel →
        ∃ output, JSONFormatter.build timeFormat fuel data = .ok output ∧
          output.Issues.length = data.Issues.length ∧
          ∀ marshalIndent : Json → Except GoError String,
            JSONFormatter.Format timeFormat marshalIndent fuel data =
              (match marshalIndent output.toJson with
                | .ok bytes => .ok (bytes, none)
                | .error err => .ok ("", some err)) := by
  obtain ⟨htxt, hmd⟩ := text_renderers_ok timeFormat data project hproj hroots
  refine ⟨htxt, hmd, ?_⟩
  intro d fuel hfin hfuel
  obtain ⟨issues, hissues, hbuild⟩ :=
    build_ok timeFormat data project d fuel hproj hfin hfuel
  refine ⟨_, hbuild, ((appendEach_ok_iff _ _ _).1 hissues).length_eq.symm, ?_⟩
  intro marshalIndent
  rw [JSONFormatter.Format, hbuild]

/-- C20, amended, on the bundle of `TestFormatter_NilValues`, whose only issue has none
of the four optional fields: the plain-text renderer returns a text that is not empty,
and the structure-building step of the JSON renderer returns a value with one issue. -/
theorem renderers_complete_witness :
    bareBundle.heap.depthOK 1 (some 0) = true ∧
      TXTFormatter.getStatusName bareIssue = "-" ∧
      TXTFormatter.getAssigneeName bareIssue = "(未割当)" ∧
      (∃ txt, TXTFormatter.Format layoutOnly bareBundle = .ok (txt, none) ∧ txt ≠ "") ∧
      ∃ output, JSONFormatter.build layoutOnly 1 bareBundle = .ok output ∧
        output.Issues.length = 1 := by
  have hroots : bareBundle.Issues = [some 0] := rfl
  have h := renderers_complete layoutOnly bareBundle
    { ID := 1, ProjectKey := "TEST", Name := "Test" } rfl
    (fun r hr => by
      rw [hroots, List.mem_singleton] at hr
      subst hr
      exact ⟨{ Issue := bareIssue, Children := [] }, rfl, fun c hc => by cases hc⟩)
  obtain ⟨output, hb, hlen, _⟩ := h.2.2 1 1 (fun r hr => by
      rw [hroots, List.mem_singleton] at hr
      subst hr
      decide) (Nat.le_refl 1)
  exact ⟨by decide, rfl, rfl, h.1, output, hb, hlen⟩

/-! ## Configuration -/

theorem Validate_of_required (c : Config) (h1 : c.APIKey ≠ "") (h2 : c.Space ≠ "")
    (h3 : c.Project ≠ "") :
    c.Validate =
      (if (if c.Format = "" then "txt" else c.Format) = "txt" ∨
            (if c.Format = "" then "txt" else c.Format) = "json" ∨
            (if c.Format = "" then "txt" else c.Format) = "markdown" then
          ({ c with
              Domain := if c.Domain = "" then "backlog.com" else c.Domain
              Output := if c.Output = "" then "./" else c.Output
              Format := if c.Format = "" then "txt" else c.Format }, none)
        else
          ({ c with
              Domain := if c.Domain = "" then "backlog.com" else c.Domain
              Output := if c.Output = "" then "./" else c.Output
              Format := if c.Format = "" then "txt" else c.Format },
            some (.errorf ("invalid format: " ++ (if c.Format = "" then "txt" else c.Format) ++
              ". Use txt, json, or markdown")))) := by
  unfold Config.Validate
  rw [if_neg h1, if_neg h2, if_neg h3]
  by_cases hd : c.Domain = "" <;> by_cases ho : c.Output = "" <;>
    by_cases hf : c.Format = "" <;>
    simp [hd, ho, hf, FormatTXT, FormatJSON, FormatMarkdown]

theorem Validate_fst (c : Config) (h1 : c.APIKey ≠ "") (h2 : c.Space ≠ "")
    (h3 : c.Project ≠ "") :
    (c.Validate).1 =
      { c with
        Domain := if c.Domain = "" then "backlog.com" else c.Domain
        Output := if c.Output = "" then "./" else c.Output
        Format := if c.Format = "" then "txt" else c.Format } := by
  rw [Validate_of_required c h1 h2 h3]
  by_cases hv : (if c.Format = "" then "txt" else c.Format) = "txt" ∨
      (if c.Format = "" then "txt" else c.Format) = "json" ∨
      (if c.Format = "" then "txt" else c.Format) = "markdown"
  · rw [if_pos hv]
  · rw [if_neg hv]

theorem Validate_of_missing (c : Config)
    (h : c.APIKey = "" ∨ c.Space = "" ∨ c.Project = "") :
    (c.Validate).1 = c ∧ (c.Validate).2 ≠ none := by
  unfold Config.Validate
  by_cases h1 : c.APIKey = ""
  · simp [h1]
  · by_cases h2 : c.Space = ""
    · simp [h1, h2]
    · by_cases h3 : c.Project = ""
      · simp [h1, h2, h3]
      · rcases h with h | h | h
        · exact absurd h h1
        · exact absurd h h2
        · exact absurd h h3

/-- C28: `Validate` returns an error exactly when `APIKey`, `Space` or `Project` is
empty, or `Format` is a value that is neither empty nor one of `txt`, `json` and
`markdown`. -/
theorem Validate_error_iff (c : Config) :
    (c.Validate).2 ≠ none ↔
      (c.APIKey = "" ∨ c.Space = "" ∨ c.Project = "" ∨
        (c.Format ≠ "" ∧ c.Format ≠ "txt" ∧ c.Format ≠ "json" ∧ c.Format ≠ "markdown")) := by
  by_cases h1 : c.APIKey = ""
  · simp [h1, (Validate_of_missing c (Or.inl h1)).2]
  · by_cases h2 : c.Space = ""
    · simp [h2, (Validate_of_missing c (Or.inr (Or.inl h2))).2]
    · by_cases h3 : c.Project = ""
      · simp [h3, (Validate_of_missing c (Or.inr (Or.inr h3))).2]
      · rw [Validate_of_required c h1 h2 h3]
        by_cases hf : c.Format = ""
        · simp [hf, h1, h2, h3]
        · simp only [hf, if_false, h1, h2, h3, false_or, not_false_eq_true, true_and]
          by_cases hv : c.Format = "txt" ∨ c.Format = "json" ∨ c.Format = "markdown"
          · simp only [if_pos hv, ne_eq, not_true_eq_false, false_iff]
            tauto
          · simp only [if_neg hv, ne_eq, reduceCtorEq, not_false_eq_true, true_iff]
            tauto

/-- C29: after a `Validate` that returns no error, `Domain`, `Output` and `Format` are
`backlog.com`, `./` and `txt` where they were empty and unchanged where they were not,
and `APIKey`, `Space`, `Project` and `Assignee` are unchanged; a `Validate` that fails
because `APIKey`, `Space` or `Project` is empty changes no field. -/
theorem Validate_defaults (c : Config) (hok : (c.Validate).2 = none) :
    ((c.Validate).1.Domain = (if c.Domain = "" then "backlog.com" else c.Domain) ∧
        (c.Validate).1.Output = (if c.Output = "" then "./" else c.Output) ∧
        (c.Validate).1.Format = (if c.Format = "" then "txt" else c.Format) ∧
        (c.Validate).1.APIKey = c.APIKey ∧ (c.Validate).1.Space = c.Space ∧
        (c.Validate).1.Project = c.Project ∧ (c.Validate).1.Assignee = c.Assignee) ∧
      ∀ c' : Config, (c'.APIKey = "" ∨ c'.Space = "" ∨ c'.Project = "") →
        (c'.Validate).1 = c' ∧ (c'.Validate).2 ≠ none := by
  refine ⟨?_, fun c' h => Validate_of_missing c' h⟩
  have h1 : c.APIKey ≠ "" := fun h => (Validate_of_missing c (Or.inl h)).2 hok
  have h2 : c.Space ≠ "" := fun h => (Validate_of_missing c (Or.inr (Or.inl h))).2 hok
  have h3 : c.Project ≠ "" := fun h => (Validate_of_missing c (Or.inr (Or.inr h))).2 hok
  rw [Validate_fst c h1 h2 h3]
  exact ⟨rfl, rfl, rfl, rfl, rfl, rfl, rfl⟩

/-- C29, on the configuration of `TestConfig_Validate_Defaults`. -/
theorem Validate_defaults_witness :
    (minimalConfig.Validate).2 = none ∧
      (minimalConfig.Validate).1.Domain = "backlog.com" ∧
      (minimalConfig.Validate).1.Output = "./" ∧
      (minimalConfig.Validate).1.Format = "txt" :=
  ⟨by decide,
    ((Validate_defaults minimalConfig (by decide)).1.1).trans (by decide),
    ((Validate_defaults minimalConfig (by decide)).1.2.1).trans (by decide),
    ((Validate_defaults minimalConfig (by decide)).1.2.2.1).trans (by decide)⟩

/-- C30: after `c.Merge(other)` each of `APIKey`, `Space`, `Domain`, `Project`, `Output`
and `Format` is the value of `other` where that is not empty and the previous value of
`c` otherwise, and `Assignee` is that of `other` where it is set and the previous one
otherwise; merging the all-empty configuration changes nothing, and merging the same
configuration a second time changes nothing more. -/
theorem Merge_spec (c other : Config) :
    c.Merge other =
        { APIKey := if other.APIKey ≠ "" then other.APIKey else c.APIKey
          Space := if other.Space ≠ "" then other.Space else c.Space
          Domain := if other.Domain ≠ "" then other.Domain else c.Domain
          Project := if other.Project ≠ "" then other.Project else c.Project
          Output := if other.Output ≠ "" then other.Output else c.Output
          Format := if other.Format ≠ "" then other.Format else c.Format
          Assignee :=
            match other.Assignee with
            | some a => some a
            | none => c.Assignee } ∧
      c.Merge {} = c ∧
      (c.Merge other).Merge other = c.Merge other ∧
      (mergeBase.Merge mergeOther) =
        { APIKey := "other-key", Space := "base-space", Domain := "base-domain",
          Project := "other-project", Output := "./output", Format := "json",
          Assignee := some 123 } := by
  have hspec : ∀ c other : Config, c.Merge other =
      { APIKey := if other.APIKey ≠ "" then other.APIKey else c.APIKey
        Space := if other.Space ≠ "" then other.Space else c.Space
        Domain := if other.Domain ≠ "" then other.Domain else c.Domain
        Project := if other.Project ≠ "" then other.Project else c.Project
        Output := if other.Output ≠ "" then other.Output else c.Output
        Format := if other.Format ≠ "" then other.Format else c.Format
        Assignee :=
          match other.Assignee with
          | some a => some a
          | none => c.Assignee } := by
    intro c other
    unfold Config.Merge
    by_cases h1 : other.APIKey = "" <;> by_cases h2 : other.Space = "" <;>
      by_cases h3 : other.Domain = "" <;> by_cases h4 : other.Project = "" <;>
      by_cases h5 : other.Output = "" <;> by_cases h6 : other.Format = "" <;>
      cases h7 : other.Assignee <;> simp [h1, h2, h3, h4, h5, h6]
  refine ⟨hspec c other, ?_, ?_, by decide⟩
  · rw [hspec]
    simp
  · rw [hspec (c.Merge other) other, hspec c other]
    by_cases h1 : other.APIKey = "" <;> by_cases h2 : other.Space = "" <;>
      by_cases h3 : other.Domain = "" <;> by_cases h4 : other.Project = "" <;>
      by_cases h5 : other.Output = "" <;> by_cases h6 : other.Format = "" <;>
      cases h7 : other.Assignee <;> simp [h1, h2, h3, h4, h5, h6]

/-! ## Errors of `doRequest` -/

theorem doRequest_api_error {α : Type} (c : APIClient) (httpClient : HTTPClient)
    (decodeError : String → Except GoError (List APIErrorEntry))
    (decode : String → Except GoError α) (n : Nat) (endpoint : String)
    (params : Option Values) (StatusCode : Int) (body : String)
    (first : APIErrorEntry) (rest : List APIErrorEntry)
    (hresp : httpClient n (doRequest.httpRequest c endpoint params) =
      .response StatusCode body)
    (hcode : StatusCode ≠ 200) (hpayload : decodeError body = .ok (first :: rest)) :
    doRequest c httpClient decodeError decode n endpoint params =
      .error (.api (first :: rest)) := by
  unfold doRequest
  rw [hresp]
  simp [hcode, hpayload]

theorem doRequest_status_error {α : Type} (c : APIClient) (httpClient : HTTPClient)
    (decodeError : String → Except GoError (List APIErrorEntry))
    (decode : String → Except GoError α) (n : Nat) (endpoint : String)
    (params : Option Values) (StatusCode : Int) (body : String)
    (hresp : httpClient n (doRequest.httpRequest c endpoint params) =
      .response StatusCode body)
    (hcode : StatusCode ≠ 200)
    (hpayload : decodeError body = .ok [] ∨ ∃ err, decodeError body = .error err) :
    doRequest c httpClient decodeError decode n endpoint params =
      .error (.errorf
        ("API request failed with status " ++ Itoa StatusCode ++ ": " ++ body)) := by
  unfold doRequest
  rw [hresp]
  rcases hpayload with h | ⟨err, h⟩ <;> simp [hcode, h]

theorem doRequest_decode_error {α : Type} (c : APIClient) (httpClient : HTTPClient)
    (decodeError : String → Except GoError (List APIErrorEntry))
    (decode : String → Except GoError α) (n : Nat) (endpoint : String)
    (params : Option Values) (body : String) (err : GoError)
    (hresp : httpClient n (doRequest.httpRequest c endpoint params) = .response 200 body)
    (hdecode : decode body = .error err) :
    doRequest c httpClient decodeError decode n endpoint params =
      .error (.wrapf "failed to unmarshal response: " err) := by
  unfold doRequest
  rw [hresp]
  simp [hdecode]

theorem GetIssues_first_request_error (c : APIClient) (doRequest : PageSource)
    (projectID : Int) (statusIDs : List Int) (assigneeID : Option Int) (progressFn : Bool)
    (e : GoError) (fuel : Nat)
    (herr : doRequest 0 (c.baseURL ++ "/issues")
      (GetIssues.params projectID statusIDs assigneeID 0) = .error e) :
    ∃ run, GetIssues c doRequest projectID statusIDs assigneeID progressFn (fuel + 1) =
        some run ∧
      run.issues = [] ∧ run.err = some (.wrapf "failed to get issues: " e) := by
  have h := GetIssues_failure c doRequest projectID statusIDs assigneeID progressFn
    (fun _ => []) 0 e (fun j hj => absurd hj (Nat.not_lt_zero j))
    (fun j hj => absurd hj (Nat.not_lt_zero j))
    (by simpa [maxCount] using herr) (fuel + 1) (Nat.succ_pos fuel)
  exact ⟨_, h, rfl, rfl⟩

/-- C26, counterexample: on the server of `TestAPIClient_GetProject_Error`, whose
answer has status 404 and a payload with the one error `Project not found`,
`doRequest` fails with the `APIError`, but the error that `GetProject` returns is not
an `APIError`: it is the error made by `fmt.Errorf` around it, and its `Error()` is
`failed to get project: Project not found`, not the message of the first reported
error. -/
theorem GetProject_error_not_api :
    notFoundServer 0 (doRequest.httpRequest {} ("" ++ "/projects/" ++ "NOTFOUND") none) =
        .response 404 "not-found-payload" ∧
      notFoundDecoder "not-found-payload" =
        .ok [{ Message := "Project not found", Code := 6 }] ∧
      doRequest {} notFoundServer notFoundDecoder (fun _ => (.ok {} : Except GoError Project))
          0 ("" ++ "/projects/" ++ "NOTFOUND") none =
        .error (.api [{ Message := "Project not found", Code := 6 }]) ∧
      (∃ err, (GetProject {} notFoundServer notFoundDecoder (fun _ => .ok {}) id 0
            "NOTFOUND").2 = some err ∧
        (∀ errors, err ≠ .api errors) ∧
        err.Error = "failed to get project: Project not found" ∧
        err.Error ≠ "Project not found") := by
  have hd : doRequest {} notFoundServer notFoundDecoder
      (fun _ => (.ok {} : Except GoError Project)) 0 ("" ++ "/projects/" ++ "NOTFOUND") none =
      .error (.api [{ Message := "Project not found", Code := 6 }]) :=
    doRequest_api_error {} notFoundServer notFoundDecoder (fun _ => .ok {}) 0
      ("" ++ "/projects/" ++ "NOTFOUND") none 404 "not-found-payload"
      { Message := "Project not found", Code := 6 } [] rfl (by decide) rfl
  refine ⟨rfl, rfl, hd, .wrapf "failed to get project: "
    (.api [{ Message := "Project not found", Code := 6 }]), ?_, ?_, by decide, by decide⟩
  · unfold GetProject
    simp only [id, hd]
  · intro errors h
    cases h

/-- C26, amended: when the response to a request of `doRequest` has a status other
than 200 and its body decodes to an error payload with at least one entry, `doRequest`
fails with that `APIError`, whose `Error()` is the message of the first entry, and
`GetProject`, `GetStatuses` and `GetIssues`, when the request is theirs (for
`GetIssues`: the request of any page, the earlier pages having been full), return an
error that wraps it: unwrapping gives the `APIError`, and its `Error()` is their own
text (`failed to get project: `, `failed to get statuses: `, `failed to get issues: `)
followed by that message; when the body does not decode to such a payload, `doRequest`
fails with the error that names the status code; when the status is 200 and the body
cannot be decoded, it fails with the decode error wrapped; `Error()` of an `APIError`
without entries is `unknown API error`. -/
theorem doRequest_errors (c : APIClient) (httpClient : HTTPClient)
    (decodeError : String → Except GoError (List APIErrorEntry))
    (decodeProject : String → Except GoError Project)
    (decodeStatuses : String → Except GoError (List Status))
    (decodeIssues : String → Except GoError (List Issue)) (pathEscape : String → String)
    (n : Nat) (endpoint : String) (params : Option Values)
    (StatusCode : Int) (body : String)
    (hresp : httpClient n (doRequest.httpRequest c endpoint params) =
      .response StatusCode body) :
    (∀ first rest, StatusCode ≠ 200 → decodeError body = .ok (first :: rest) →
      doRequest c httpClient decodeError decodeProject n endpoint params =
          .error (.api (first :: rest)) ∧
      doRequest c httpClient decodeError decodeStatuses n endpoint params =
          .error (.api (first :: rest)) ∧
      doRequest c httpClient decodeError decodeIssues n endpoint params =
          .error (.api (first :: rest)) ∧
      (GoError.api (first :: rest)).Error = first.Message ∧
      (∀ text, (GoError.wrapf text (.api (first :: rest))).Unwrap =
          some (.api (first :: rest)) ∧
        (GoError.wrapf text (.api (first :: rest))).Error = text ++ first.Message) ∧
      (∀ key, endpoint = c.baseURL ++ "/projects/" ++ pathEscape key → params = none →
        GetProject c httpClient decodeError decodeProject pathEscape n key =
          (none, some (.wrapf "failed to get project: " (.api (first :: rest))))) ∧
      (∀ key, endpoint = c.baseURL ++ "/projects/" ++ pathEscape key ++ "/statuses" →
        params = none →
        GetStatuses c httpClient decodeError decodeStatuses pathEscape n key =
          ([], some (.wrapf "failed to get statuses: " (.api (first :: rest))))) ∧
      (∀ projectID statusIDs assigneeID progressFn (pages : Nat → List Issue) fuel,
        (∀ j, j < n →
          c.issuesSource httpClient decodeError decodeIssues j (c.baseURL ++ "/issues")
            (GetIssues.params projectID statusIDs assigneeID (maxCount * (j : Int))) =
              .ok (pages j)) →
        (∀ j, j < n → 100 ≤ (pages j).length) →
        endpoint = c.baseURL ++ "/issues" →
        params =
          some (GetIssues.params projectID statusIDs assigneeID (maxCount * (n : Int))) →
        n < fuel →
        ∃ run, GetIssues c (c.issuesSource httpClient decodeError decodeIssues) projectID
            statusIDs assigneeID progressFn fuel = some run ∧
          run.issues = [] ∧
          run.err = some (.wrapf "failed to get issues: " (.api (first :: rest))))) ∧
      (StatusCode ≠ 200 →
        (decodeError body = .ok [] ∨ ∃ err, decodeError body = .error err) →
        doRequest c httpClient decodeError decodeProject n endpoint params =
          .error (.errorf
            ("API request failed with status " ++ Itoa StatusCode ++ ": " ++ body))) ∧
      (∀ err, StatusCode = 200 → decodeProject body = .error err →
        doRequest c httpClient decodeError decodeProject n endpoint params =
          .error (.wrapf "failed to unmarshal response: " err)) ∧
      (GoError.api []).Error = "unknown API error" := by
  refine ⟨?_, ?_, ?_, rfl⟩
  · intro first rest hcode hpayload
    refine ⟨?_, ?_, ?_, rfl, fun _ => ⟨rfl, rfl⟩, ?_, ?_, ?_⟩
    · exact doRequest_api_error c httpClient decodeError decodeProject n endpoint params
        StatusCode body first rest hresp hcode hpayload
    · exact doRequest_api_error c httpClient decodeError decodeStatuses n endpoint params
        StatusCode body first rest hresp hcode hpayload
    · exact doRequest_api_error c httpClient decodeError decodeIssues n endpoint params
        StatusCode body first rest hresp hcode hpayload
    · intro key hep hps
      subst hep hps
      unfold GetProject
      simp only [doRequest_api_error c httpClient decodeError decodeProject n _ none
        StatusCode body first rest hresp hcode hpayload]
    · intro key hep hps
      subst hep hps
      unfold GetStatuses
      simp only [doRequest_api_error c httpClient decodeError decodeStatuses n _ none
        StatusCode body first rest hresp hcode hpayload]
    · intro projectID statusIDs assigneeID progressFn pages fuel hok hfull hep hps hfuel
      subst hep hps
      exact ⟨_, GetIssues_failure c _ projectID statusIDs assigneeID progressFn pages n _
        hok hfull
        (doRequest_api_error c httpClient decodeError decodeIssues n _ _
          StatusCode body first rest hresp hcode hpayload) fuel hfuel, rfl, rfl⟩
  · intro hcode hpayload
    exact doRequest_status_error c httpClient decodeError decodeProject n endpoint params
      StatusCode body hresp hcode hpayload
  · intro err hcode hdecode
    subst hcode
    exact doRequest_decode_error c httpClient decodeError decodeProject n endpoint params
      body err hresp hdecode

/-- C26, amended, on the server of `TestAPIClient_GetProject_Error`: `GetProject`
returns no project and an error whose text is `failed to get project: ` followed by the
message `Project not found`. -/
theorem doRequest_errors_witness :
    GetProject {} notFoundServer notFoundDecoder (fun _ => .ok {}) id 0 "NOTFOUND" =
        (none, some (.wrapf "failed to get project: "
          (.api [{ Message := "Project not found", Code := 6 }]))) ∧
      (GoError.wrapf "failed to get project: "
          (.api [{ Message := "Project not found", Code := 6 }])).Error =
        "failed to get project: Project not found" :=
  ⟨((doRequest_errors {} notFoundServer notFoundDecoder (fun _ => .ok {}) (fun _ => .ok [])
      (fun _ => .ok []) id 0 ("" ++ "/projects/" ++ "NOTFOUND") none 404 "not-found-payload"
      rfl).1
      { Message := "Project not found", Code := 6 } [] (by decide) rfl).2.2.2.2.2.1
      "NOTFOUND" rfl rfl,
    by decide⟩

/-! ## `Exporter.Run` -/

theorem Run_getProject_error (e : Exporter) (env : RunEnv) (project : Option Project)
    (err : GoError) (hp : e.client.GetProject e.config.Project = (project, some err)) :
    e.Run env =
      { events :=
          [.printf ("Connecting to " ++ e.config.Space ++ "." ++ e.config.Domain ++ "...\n"),
           .getProject e.config.Project]
        ending := .returned "" (some (.wrapf "failed to get project: " err)) } := by
  unfold Exporter.Run
  simp only [hp]

theorem Run_getStatuses_error (e : Exporter) (env : RunEnv) (project : Project)
    (statuses : List Status) (err : GoError)
    (hp : e.client.GetProject e.config.Project = (some project, none))
    (hs : e.client.GetStatuses e.config.Project = (statuses, some err)) :
    e.Run env =
      { events :=
          [.printf ("Connecting to " ++ e.config.Space ++ "." ++ e.config.Domain ++ "...\n"),
           .getProject e.config.Project,
           .printf ("Project: " ++ project.ProjectKey ++ " (" ++ project.Name ++ ")\n"),
           .printf "Fetching statuses... ",
           .getStatuses e.config.Project]
        ending := .returned "" (some (.wrapf "failed to get statuses: " err)) } := by
  unfold Exporter.Run
  simp only [hp, hs]
  rfl

theorem progress_events_plain (calls : List (Int × Int)) :
    ∀ ev ∈ calls.map (fun call => Event.printf (Exporter.progressText call.1 call.2)),
      ev.isGetStatuses = false ∧ ev.isGetIssues = false ∧ ev.isFormat = false ∧
        ev.isWriteFile = false := by
  intro ev hev
  obtain ⟨call, -, rfl⟩ := List.mem_map.1 hev
  exact ⟨rfl, rfl, rfl, rfl⟩

theorem Run_getIssues_error (e : Exporter) (env : RunEnv) (project : Project)
    (statuses : List Status) (fetched : IssuesResult) (err : GoError)
    (hp : e.client.GetProject e.config.Project = (some project, none))
    (hs : e.client.GetStatuses e.config.Project = (statuses, none))
    (hi : e.client.GetIssues project.ID (getIncompleteStatusIDs statuses) e.config.Assignee =
      some fetched)
    (herr : fetched.err = some err) :
    (e.Run env).ending = .returned "" (some (.wrapf "failed to get issues: " err)) ∧
      ∀ ev ∈ (e.Run env).events, ev.isFormat = false ∧ ev.isWriteFile = false := by
  unfold Exporter.Run
  simp only [hp, hs, hi, herr]
  refine ⟨trivial, ?_⟩
  intro ev hev
  rcases List.mem_append.1 hev with hev | hev
  · simp at hev
    rcases hev with rfl | rfl | rfl | rfl | rfl | rfl | rfl <;> exact ⟨rfl, rfl⟩
  · exact ⟨(progress_events_plain _ ev hev).2.2.1, (progress_events_plain _ ev hev).2.2.2⟩

theorem Run_format_error (e : Exporter) (env : RunEnv) (project : Project)
    (statuses : List Status) (fetched : IssuesResult) (bytes : String) (err : GoError)
    (hp : e.client.GetProject e.config.Project = (some project, none))
    (hs : e.client.GetStatuses e.config.Project = (statuses, none))
    (hi : e.client.GetIssues project.ID (getIncompleteStatusIDs statuses) e.config.Assignee =
      some fetched)
    (herr : fetched.err = none)
    (hf : e.formatter.Format env.timeFormat env.marshalIndent env.fuel
      ((buildHierarchy fetched.issues).exportData (some project) (env.now 0)) =
        .ok (bytes, some err)) :
    (e.Run env).ending = .returned "" (some (.wrapf "failed to format output: " err)) ∧
      ∀ ev ∈ (e.Run env).events, ev.isWriteFile = false := by
  unfold Exporter.Run
  simp only [hp, hs, hi, herr, hf]
  refine ⟨trivial, ?_⟩
  intro ev hev
  rcases List.mem_append.1 hev with hev | hev
  · rcases List.mem_append.1 hev with hev | hev
    · simp at hev
      rcases hev with rfl | rfl | rfl | rfl | rfl | rfl | rfl <;> rfl
    · exact (progress_events_plain _ ev hev).2.2.2
  · simp at hev
    rcases hev with rfl | rfl | rfl | rfl | rfl | rfl | rfl <;> rfl

theorem Run_writeFile_origin (e : Exporter) (env : RunEnv) (ev : Event)
    (hev : ev ∈ (e.Run env).events) (hw : ev.isWriteFile = true) :
    ∃ project statuses fetched content,
      e.client.GetProject e.config.Project = (some project, none) ∧
      e.client.GetStatuses e.config.Project = (statuses, none) ∧
      e.client.GetIssues project.ID (getIncompleteStatusIDs statuses) e.config.Assignee =
        some fetched ∧
      fetched.err = none ∧
      e.formatter.Format env.timeFormat env.marshalIndent env.fuel
        ((buildHierarchy fetched.issues).exportData (some project) (env.now 0)) =
          .ok (content, none) ∧
      ev = .writeFile (env.filepathJoin e.config.Output
        (e.generateFilename env.timeFormat (env.now 1) project.ProjectKey)) content := by
  have hplain : ∀ calls : List (Int × Int),
      ev ∉ calls.map (fun call => Event.printf (Exporter.progressText call.1 call.2)) := by
    intro calls hmem
    rw [(progress_events_plain calls ev hmem).2.2.2] at hw
    exact Bool.noConfusion hw
  unfold Exporter.Run at hev
  rcases hp : e.client.GetProject e.config.Project with ⟨project, perr⟩
  rcases perr with _ | perr
  · rcases project with _ | project
    · simp only [hp] at hev
      simp at hev
      rcases hev with rfl | rfl <;> exact Bool.noConfusion hw
    · rcases hs : e.client.GetStatuses e.config.Project with ⟨statuses, serr⟩
      rcases serr with _ | serr
      · rcases hi : e.client.GetIssues project.ID (getIncompleteStatusIDs statuses)
          e.config.Assignee with _ | fetched
        · simp only [hp, hs, hi] at hev
          simp at hev
          rcases hev with rfl | rfl | rfl | rfl | rfl | rfl | rfl <;> exact Bool.noConfusion hw
        · rcases herr : fetched.err with _ | ierr
          · rcases hf : e.formatter.Format env.timeFormat env.marshalIndent env.fuel
              ((buildHierarchy fetched.issues).exportData (some project) (env.now 0)) with
              fault | ⟨content, ferr⟩
            · simp only [hp, hs, hi, herr, hf] at hev
              simp [hplain] at hev
              rcases hev with rfl | rfl | rfl | rfl | rfl | rfl | rfl | rfl | rfl | rfl |
                rfl | rfl | rfl | rfl <;> exact Bool.noConfusion hw
            · rcases ferr with _ | ferr
              · refine ⟨project, statuses, fetched, content, rfl, rfl, hi, herr, hf, ?_⟩
                rcases hwrite : env.writeFile (env.filepathJoin e.config.Output
                  (e.generateFilename env.timeFormat (env.now 1) project.ProjectKey))
                  content with _ | werr
                · simp only [hp, hs, hi, herr, hf, hwrite] at hev
                  simp [hplain] at hev
                  rcases hev with rfl | rfl | rfl | rfl | rfl | rfl | rfl | rfl | rfl | rfl |
                    rfl | rfl | rfl | rfl | rfl | rfl | rfl <;>
                    first
                      | rfl
                      | exact Bool.noConfusion hw
                · simp only [hp, hs, hi, herr, hf, hwrite] at hev
                  simp [hplain] at hev
                  rcases hev with rfl | rfl | rfl | rfl | rfl | rfl | rfl | rfl | rfl | rfl |
                    rfl | rfl | rfl | rfl | rfl <;>
                    first
                      | rfl
                      | exact Bool.noConfusion hw
              · simp only [hp, hs, hi, herr, hf] at hev
                simp [hplain] at hev
                rcases hev with rfl | rfl | rfl | rfl | rfl | rfl | rfl | rfl | rfl | rfl |
                  rfl | rfl | rfl | rfl <;> exact Bool.noConfusion hw
          · simp only [hp, hs, hi, herr] at hev
            simp [hplain] at hev
            rcases hev with rfl | rfl | rfl | rfl | rfl | rfl | rfl <;> exact Bool.noConfusion hw
      · simp only [hp, hs] at hev
        simp at hev
        rcases hev with rfl | rfl | rfl | rfl | rfl <;> exact Bool.noConfusion hw
  · simp only [hp] at hev
    simp at hev
    rcases hev with rfl | rfl <;> exact Bool.noConfusion hw

theorem progress_events_filter (calls : List (Int × Int)) :
    (calls.map (fun call => Event.printf (Exporter.progressText call.1 call.2))).filter
        Event.isGetIssues = [] ∧
      (calls.map (fun call => Event.printf (Exporter.progressText call.1 call.2))).filter
        Event.isFormat = [] := by
  constructor
  · rw [List.filter_eq_nil_iff]
    intro ev hev
    rw [(progress_events_plain calls ev hev).2.1]
    exact Bool.false_ne_true
  · rw [List.filter_eq_nil_iff]
    intro ev hev
    rw [(progress_events_plain calls ev hev).2.2.1]
    exact Bool.false_ne_true

theorem Run_getIssues_call (e : Exporter) (env : RunEnv) (project : Project)
    (statuses : List Status)
    (hp : e.client.GetProject e.config.Project = (some project, none))
    (hs : e.client.GetStatuses e.config.Project = (statuses, none)) :
    (e.Run env).events.filter Event.isGetIssues =
      [.getIssues project.ID (getIncompleteStatusIDs statuses) e.config.Assignee] := by
  unfold Exporter.Run
  simp only [hp, hs]
  split
  · rfl
  · split
    · simp [List.filter_append, progress_events_filter, List.filter_cons, Event.isGetIssues]
    · split
      · simp [List.filter_append, progress_events_filter, List.filter_cons, Event.isGetIssues]
      · simp [List.filter_append, progress_events_filter, List.filter_cons, Event.isGetIssues]
      · split <;>
          simp [List.filter_append, progress_events_filter, List.filter_cons, Event.isGetIssues]

theorem Run_format_call (e : Exporter) (env : RunEnv) (project : Project)
    (statuses : List Status) (fetched : IssuesResult)
    (hp : e.client.GetProject e.config.Project = (some project, none))
    (hs : e.client.GetStatuses e.config.Project = (statuses, none))
    (hi : e.client.GetIssues project.ID (getIncompleteStatusIDs statuses) e.config.Assignee =
      some fetched)
    (herr : fetched.err = none) :
    (e.Run env).events.filter Event.isFormat =
      [.format ((buildHierarchy fetched.issues).exportData (some project) (env.now 0))] := by
  unfold Exporter.Run
  simp only [hp, hs, hi, herr]
  split
  · simp [List.filter_append, progress_events_filter, List.filter_cons, Event.isFormat]
  · simp [List.filter_append, progress_events_filter, List.filter_cons, Event.isFormat]
  · split <;>
      simp [List.filter_append, progress_events_filter, List.filter_cons, Event.isFormat]

theorem getIncompleteStatusIDs_no_completed (statuses : List Status) :
    (4 : Int) ∉ getIncompleteStatusIDs statuses := by
  rw [getIncompleteStatusIDs, getIncompleteStatusIDs_loop, List.nil_append]
  intro hmem
  obtain ⟨s, hs, hid⟩ := List.mem_map.1 hmem
  have hkeep := (List.mem_filter.1 hs).2
  rw [decide_eq_true_eq] at hkeep
  exact hkeep (Or.inl hid)

/-- C24: `Exporter.Run` is fail-fast.  If `GetProject` fails, `Run` returns the empty
path and an error, and none of its events is a call of `GetStatuses`, a call of
`GetIssues` or a write of a file.  If `GetStatuses` fails, it returns the empty path and
an error, and no event is a call of `GetIssues` or a write.  If `GetIssues` fails, or
the renderer returns an error, it returns the empty path and an error, and no event is
a write.  In every run, an event that writes a file comes from a run in which the three
fetches and the renderer succeeded, and it writes the rendered content. -/
theorem Run_fail_fast (e : Exporter) (env : RunEnv) :
    (∀ project err, e.client.GetProject e.config.Project = (project, some err) →
      (e.Run env).ending = .returned "" (some (.wrapf "failed to get project: " err)) ∧
      ∀ ev ∈ (e.Run env).events,
        ev.isGetStatuses = false ∧ ev.isGetIssues = false ∧ ev.isWriteFile = false) ∧
    (∀ project statuses err,
      e.client.GetProject e.config.Project = (some project, none) →
      e.client.GetStatuses e.config.Project = (statuses, some err) →
      (e.Run env).ending = .returned "" (some (.wrapf "failed to get statuses: " err)) ∧
      ∀ ev ∈ (e.Run env).events, ev.isGetIssues = false ∧ ev.isWriteFile = false) ∧
    (∀ project statuses fetched err,
      e.client.GetProject e.config.Project = (some project, none) →
      e.client.GetStatuses e.config.Project = (statuses, none) →
      e.client.GetIssues project.ID (getIncompleteStatusIDs statuses) e.config.Assignee =
        some fetched →
      fetched.err = some err →
      (e.Run env).ending = .returned "" (some (.wrapf "failed to get issues: " err)) ∧
      ∀ ev ∈ (e.Run env).events, ev.isWriteFile = false) ∧
    (∀ project statuses fetched bytes err,
      e.client.GetProject e.config.Project = (some project, none) →
      e.client.GetStatuses e.config.Project = (statuses, none) →
      e.client.GetIssues project.ID (getIncompleteStatusIDs statuses) e.config.Assignee =
        some fetched →
      fetched.err = none →
      e.formatter.Format env.timeFormat env.marshalIndent env.fuel
        ((buildHierarchy fetched.issues).exportData (some project) (env.now 0)) =
          .ok (bytes, some err) →
      (e.Run env).ending = .returned "" (some (.wrapf "failed to format output: " err)) ∧
      ∀ ev ∈ (e.Run env).events, ev.isWriteFile = false) ∧
    (∀ ev ∈ (e.Run env).events, ev.isWriteFile = true →
      ∃ project statuses fetched content,
        e.client.GetProject e.config.Project = (some project, none) ∧
        e.client.GetStatuses e.config.Project = (statuses, none) ∧
        e.client.GetIssues project.ID (getIncompleteStatusIDs statuses) e.config.Assignee =
          some fetched ∧
        fetched.err = none ∧
        e.formatter.Format env.timeFormat env.marshalIndent env.fuel
          ((buildHierarchy fetched.issues).exportData (some project) (env.now 0)) =
            .ok (content, none) ∧
        ev = .writeFile (env.filepathJoin e.config.Output
          (e.generateFilename env.timeFormat (env.now 1) project.ProjectKey)) content) := by
  refine ⟨?_, ?_, ?_, ?_, ?_⟩
  · intro project err hp
    rw [Run_getProject_error e env project err hp]
    refine ⟨rfl, ?_⟩
    intro ev hev
    simp at hev
    rcases hev with rfl | rfl <;> exact ⟨rfl, rfl, rfl⟩
  · intro project statuses err hp hs
    rw [Run_getStatuses_error e env project statuses err hp hs]
    refine ⟨rfl, ?_⟩
    intro ev hev
    simp at hev
    rcases hev with rfl | rfl | rfl | rfl | rfl <;> exact ⟨rfl, rfl⟩
  · intro project statuses fetched err hp hs hi herr
    have h := Run_getIssues_error e env project statuses fetched err hp hs hi herr
    exact ⟨h.1, fun ev hev => (h.2 ev hev).2⟩
  · intro project statuses fetched bytes err hp hs hi herr hf
    exact Run_format_error e env project statuses fetched bytes err hp hs hi herr hf
  · intro ev hev hw
    exact Run_writeFile_origin e env ev hev hw

/-- C24, on the client of `TestIntegration_ErrorHandling`, whose `GetProject` fails:
the run makes two events, the first line of output and the call of `GetProject`, and
returns the empty path and the wrapped error. -/
theorem Run_fail_fast_witness :
    ((NewExporter notFoundClient scenarioConfig).Run sampleEnv).events =
        [.printf "Connecting to mycompany.backlog.com...\n", .getProject "MYPROJ"] ∧
      ((NewExporter notFoundClient scenarioConfig).Run sampleEnv).ending =
        .returned "" (some (.wrapf "failed to get project: "
          (.wrapf "failed to get project: "
            (.api [{ Message := "Project not found", Code := 6 }])))) ∧
      ∀ ev ∈ ((NewExporter notFoundClient scenarioConfig).Run sampleEnv).events,
        ev.isGetStatuses = false ∧ ev.isGetIssues = false ∧ ev.isWriteFile = false :=
  ⟨rfl, (Run_fail_fast (NewExporter notFoundClient scenarioConfig) sampleEnv).1 none _ rfl⟩

/-- C25: when `GetProject` returns a project and `GetStatuses` returns statuses,
`Run` calls `GetIssues` exactly once, with the id of that project, with
`getIncompleteStatusIDs` of those statuses, and with the assignee of the configuration;
the status id 4 is not among the ids of the call.  When `GetIssues` then returns issues
without error, `Run` calls the renderer exactly once, on the bundle that holds the
fetched project, the time of the first call of `time.Now`, and the roots, the nodes
and the summary that `buildHierarchy` returns for the fetched issues. -/
theorem Run_arguments (e : Exporter) (env : RunEnv) (project : Project)
    (statuses : List Status)
    (hp : e.client.GetProject e.config.Project = (some project, none))
    (hs : e.client.GetStatuses e.config.Project = (statuses, none)) :
    (e.Run env).events.filter Event.isGetIssues =
        [.getIssues project.ID (getIncompleteStatusIDs statuses) e.config.Assignee] ∧
      (∀ projectID statusIDs assigneeID,
        Event.getIssues projectID statusIDs assigneeID ∈ (e.Run env).events →
          projectID = project.ID ∧ statusIDs = getIncompleteStatusIDs statuses ∧
            assigneeID = e.config.Assignee ∧ (4 : Int) ∉ statusIDs) ∧
      (∀ fetched,
        e.client.GetIssues project.ID (getIncompleteStatusIDs statuses) e.config.Assignee =
          some fetched →
        fetched.err = none →
        ∃ data : ExportData,
          (e.Run env).events.filter Event.isFormat = [.format data] ∧
          data.Project = some project ∧
          data.ExportedAt = env.now 0 ∧
          data.Issues = (buildHierarchy fetched.issues).roots ∧
          data.heap = (buildHierarchy fetched.issues).heap ∧
          data.Summary = (buildHierarchy fetched.issues).summary) := by
  have hcall := Run_getIssues_call e env project statuses hp hs
  refine ⟨hcall, ?_, ?_⟩
  · intro projectID statusIDs assigneeID hmem
    have hin : Event.getIssues projectID statusIDs assigneeID ∈
        (e.Run env).events.filter Event.isGetIssues := List.mem_filter.2 ⟨hmem, rfl⟩
    rw [hcall, List.mem_singleton] at hin
    injection hin with h1 h2 h3
    subst h1 h2 h3
    exact ⟨rfl, rfl, rfl, getIncompleteStatusIDs_no_completed statuses⟩
  · intro fetched hi herr
    exact ⟨_, Run_format_call e env project statuses fetched hp hs hi herr,
      rfl, rfl, rfl, rfl, rfl⟩

/-- C25, on the client of `TestExporter_Run`: the one call of `GetIssues` has the
project id 1, the status ids 1, 2 and 3, and no assignee. -/
theorem Run_arguments_witness :
    ((NewExporter scenarioClient scenarioConfig).Run sampleEnv).events.filter
        Event.isGetIssues = [.getIssues 1 [1, 2, 3] none] :=
  (Run_arguments (NewExporter scenarioClient scenarioConfig) sampleEnv
    { ID := 1, ProjectKey := "MYPROJ", Name := "マイプロジェクト" } scenarioStatuses rfl rfl).1

/-- C27, counterexample: the client's `GetProject` fails with an error whose message
is `failed to get project: Project not found`; the error that `Run` returns is another
error, with the message `failed to get project: failed to get project: Project not
found`. -/
theorem Run_error_changed :
    notFoundClient.GetProject (NewExporter notFoundClient scenarioConfig).config.Project =
        (none, some (.wrapf "failed to get project: "
          (.api [{ Message := "Project not found", Code := 6 }]))) ∧
      ((NewExporter notFoundClient scenarioConfig).Run sampleEnv).ending =
        .returned "" (some (.wrapf "failed to get project: "
          (.wrapf "failed to get project: "
            (.api [{ Message := "Project not found", Code := 6 }])))) ∧
      (GoError.wrapf "failed to get project: "
          (.api [{ Message := "Project not found", Code := 6 }])).Error =
        "failed to get project: Project not found" ∧
      (GoError.wrapf "failed to get project: "
          (.wrapf "failed to get project: "
            (.api [{ Message := "Project not found", Code := 6 }]))).Error =
        "failed to get project: failed to get project: Project not found" ∧
      (GoError.wrapf "failed to get project: "
          (.wrapf "failed to get project: "
            (.api [{ Message := "Project not found", Code := 6 }]))).Error ≠
        (GoError.wrapf "failed to get project: "
          (.api [{ Message := "Project not found", Code := 6 }])).Error := by
  refine ⟨rfl, rfl, by decide, by decide, by decide⟩

/-- C27, amended: when a fetch stage fails, the error that `Run` returns wraps the
error reported by the client: unwrapping it gives the client's error unchanged, and
its message is the text of the stage (`failed to get project: `, `failed to get
statuses: ` or `failed to get issues: `) followed by the message of the client's
error. -/
theorem Run_error_wraps (e : Exporter) (env : RunEnv) :
    (∀ project err, e.client.GetProject e.config.Project = (project, some err) →
      ∃ runErr, (e.Run env).ending = .returned "" (some runErr) ∧
        runErr.Unwrap = some err ∧
        runErr.Error = "failed to get project: " ++ err.Error) ∧
    (∀ project statuses err,
      e.client.GetProject e.config.Project = (some project, none) →
      e.client.GetStatuses e.config.Project = (statuses, some err) →
      ∃ runErr, (e.Run env).ending = .returned "" (some runErr) ∧
        runErr.Unwrap = some err ∧
        runErr.Error = "failed to get statuses: " ++ err.Error) ∧
    (∀ project statuses fetched err,
      e.client.GetProject e.config.Project = (some project, none) →
      e.client.GetStatuses e.config.Project = (statuses, none) →
      e.client.GetIssues project.ID (getIncompleteStatusIDs statuses) e.config.Assignee =
        some fetched →
      fetched.err = some err →
      ∃ runErr, (e.Run env).ending = .returned "" (some runErr) ∧
        runErr.Unwrap = some err ∧
        runErr.Error = "failed to get issues: " ++ err.Error) := by
  refine ⟨?_, ?_, ?_⟩
  · intro project err hp
    rw [Run_getProject_error e env project err hp]
    exact ⟨_, rfl, rfl, rfl⟩
  · intro project statuses err hp hs
    rw [Run_getStatuses_error e env project statuses err hp hs]
    exact ⟨_, rfl, rfl, rfl⟩
  · intro project statuses fetched err hp hs hi herr
    exact ⟨_, (Run_getIssues_error e env project statuses fetched err hp hs hi herr).1,
      rfl, rfl⟩

/-- C27, amended, on a client whose `GetStatuses` fails with `status error`: `Run`
returns an error that unwraps to it, with the message `failed to get statuses: status
error`. -/
theorem Run_error_wraps_witness :
    ∃ runErr,
      ((NewExporter statusesFailClient scenarioConfig).Run sampleEnv).ending =
        .returned "" (some runErr) ∧
      runErr.Unwrap = some (.errorf "status error") ∧
      runErr.Error = "failed to get statuses: " ++ (GoError.errorf "status error").Error :=
  (Run_error_wraps (NewExporter statusesFailClient scenarioConfig) sampleEnv).2.1
    { ID := 1, ProjectKey := "MYPROJ", Name := "マイプロジェクト" } [] _ rfl rfl

/-! ## Layout of the plain-text and the Markdown output -/

theorem String_foldl_append (l : List String) (a : String) :
    l.foldl (fun r s => r ++ s) a = a ++ l.foldl (fun r s => r ++ s) "" := by
  induction l generalizing a with
  | nil => simp
  | cons b l ih =>
    rw [List.foldl_cons, ih, List.foldl_cons, ih ("" ++ b)]
    simp [String.append_assoc]

theorem String_join_nil : String.join [] = "" := rfl

theorem String_join_cons (a : String) (l : List String) :
    String.join (a :: l) = a ++ String.join l := by
  unfold String.join
  rw [List.foldl_cons, String_foldl_append]
  simp

theorem String_intercalate_go (acc s : String) (l : List String) :
    String.intercalate.go acc s l = acc ++ String.join (l.map (fun a => s ++ a)) := by
  induction l generalizing acc with
  | nil => simp [String.intercalate.go, String_join_nil]
  | cons b l ih =>
    rw [String.intercalate.go, ih, List.map_cons, String_join_cons]
    simp [String.append_assoc]

theorem String_intercalate_cons_cons (s a b : String) (l : List String) :
    String.intercalate s (a :: b :: l) = a ++ s ++ String.intercalate s (b :: l) := by
  simp [String.intercalate, String_intercalate_go, String_join_cons, String.append_assoc]

theorem issueAt_eq_some (h : Heap) (p : Ptr) (issue : Issue)
    (hp : h.issueAt p = some issue) : ∃ node, h.node p = some node ∧ node.Issue = issue := by
  unfold Heap.issueAt at hp
  rcases hnode : h.node p with _ | node
  · rw [hnode] at hp
    exact Option.noConfusion hp
  · rw [hnode] at hp
    exact ⟨node, rfl, Option.some.inj hp⟩

theorem TXTFormatter_formatChildren_layout (h : Heap) (len : Nat) (cs : List Ptr)
    (issues : List Issue) (hcs : cs.map h.issueAt = issues.map some) (i : Nat) :
    TXTFormatter.formatChildren h len i cs =
      .ok (String.join
        ((issues.enumFrom i).map (fun ic => TXTLayout.childBlock len ic.1 ic.2))) := by
  induction cs generalizing i issues with
  | nil =>
    cases issues with
    | nil => rfl
    | cons c rest => simp at hcs
  | cons child rest ih =>
    cases issues with
    | nil => simp at hcs
    | cons c crest =>
      rw [List.map_cons, List.map_cons, List.cons.injEq] at hcs
      obtain ⟨node, hnode, rfl⟩ := issueAt_eq_some h child c hcs.1
      rw [TXTFormatter.formatChildren, hnode]
      simp only [ih crest hcs.2 (i + 1), List.enumFrom_cons, List.map_cons, String_join_cons]
      unfold TXTLayout.childBlock TXTLayout.childLines
      by_cases hlast : i + 1 = len
      · have hdec : decide ((i : Int) = (len : Int) - 1) = true := by
          rw [decide_eq_true_eq]
          omega
        simp only [hlast, hdec, if_true, Bool.not_true, Bool.false_eq_true, if_false,
          String.append_assoc, String.empty_append]
      · have hdec : decide ((i : Int) = (len : Int) - 1) = false := by
          rw [decide_eq_false_iff_not]
          omega
        simp only [hlast, hdec, if_true, Bool.not_false, Bool.false_eq_true, if_false,
          String.append_assoc]

theorem TXTFormatter_formatIssue_layout (timeFormat : TimeFormat) (h : Heap) (r : Ptr)
    (node : HierarchicalIssue) (issues : List Issue) (hr : h.node r = some node)
    (hcs : node.Children.map h.issueAt = issues.map some) :
    TXTFormatter.formatIssue timeFormat h r false =
      .ok (TXTLayout.rootBlock timeFormat node.Issue issues) := by
  have hlen : node.Children.length = issues.length := by
    have := congrArg List.length hcs
    simpa using this
  rw [TXTFormatter.formatIssue, hr]
  simp only [TXTFormatter_formatChildren_layout h node.Children.length node.Children issues hcs 0]
  unfold TXTLayout.rootBlock TXTLayout.rootLines
  cases issues with
  | nil =>
    have hnil : node.Children.length = 0 := hlen
    simp only [hnil, gt_iff_lt, Nat.lt_irrefl, if_false, Bool.not_false, if_true,
      Bool.false_eq_true, List.isEmpty_nil, String.append_assoc, String.empty_append,
      String.append_empty]
  | cons c rest =>
    have hpos : (c :: rest).length > 0 := Nat.succ_pos _
    simp only [hpos, hlen, if_false, Bool.not_false, if_true, Bool.false_eq_true,
      List.isEmpty_cons, List.enum, String.append_assoc, String.empty_append]

theorem TXTLayout_separator_eq :
    TXTLayout.separator =
      "\n--------------------------------------------------------------------------------\n\n" := by
  decide

theorem TXTFormatter_header_layout (timeFormat : TimeFormat) (project : Project)
    (exportedAt : Time) (summary : ExportSummary) :
    TXTFormatter.header timeFormat project exportedAt summary =
      TXTLayout.header timeFormat project exportedAt summary := by
  have h1 : Layout.rule80 '=' ++ "\n" =
      "================================================================================\n" := by
    decide
  have h2 : "================================================================================\n\n" =
      "================================================================================\n" ++ "\n" := by
    decide
  unfold TXTFormatter.header TXTLayout.header
  rw [h1, h2]
  simp only [String.append_assoc]

theorem TXTFormatter_formatRoots_layout (timeFormat : TimeFormat) (h : Heap)
    (roots : List Ptr) (families : List (Issue × List Issue))
    (hfam : h.families roots families) (len i : Nat) (hlen : len = i + roots.length) :
    TXTFormatter.formatRoots timeFormat h len i roots =
      .ok (String.intercalate TXTLayout.separator
        (families.map (fun ic => TXTLayout.rootBlock timeFormat ic.1 ic.2))) := by
  unfold Heap.families at hfam
  induction hfam generalizing i with
  | nil => rfl
  | @cons r f rs fs hrel hrest ih =>
    obtain ⟨node, hr, hissue, hcs⟩ := hrel
    have hrs : rs.length = fs.length := hrest.length_eq
    rw [TXTFormatter.formatRoots,
      TXTFormatter_formatIssue_layout timeFormat h r node f.2 hr hcs, hissue]
    simp only [ih (i + 1) (by rw [hlen, List.length_cons]; omega), List.map_cons]
    congr 1
    cases fs with
    | nil =>
      have hnot : ¬ ((i : Int) < (len : Int) - 1) := by
        rw [hlen, List.length_cons, hrs, List.length_nil]
        omega
      rw [if_neg hnot]
      simp [String.intercalate, String.intercalate.go]
    | cons g gs =>
      have hlt : (i : Int) < (len : Int) - 1 := by
        rw [hlen, List.length_cons, hrs, List.length_cons]
        omega
      rw [if_pos hlt, List.map_cons, String_intercalate_cons_cons, ← TXTLayout_separator_eq]

theorem TXTFormatter_Format_layout (timeFormat : TimeFormat) (data : ExportData)
    (project : Project) (families : List (Issue × List Issue))
    (hproj : data.Project = some project)
    (hfam : data.heap.families data.Issues families) :
    TXTFormatter.Format timeFormat data =
      .ok (TXTLayout.document timeFormat project data.ExportedAt data.Summary families,
        none) := by
  rw [TXTFormatter.Format, hproj]
  simp only [TXTFormatter_formatRoots_layout timeFormat data.heap data.Issues families hfam
    data.Issues.length 0 (by omega), TXTFormatter_header_layout]
  rfl

theorem MarkdownLayout_row_names :
    "| " ++ "状態" ++ " | " = "| 状態 | " ∧ "| " ++ "優先度" ++ " | " = "| 優先度 | " ∧
      "| " ++ "担当者" ++ " | " = "| 担当者 | " ∧ "| " ++ "期限日" ++ " | " = "| 期限日 | " ∧
      "| " ++ "作成日" ++ " | " = "| 作成日 | " ∧ "| " ++ "更新日" ++ " | " = "| 更新日 | " := by
  decide

theorem MarkdownFormatter_formatChildren_layout (h : Heap) (cs : List Ptr)
    (issues : List Issue) (hcs : cs.map h.issueAt = issues.map some) :
    MarkdownFormatter.formatChildren h cs =
      .ok (String.join (issues.map MarkdownLayout.childSection)) := by
  induction cs generalizing issues with
  | nil =>
    cases issues with
    | nil => rfl
    | cons c rest => simp at hcs
  | cons child rest ih =>
    cases issues with
    | nil => simp at hcs
    | cons c crest =>
      rw [List.map_cons, List.map_cons, List.cons.injEq] at hcs
      obtain ⟨node, hnode, rfl⟩ := issueAt_eq_some h child c hcs.1
      rw [MarkdownFormatter.formatChildren, hnode]
      simp only [ih crest hcs.2, List.map_cons, String_join_cons]
      congr 1
      rw [MarkdownLayout.childSection, MarkdownLayout.table]
      simp only [List.map_cons, List.map_nil, String_join_cons, String_join_nil]
      rw [MarkdownLayout_row_names.1, MarkdownLayout_row_names.2.1,
        MarkdownLayout_row_names.2.2.1, MarkdownLayout_row_names.2.2.2.1]
      simp only [String.append_assoc, String.append_empty]

theorem MarkdownFormatter_formatIssue_layout (timeFormat : TimeFormat) (h : Heap) (r : Ptr)
    (node : HierarchicalIssue) (issues : List Issue) (hr : h.node r = some node)
    (hcs : node.Children.map h.issueAt = issues.map some) :
    MarkdownFormatter.formatIssue timeFormat h r =
      .ok (MarkdownLayout.rootBlock timeFormat node.Issue issues) := by
  have hlen : node.Children.length = issues.length := by
    have := congrArg List.length hcs
    simpa using this
  rw [MarkdownFormatter.formatIssue, hr]
  simp only [MarkdownFormatter_formatChildren_layout h node.Children issues hcs]
  rw [MarkdownLayout.rootBlock, MarkdownLayout.table]
  simp only [List.map_cons, List.map_nil, String_join_cons, String_join_nil]
  rw [MarkdownLayout_row_names.1, MarkdownLayout_row_names.2.1,
    MarkdownLayout_row_names.2.2.1, MarkdownLayout_row_names.2.2.2.1,
    MarkdownLayout_row_names.2.2.2.2.1, MarkdownLayout_row_names.2.2.2.2.2]
  cases issues with
  | nil =>
    have hnil : node.Children.length = 0 := hlen
    simp only [hnil, gt_iff_lt, Nat.lt_irrefl, if_false, if_true, Bool.false_eq_true,
      List.isEmpty_nil, String.append_assoc, String.append_empty]
  | cons c rest =>
    have hpos : (c :: rest).length > 0 := Nat.succ_pos _
    simp only [hpos, hlen, if_false, if_true, Bool.false_eq_true, List.isEmpty_cons,
      String.append_assoc, String.append_empty]

theorem MarkdownFormatter_formatRoots_layout (timeFormat : TimeFormat) (h : Heap)
    (roots : List Ptr) (families : List (Issue × List Issue))
    (hfam : h.families roots families) :
    MarkdownFormatter.formatRoots timeFormat h roots =
      .ok (MarkdownLayout.body timeFormat families) := by
  unfold Heap.families at hfam
  induction hfam with
  | nil => rfl
  | @cons r f rs fs hrel hrest ih =>
    obtain ⟨node, hr, hissue, hcs⟩ := hrel
    rw [MarkdownFormatter.formatRoots,
      MarkdownFormatter_formatIssue_layout timeFormat h r node f.2 hr hcs, hissue]
    simp only [ih]
    unfold MarkdownLayout.body
    simp only [List.map_cons, String_join_cons, String.append_assoc]

theorem familyBundle_families : familyBundle.heap.families familyBundle.Issues familyRoots := by
  unfold Heap.families
  exact List.Forall₂.cons ⟨_, rfl, rfl, rfl⟩ (List.Forall₂.cons ⟨_, rfl, rfl, rfl⟩ List.Forall₂.nil)

/-- C21: in the plain-text output, the block of a root whose node has the `n >= 1`
direct children `issues` is the lines of the root, a blank line, and one block per child
in order.  The block at index `i` (from 0) is, when `i + 1 < n`, the child's heading
after the connector `├─`, its four field lines after the mark `│`, and a line `  │`;
when `i + 1 = n` it is the heading after the connector `└─` and the four field lines
after blanks.  The connector and the blanks of the last child hold no `│`, so that the
block of a last child whose own texts hold no `│` holds none. -/
theorem TXTFormatter_child_connectors (timeFormat : TimeFormat) (h : Heap) (r : Ptr)
    (node : HierarchicalIssue) (issues : List Issue) (hr : h.node r = some node)
    (hcs : node.Children.map h.issueAt = issues.map some) (hn : 1 ≤ issues.length) :
    (∃ blocks : List String,
      TXTFormatter.formatIssue timeFormat h r false =
        .ok (TXTLayout.rootLines timeFormat node.Issue ++ ("\n" ++ String.join blocks)) ∧
      blocks.length = issues.length ∧
      ∀ i (hi : i < issues.length),
        blocks[i]? = some
          (if i + 1 < issues.length then
            TXTLayout.childLines "  ├─ " "  │    " issues[i] ++ "  │\n"
          else TXTLayout.childLines "  └─ " "       " issues[i])) ∧
    (∀ connector mark issue,
      TXTLayout.childLines connector mark issue =
        (connector ++ "[" ++ issue.IssueKey ++ "] " ++ issue.Summary ++ "\n") ++
        (mark ++ "状態: " ++ TXTFormatter.getStatusName issue ++ "\n") ++
        (mark ++ "優先度: " ++ TXTFormatter.getPriorityName issue ++ "\n") ++
        (mark ++ "担当者: " ++ TXTFormatter.getAssigneeName issue ++ "\n") ++
        (mark ++ "期限日: " ++ TXTFormatter.getDueDate issue ++ "\n")) ∧
    (∀ issue : Issue,
      '│' ∉ issue.IssueKey.data → '│' ∉ issue.Summary.data →
      '│' ∉ (TXTFormatter.getStatusName issue).data →
      '│' ∉ (TXTFormatter.getPriorityName issue).data →
      '│' ∉ (TXTFormatter.getAssigneeName issue).data →
      '│' ∉ (TXTFormatter.getDueDate issue).data →
      '│' ∉ (TXTLayout.childLines "  └─ " "       " issue).data) := by
  refine ⟨⟨issues.enum.map (fun ic => TXTLayout.childBlock issues.length ic.1 ic.2),
    ?_, ?_, ?_⟩, fun _ _ _ => rfl, ?_⟩
  · rw [TXTFormatter_formatIssue_layout timeFormat h r node issues hr hcs,
      TXTLayout.rootBlock]
    cases issues with
    | nil => exact absurd hn (by decide)
    | cons c rest => rfl
  · simp
  · intro i hi
    rw [List.getElem?_map, List.enum, List.getElem?_enumFrom, List.getElem?_eq_getElem hi]
    simp only [Option.map_some', Nat.zero_add, TXTLayout.childBlock]
    by_cases hlast : i + 1 = issues.length
    · rw [if_pos hlast, if_neg (by omega)]
    · rw [if_neg hlast, if_pos (by omega)]
  · intro issue h1 h2 h3 h4 h5 h6
    have hc : '│' ∉ "  └─ ".data := by decide
    have hm : '│' ∉ "       ".data := by decide
    simp only [TXTLayout.childLines, String.data_append, List.mem_append, not_or]
    refine ⟨⟨⟨⟨⟨⟨⟨⟨⟨hc, ?_⟩, h1⟩, ?_⟩, h2⟩, ?_⟩, ⟨⟨⟨hm, ?_⟩, h3⟩, ?_⟩⟩,
      ⟨⟨⟨hm, ?_⟩, h4⟩, ?_⟩⟩, ⟨⟨⟨hm, ?_⟩, h5⟩, ?_⟩⟩, ⟨⟨⟨hm, ?_⟩, h6⟩, ?_⟩⟩ <;> decide

set_option maxRecDepth 100000 in
/-- C21, on `familyHeap`: the root `F-1` has the children `F-2` and `F-3`; the block
of `F-2` has the connector `├─`, the mark `│` and the line `  │`, the block of `F-3`
has the connector `└─` and blanks. -/
theorem TXTFormatter_child_connectors_witness :
    TXTFormatter.formatIssue layoutOnly familyHeap (some 0) false =
        .ok ("[F-1] one\n  状態: -\n  優先度: -\n  担当者: (未割当)\n  期限日: -\n" ++
          "  作成日: 2006-01-02\n  更新日: 2006-01-02\n\n" ++
          "  ├─ [F-2] two\n  │    状態: -\n  │    優先度: -\n  │    担当者: (未割当)\n" ++
          "  │    期限日: -\n  │\n" ++
          "  └─ [F-3] three\n       状態: -\n       優先度: -\n       担当者: (未割当)\n" ++
          "       期限日: -\n") ∧
      ∃ blocks : List String,
        TXTFormatter.formatIssue layoutOnly familyHeap (some 0) false =
          .ok (TXTLayout.rootLines layoutOnly { ID := 1, IssueKey := "F-1", Summary := "one" } ++
            ("\n" ++ String.join blocks)) ∧
        blocks.length = 2 ∧
        blocks[0]? = some (TXTLayout.childLines "  ├─ " "  │    "
          { ID := 2, IssueKey := "F-2", Summary := "two" } ++ "  │\n") ∧
        blocks[1]? = some (TXTLayout.childLines "  └─ " "       "
          { ID := 3, IssueKey := "F-3", Summary := "three" }) := by
  refine ⟨congrArg Except.ok (by decide), ?_⟩
  obtain ⟨blocks, hout, hlen, hblocks⟩ :=
    (TXTFormatter_child_connectors layoutOnly familyHeap (some 0)
      { Issue := { ID := 1, IssueKey := "F-1", Summary := "one" }, Children := [some 1, some 2] }
      [{ ID := 2, IssueKey := "F-2", Summary := "two" },
       { ID := 3, IssueKey := "F-3", Summary := "three" }] rfl rfl (by decide)).1
  exact ⟨blocks, hout, hlen, hblocks 0 (by decide), hblocks 1 (by decide)⟩

/-- C22: for a bundle whose project is present and whose roots and their children are
present nodes, `TXTFormatter.Format` returns, without error, the header followed by the
root blocks with a separator between consecutive blocks only.  The header is a line of
80 `=`, the line of the project with `<key> - <name>`, the line of the export time,
the line of the three counts, a line of 80 `=` and a blank line.  The separator is a
blank line, a line of 80 `-` and a blank line; one block alone has no separator, and
`r` blocks have `r - 1`.  A root block carries the created and the updated line; the
blocks of its children, made by `TXTLayout.childBlock`, carry none. -/
theorem TXTFormatter_document_layout (timeFormat : TimeFormat) (data : ExportData)
    (project : Project) (families : List (Issue × List Issue))
    (hproj : data.Project = some project)
    (hfam : data.heap.families data.Issues families) :
    TXTFormatter.Format timeFormat data =
        .ok (TXTLayout.document timeFormat project data.ExportedAt data.Summary families,
          none) ∧
      (families.map (fun ic => TXTLayout.rootBlock timeFormat ic.1 ic.2)).length =
        data.Issues.length ∧
      (∀ c, (Layout.rule80 c).data = List.replicate 80 c) ∧
      (∀ block, String.intercalate TXTLayout.separator [block] = block) ∧
      (∀ block next rest, String.intercalate TXTLayout.separator (block :: next :: rest) =
        block ++ TXTLayout.separator ++
          String.intercalate TXTLayout.separator (next :: rest)) := by
  refine ⟨TXTFormatter_Format_layout timeFormat data project families hproj hfam, ?_,
    fun _ => rfl, fun _ => rfl, fun _ _ _ => String_intercalate_cons_cons _ _ _ _⟩
  unfold Heap.families at hfam
  rw [List.length_map, hfam.length_eq]

set_option maxRecDepth 100000 in
/-- C22, on `familyBundle`, whose two roots are `F-1`, with two children, and `F-4`:
the text that `TXTFormatter.Format` returns, with one separator. -/
theorem TXTFormatter_document_layout_witness :
    TXTFormatter.Format layoutOnly familyBundle =
        .ok (TXTLayout.document layoutOnly { ID := 1, ProjectKey := "F", Name := "Family" }
          {} { Total := 4, ParentIssues := 2, ChildIssues := 2 } familyRoots, none) ∧
      TXTLayout.document layoutOnly { ID := 1, ProjectKey := "F", Name := "Family" }
          {} { Total := 4, ParentIssues := 2, ChildIssues := 2 } familyRoots =
        "================================================================================\n" ++
        "プロジェクト: F - Family\n取得日時: 2006-01-02 15:04:05\n" ++
        "未完了タスク数: 4件（親課題: 2件、子課題: 2件）\n" ++
        "================================================================================\n\n" ++
        "[F-1] one\n  状態: -\n  優先度: -\n  担当者: (未割当)\n  期限日: -\n" ++
        "  作成日: 2006-01-02\n  更新日: 2006-01-02\n\n" ++
        "  ├─ [F-2] two\n  │    状態: -\n  │    優先度: -\n  │    担当者: (未割当)\n" ++
        "  │    期限日: -\n  │\n" ++
        "  └─ [F-3] three\n       状態: -\n       優先度: -\n       担当者: (未割当)\n" ++
        "       期限日: -\n" ++
        "\n--------------------------------------------------------------------------------\n\n" ++
        "[F-4] four\n  状態: -\n  優先度: -\n  担当者: (未割当)\n  期限日: -\n" ++
        "  作成日: 2006-01-02\n  更新日: 2006-01-02\n" :=
  ⟨(TXTFormatter_document_layout layoutOnly familyBundle
      { ID := 1, ProjectKey := "F", Name := "Family" } familyRoots rfl
      familyBundle_families).1, by decide⟩

/-- C23: for a bundle whose project is present and whose roots and their children are
present nodes, `MarkdownFormatter.Format` returns, without error, its header followed
by one block per root in order, each block followed by a blank line, the horizontal
rule `---` and a blank line.  The block of a root is the heading `## [key] summary`
and a table of the six rows status, priority, assignee, due date, created and updated.
For a root without children that is the whole block; for a root with children the
block goes on with the heading `### 子課題` and one subsection per direct child in
order, each a heading `#### [key] summary`, a table of four rows and a blank line. -/
theorem MarkdownFormatter_document_layout (timeFormat : TimeFormat) (data : ExportData)
    (project : Project) (families : List (Issue × List Issue))
    (hproj : data.Project = some project)
    (hfam : data.heap.families data.Issues families) :
    MarkdownFormatter.Format timeFormat data =
        .ok (MarkdownFormatter.header timeFormat project data.ExportedAt data.Summary ++
          String.join (families.map (fun ic =>
            MarkdownLayout.rootBlock timeFormat ic.1 ic.2 ++ "\n---\n\n")), none) ∧
      families.length = data.Issues.length ∧
      (∀ issue, MarkdownLayout.rootBlock timeFormat issue [] =
        ("## [" ++ issue.IssueKey ++ "] " ++ issue.Summary ++ "\n") ++
        MarkdownLayout.table
          [("状態", MarkdownFormatter.getStatusName issue),
           ("優先度", MarkdownFormatter.getPriorityName issue),
           ("担当者", MarkdownFormatter.getAssigneeName issue),
           ("期限日", MarkdownFormatter.getDueDate issue),
           ("作成日", timeFormat issue.Created "2006-01-02"),
           ("更新日", timeFormat issue.Updated "2006-01-02")]) ∧
      (∀ issue child rest, MarkdownLayout.rootBlock timeFormat issue (child :: rest) =
        MarkdownLayout.rootBlock timeFormat issue [] ++
          ("\n### 子課題\n\n" ++
            String.join ((child :: rest).map MarkdownLayout.childSection))) ∧
      (∀ children : List Issue,
        (children.map MarkdownLayout.childSection).length = children.length) ∧
      (∀ child, MarkdownLayout.childSection child =
        ("#### [" ++ child.IssueKey ++ "] " ++ child.Summary ++ "\n") ++
        MarkdownLayout.table
          [("状態", MarkdownFormatter.getStatusName child),
           ("優先度", MarkdownFormatter.getPriorityName child),
           ("担当者", MarkdownFormatter.getAssigneeName child),
           ("期限日", MarkdownFormatter.getDueDate child)] ++
        "\n") := by
  refine ⟨?_, ?_, ?_, ?_, fun _ => List.length_map _ _, fun _ => rfl⟩
  · rw [MarkdownFormatter.Format, hproj]
    simp only [MarkdownFormatter_formatRoots_layout timeFormat data.heap data.Issues families
      hfam]
    rfl
  · unfold Heap.families at hfam
    exact hfam.length_eq.symm
  · intro issue
    simp only [MarkdownLayout.rootBlock, List.isEmpty_nil, if_true, String.append_empty]
  · intro issue child rest
    simp only [MarkdownLayout.rootBlock, List.isEmpty_nil, List.isEmpty_cons, if_true,
      Bool.false_eq_true, if_false, String.append_empty]

set_option maxRecDepth 100000 in
/-- C23, on `familyBundle`: the text that `MarkdownFormatter.Format` returns; the block
of `F-1` has the children section with the subsections of `F-2` and `F-3`, the block of
`F-4` has none. -/
theorem MarkdownFormatter_document_layout_witness :
    MarkdownFormatter.Format layoutOnly familyBundle =
        .ok (MarkdownFormatter.header layoutOnly { ID := 1, ProjectKey := "F", Name := "Family" }
          {} { Total := 4, ParentIssues := 2, ChildIssues := 2 } ++
          String.join (familyRoots.map (fun ic =>
            MarkdownLayout.rootBlock layoutOnly ic.1 ic.2 ++ "\n---\n\n")), none) ∧
      MarkdownFormatter.header layoutOnly { ID := 1, ProjectKey := "F", Name := "Family" }
          {} { Total := 4, ParentIssues := 2, ChildIssues := 2 } ++
          String.join (familyRoots.map (fun ic =>
            MarkdownLayout.rootBlock layoutOnly ic.1 ic.2 ++ "\n---\n\n")) =
        "# F - Family 未完了タスク一覧\n\n> 取得日時: 2006-01-02 15:04:05  \n" ++
        "> 未完了タスク数: 4件（親課題: 2件、子課題: 2件）\n\n---\n\n" ++
        "## [F-1] one\n| 項目 | 内容 |\n|------|------|\n| 状態 | - |\n| 優先度 | - |\n" ++
        "| 担当者 | - |\n| 期限日 | - |\n| 作成日 | 2006-01-02 |\n| 更新日 | 2006-01-02 |\n" ++
        "\n### 子課題\n\n" ++
        "#### [F-2] two\n| 項目 | 内容 |\n|------|------|\n| 状態 | - |\n| 優先度 | - |\n" ++
        "| 担当者 | - |\n| 期限日 | - |\n\n" ++
        "#### [F-3] three\n| 項目 | 内容 |\n|------|------|\n| 状態 | - |\n| 優先度 | - |\n" ++
        "| 担当者 | - |\n| 期限日 | - |\n\n" ++
        "\n---\n\n" ++
        "## [F-4] four\n| 項目 | 内容 |\n|------|------|\n| 状態 | - |\n| 優先度 | - |\n" ++
        "| 担当者 | - |\n| 期限日 | - |\n| 作成日 | 2006-01-02 |\n| 更新日 | 2006-01-02 |\n" ++
        "\n---\n\n" :=
  ⟨(MarkdownFormatter_document_layout layoutOnly familyBundle
      { ID := 1, ProjectKey := "F", Name := "Family" } familyRoots rfl
      familyBundle_families).1, by decide⟩

/-! ## `IsProjectID`, `GetProjectID` and the file name -/

theorem IsProjectID_loop_iff (isDigit : Char → Bool) (l : List Char) :
    Config.IsProjectID.loop isDigit l = true ↔ ∀ ch ∈ l, isDigit ch = true := by
  induction l with
  | nil => simp [Config.IsProjectID.loop]
  | cons r rest ih =>
    rw [Config.IsProjectID.loop]
    by_cases hr : isDigit r = true
    · simp [hr, ih]
    · simp [hr]

theorem utf8ByteSize_pos_iff (s : String) : s.utf8ByteSize > 0 ↔ s ≠ "" := by
  rcases s with ⟨l⟩
  cases l with
  | nil => simp [String.utf8ByteSize, String.utf8ByteSize.go]
  | cons ch rest =>
    constructor
    · intro _ h
      exact List.cons_ne_nil ch rest (congrArg String.data h)
    · intro _
      have := Char.utf8Size_pos ch
      simp only [String.utf8ByteSize, String.utf8ByteSize.go]
      omega

theorem IsProjectID_eq_true_iff (isDigit : Char → Bool) (c : Config) :
    c.IsProjectID isDigit = true ↔
      c.Project ≠ "" ∧ ∀ ch ∈ c.Project.data, isDigit ch = true := by
  unfold Config.IsProjectID
  by_cases hloop : Config.IsProjectID.loop isDigit c.Project.data = true
  · rw [if_pos hloop, decide_eq_true_eq, utf8ByteSize_pos_iff]
    exact ⟨fun h => ⟨h, (IsProjectID_loop_iff isDigit _).1 hloop⟩, fun h => h.1⟩
  · rw [if_neg hloop]
    constructor
    · intro h
      exact Bool.noConfusion h
    · intro h
      exact absurd ((IsProjectID_loop_iff isDigit _).2 h.2) hloop

theorem IsProjectID_congr (isDigit isDigit' : Char → Bool) (c : Config)
    (h : ∀ ch ∈ c.Project.data, isDigit ch = isDigit' ch) :
    c.IsProjectID isDigit = c.IsProjectID isDigit' := by
  have hloop : ∀ l : List Char, (∀ ch ∈ l, isDigit ch = isDigit' ch) →
      Config.IsProjectID.loop isDigit l = Config.IsProjectID.loop isDigit' l := by
    intro l
    induction l with
    | nil => intro _; rfl
    | cons r rest ih =>
      intro hl
      rw [Config.IsProjectID.loop, Config.IsProjectID.loop, hl r (List.mem_cons_self r rest),
        ih (fun ch hch => hl ch (List.mem_cons_of_mem r hch))]
  unfold Config.IsProjectID
  rw [hloop _ h]

/-- C31: `IsProjectID` returns true exactly when `Project` is not empty and every
character of it is a digit for `unicode.IsDigit`.  Where `unicode.IsDigit` is, on the
ASCII characters, the test for `0` to `9`, it returns true for `12345` and `0` and
false for `MYPROJ`, `MYPROJ-123`, `proj123` and the empty text. -/
theorem IsProjectID_iff (isDigit : Char → Bool) (c : Config) :
    (c.IsProjectID isDigit = true ↔
        c.Project ≠ "" ∧ ∀ ch ∈ c.Project.data, isDigit ch = true) ∧
      ((∀ ch : Char, ch.toNat < 128 → isDigit ch = ch.isDigit) →
        Config.IsProjectID isDigit { Project := "12345" } = true ∧
        Config.IsProjectID isDigit { Project := "0" } = true ∧
        Config.IsProjectID isDigit { Project := "MYPROJ" } = false ∧
        Config.IsProjectID isDigit { Project := "MYPROJ-123" } = false ∧
        Config.IsProjectID isDigit { Project := "proj123" } = false ∧
        Config.IsProjectID isDigit { Project := "" } = false) := by
  refine ⟨IsProjectID_eq_true_iff isDigit c, fun hascii => ?_⟩
  have hcongr : ∀ p : String, (∀ ch ∈ p.data, ch.toNat < 128) →
      Config.IsProjectID isDigit { Project := p } =
        Config.IsProjectID Char.isDigit { Project := p } :=
    fun p hp => IsProjectID_congr isDigit Char.isDigit { Project := p }
      (fun ch hch => hascii ch (hp ch hch))
  refine ⟨?_, ?_, ?_, ?_, ?_, ?_⟩
  · rw [hcongr "12345" (by decide)]; decide
  · rw [hcongr "0" (by decide)]; decide
  · rw [hcongr "MYPROJ" (by decide)]; decide
  · rw [hcongr "MYPROJ-123" (by decide)]; decide
  · rw [hcongr "proj123" (by decide)]; decide
  · rw [hcongr "" (by decide)]; decide

/-- C31, with the test for `0` to `9` on all characters in the place of
`unicode.IsDigit`: the six cases of `TestConfig_IsProjectID`. -/
theorem IsProjectID_iff_witness :
    Config.IsProjectID Char.isDigit { Project := "12345" } = true ∧
      Config.IsProjectID Char.isDigit { Project := "0" } = true ∧
      Config.IsProjectID Char.isDigit { Project := "MYPROJ" } = false ∧
      Config.IsProjectID Char.isDigit { Project := "MYPROJ-123" } = false ∧
      Config.IsProjectID Char.isDigit { Project := "proj123" } = false ∧
      Config.IsProjectID Char.isDigit { Project := "" } = false :=
  (IsProjectID_iff Char.isDigit {}).2 (fun _ _ => rfl)

theorem GetProjectID_of_not (isDigit : Char → Bool) (atoi : String → Int × Option GoError)
    (c : Config) (h : c.IsProjectID isDigit = false) :
    c.GetProjectID isDigit atoi = (0, some (.errorf "project is not a numeric ID")) := by
  simp [Config.GetProjectID, h]

theorem GetProjectID_of_is (isDigit : Char → Bool) (atoi : String → Int × Option GoError)
    (c : Config) (h : c.IsProjectID isDigit = true) :
    c.GetProjectID isDigit atoi = atoi c.Project := by
  simp [Config.GetProjectID, h]

theorem decimal_foldl_le (l : List Char) (n : Nat) :
    n ≤ l.foldl (fun n ch => n * 10 + (ch.toNat - '0'.toNat)) n := by
  induction l generalizing n with
  | nil => exact Nat.le_refl n
  | cons ch rest ih =>
    rw [List.foldl_cons]
    exact Nat.le_trans (by omega) (ih _)

theorem parseUint_digits (l : List Char) (n : Nat)
    (hl : ∀ ch ∈ l, '0' ≤ ch ∧ ch ≤ '9')
    (hfit : l.foldl (fun n ch => n * 10 + (ch.toNat - '0'.toNat)) n ≤ maxUint64) :
    Atoi.parseUint l n =
      .value (l.foldl (fun n ch => n * 10 + (ch.toNat - '0'.toNat)) n) := by
  induction l generalizing n with
  | nil => rfl
  | cons ch rest ih =>
    rw [List.foldl_cons] at hfit
    have hstep : n * 10 + (ch.toNat - '0'.toNat) ≤ maxUint64 :=
      Nat.le_trans (decimal_foldl_le rest _) hfit
    have hmax : maxUint64 = 18446744073709551615 := rfl
    have hcut : ¬ n ≥ maxUint64 / 10 + 1 := by
      rw [hmax] at hstep ⊢
      omega
    rw [Atoi.parseUint, if_pos (hl ch (List.mem_cons_self ch rest)), if_neg hcut]
    simp only [if_neg (Nat.not_lt.2 hstep)]
    rw [List.foldl_cons]
    exact ih _ (fun x hx => hl x (List.mem_cons_of_mem ch hx)) hfit

theorem Atoi_digits (s : String) (hne : s ≠ "")
    (hl : ∀ ch ∈ s.data, '0' ≤ ch ∧ ch ≤ '9')
    (hfit : (decimalValue s.data : Int) ≤ maxInt) :
    Atoi s = ((decimalValue s.data : Int), none) := by
  have hmaxInt : maxInt = 9223372036854775807 := rfl
  have hfit' : decimalValue s.data ≤ maxUint64 := by
    have hmax : maxUint64 = 18446744073709551615 := rfl
    rw [hmax]
    omega
  rcases hdata : s.data with _ | ⟨ch, rest⟩
  · exact absurd (String.ext hdata) hne
  · have hch := hl ch (by rw [hdata]; exact List.mem_cons_self ch rest)
    have hminus : ch ≠ '-' := by
      rintro rfl
      exact absurd hch.1 (by decide)
    have hplus : ch ≠ '+' := by
      rintro rfl
      exact absurd hch.1 (by decide)
    rw [hdata] at hl hfit hfit'
    have hparse := parseUint_digits (ch :: rest) 0 hl hfit'
    have hsign : Atoi.sign (ch :: rest) = (false, ch :: rest) := by
      unfold Atoi.sign
      split
      · rename_i heq
        exact absurd (List.cons.inj heq).1 hminus
      · rename_i heq
        exact absurd (List.cons.inj heq).1 hplus
      · rfl
    unfold Atoi
    rw [hdata]
    simp only [hsign, List.cons_ne_nil, if_false, hparse, Bool.false_eq_true]
    unfold decimalValue at hfit ⊢
    rw [if_neg (not_lt.2 hfit)]

theorem parseUint_overflow (l : List Char) (n : Nat)
    (hl : ∀ ch ∈ l, '0' ≤ ch ∧ ch ≤ '9') (hn : n ≤ maxUint64)
    (hbig : maxUint64 < l.foldl (fun n ch => n * 10 + (ch.toNat - '0'.toNat)) n) :
    Atoi.parseUint l n = .outOfRange := by
  induction l generalizing n with
  | nil =>
    rw [List.foldl_nil] at hbig
    omega
  | cons ch rest ih =>
    rw [List.foldl_cons] at hbig
    rw [Atoi.parseUint, if_pos (hl ch (List.mem_cons_self ch rest))]
    by_cases hcut : n ≥ maxUint64 / 10 + 1
    · rw [if_pos hcut]
    · rw [if_neg hcut]
      by_cases hstep : n * 10 + (ch.toNat - '0'.toNat) > maxUint64
      · simp only [if_pos hstep]
      · simp only [if_neg hstep]
        exact ih _ (fun x hx => hl x (List.mem_cons_of_mem ch hx)) (Nat.not_lt.1 hstep) hbig

theorem Atoi_digits_large (s : String) (hne : s ≠ "")
    (hl : ∀ ch ∈ s.data, '0' ≤ ch ∧ ch ≤ '9')
    (hbig : maxInt < (decimalValue s.data : Int)) :
    Atoi s =
      (maxInt, some (.errorf ("strconv.Atoi: parsing \"" ++ s ++ "\": value out of range"))) := by
  have hmaxInt : maxInt = 9223372036854775807 := rfl
  have hmax : maxUint64 = 18446744073709551615 := rfl
  rcases hdata : s.data with _ | ⟨ch, rest⟩
  · exact absurd (String.ext hdata) hne
  · have hch := hl ch (by rw [hdata]; exact List.mem_cons_self ch rest)
    have hminus : ch ≠ '-' := by
      rintro rfl
      exact absurd hch.1 (by decide)
    have hplus : ch ≠ '+' := by
      rintro rfl
      exact absurd hch.1 (by decide)
    rw [hdata] at hl hbig
    have hsign : Atoi.sign (ch :: rest) = (false, ch :: rest) := by
      unfold Atoi.sign
      split
      · rename_i heq
        exact absurd (List.cons.inj heq).1 hminus
      · rename_i heq
        exact absurd (List.cons.inj heq).1 hplus
      · rfl
    unfold Atoi
    rw [hdata]
    by_cases hfit : decimalValue (ch :: rest) ≤ maxUint64
    · have hparse := parseUint_digits (ch :: rest) 0 hl hfit
      simp only [hsign, List.cons_ne_nil, if_false, hparse, Bool.false_eq_true]
      unfold decimalValue at hbig
      rw [if_pos hbig]
    · have hparse := parseUint_overflow (ch :: rest) 0 hl (Nat.zero_le _) (Nat.not_le.1 hfit)
      simp only [hsign, List.cons_ne_nil, if_false, hparse, Bool.false_eq_true]

/-- C32, counterexample: `Project` is the text of twenty digits `9`.  `IsProjectID` is
true, and `GetProjectID` returns the largest `int` with the error `value out of range`
of `strconv.Atoi`.  Whatever `strconv.Atoi` returns within the range of `int`, the
number returned is not the number that the text denotes. -/
theorem GetProjectID_out_of_range :
    Config.IsProjectID Char.isDigit { Project := "99999999999999999999" } = true ∧
      Config.GetProjectID Char.isDigit Atoi { Project := "99999999999999999999" } =
        (9223372036854775807,
          some (.errorf
            "strconv.Atoi: parsing \"99999999999999999999\": value out of range")) ∧
      ∀ (isDigit : Char → Bool) (atoi : String → Int × Option GoError),
        isDigit '9' = true → (∀ s, (atoi s).1 ≤ maxInt) →
        Config.IsProjectID isDigit { Project := "99999999999999999999" } = true ∧
          (Config.GetProjectID isDigit atoi { Project := "99999999999999999999" }).1 ≠
            99999999999999999999 := by
  refine ⟨by decide, by decide, ?_⟩
  intro isDigit atoi h9 hrange
  have his : Config.IsProjectID isDigit { Project := "99999999999999999999" } = true := by
    rw [IsProjectID_eq_true_iff]
    refine ⟨by decide, ?_⟩
    intro ch hch
    have : ch = '9' := by
      simp at hch
      exact hch
    rw [this, h9]
  refine ⟨his, ?_⟩
  rw [GetProjectID_of_is isDigit atoi _ his]
  intro heq
  have hle := hrange "99999999999999999999"
  have hmaxInt : maxInt = 9223372036854775807 := rfl
  simp only [] at heq
  rw [heq, hmaxInt] at hle
  exact absurd hle (by decide)

/-- C32, amended: `GetProjectID` returns 0 and the error `project is not a numeric ID`
whenever `IsProjectID` is false, and what `strconv.Atoi` returns for `Project` whenever
it is true.  For a `Project` that is not empty and is made of the digits `0` to `9`,
that is the number denoted and no error when the number is at most `maxInt`, and
`maxInt` with the error `value out of range` when it is larger; `12345` gives 12345 and
`MYPROJ` gives the error. -/
theorem GetProjectID_spec (isDigit : Char → Bool) (atoi : String → Int × Option GoError)
    (c : Config) :
    (c.IsProjectID isDigit = false →
      c.GetProjectID isDigit atoi = (0, some (.errorf "project is not a numeric ID"))) ∧
    (c.IsProjectID isDigit = true → c.GetProjectID isDigit atoi = atoi c.Project) ∧
    (c.Project ≠ "" → (∀ ch ∈ c.Project.data, '0' ≤ ch ∧ ch ≤ '9' ∧ isDigit ch = true) →
      (decimalValue c.Project.data : Int) ≤ maxInt →
      c.IsProjectID isDigit = true ∧
        c.GetProjectID isDigit Atoi = ((decimalValue c.Project.data : Int), none)) ∧
    (c.Project ≠ "" → (∀ ch ∈ c.Project.data, '0' ≤ ch ∧ ch ≤ '9' ∧ isDigit ch = true) →
      maxInt < (decimalValue c.Project.data : Int) →
      c.IsProjectID isDigit = true ∧
        c.GetProjectID isDigit Atoi =
          (maxInt, some (.errorf
            ("strconv.Atoi: parsing \"" ++ c.Project ++ "\": value out of range")))) ∧
    ((∀ ch : Char, ch.toNat < 128 → isDigit ch = ch.isDigit) →
      Config.GetProjectID isDigit Atoi { Project := "12345" } = (12345, none) ∧
      Config.GetProjectID isDigit Atoi { Project := "MYPROJ" } =
        (0, some (.errorf "project is not a numeric ID"))) := by
  refine ⟨GetProjectID_of_not isDigit atoi c, GetProjectID_of_is isDigit atoi c, ?_, ?_, ?_⟩
  · intro hne hl hfit
    have his : c.IsProjectID isDigit = true :=
      (IsProjectID_eq_true_iff isDigit c).2 ⟨hne, fun ch hch => (hl ch hch).2.2⟩
    refine ⟨his, ?_⟩
    rw [GetProjectID_of_is isDigit Atoi c his]
    exact Atoi_digits c.Project hne (fun ch hch => ⟨(hl ch hch).1, (hl ch hch).2.1⟩) hfit
  · intro hne hl hbig
    have his : c.IsProjectID isDigit = true :=
      (IsProjectID_eq_true_iff isDigit c).2 ⟨hne, fun ch hch => (hl ch hch).2.2⟩
    refine ⟨his, ?_⟩
    rw [GetProjectID_of_is isDigit Atoi c his]
    exact Atoi_digits_large c.Project hne
      (fun ch hch => ⟨(hl ch hch).1, (hl ch hch).2.1⟩) hbig
  · intro hascii
    have h1 : Config.IsProjectID isDigit { Project := "12345" } = true := by
      rw [IsProjectID_congr isDigit Char.isDigit { Project := "12345" }
        (fun ch hch => hascii ch ((by decide : ∀ x ∈ "12345".data, x.toNat < 128) ch hch))]
      decide
    have h2 : Config.IsProjectID isDigit { Project := "MYPROJ" } = false := by
      rw [IsProjectID_congr isDigit Char.isDigit { Project := "MYPROJ" }
        (fun ch hch => hascii ch ((by decide : ∀ x ∈ "MYPROJ".data, x.toNat < 128) ch hch))]
      decide
    refine ⟨?_, GetProjectID_of_not isDigit Atoi _ h2⟩
    rw [GetProjectID_of_is isDigit Atoi _ h1]
    decide

/-- C32, amended, on the two cases of `TestConfig_GetProjectID`, with the test for `0`
to `9` in the place of `unicode.IsDigit`. -/
theorem GetProjectID_spec_witness :
    Config.GetProjectID Char.isDigit Atoi { Project := "12345" } = (12345, none) ∧
      Config.GetProjectID Char.isDigit Atoi { Project := "MYPROJ" } =
        (0, some (.errorf "project is not a numeric ID")) :=
  (GetProjectID_spec Char.isDigit Atoi {}).2.2.2.2 (fun _ _ => rfl)

/-- C33: the file name that `generateFilename` makes is the project key, `_tasks_`,
the time formatted with the layout `20060102_150405` (year, month, day, an underscore,
hour, minute, second), a dot, and the extension of the formatter.  It starts with the
project key followed by `_tasks_` and, for an exporter made for the format `txt`,
`markdown` or `json`, it ends with `.txt`, `.md` or `.json`.  The file that `Run`
writes has this name, made from the key of the fetched project, inside the output
directory. -/
theorem generateFilename_spec (client : Client) (cfg : Config) (timeFormat : TimeFormat)
    (now : Time) (projectKey : String) :
    (NewExporter client cfg).generateFilename timeFormat now projectKey =
        projectKey ++ "_tasks_" ++ timeFormat now "20060102_150405" ++ "." ++
          (NewFormatter cfg.Format).Extension ∧
      (projectKey ++ "_tasks_").data <+:
        ((NewExporter client cfg).generateFilename timeFormat now projectKey).data ∧
      (cfg.Format = "txt" → ".txt".data <:+
        ((NewExporter client cfg).generateFilename timeFormat now projectKey).data) ∧
      (cfg.Format = "markdown" → ".md".data <:+
        ((NewExporter client cfg).generateFilename timeFormat now projectKey).data) ∧
      (cfg.Format = "json" → ".json".data <:+
        ((NewExporter client cfg).generateFilename timeFormat now projectKey).data) ∧
      (∀ (env : RunEnv), ∀ ev ∈ ((NewExporter client cfg).Run env).events,
        ev.isWriteFile = true →
        ∃ project content, client.GetProject cfg.Project = (some project, none) ∧
          ev = .writeFile (env.filepathJoin cfg.Output
            ((NewExporter client cfg).generateFilename env.timeFormat (env.now 1)
              project.ProjectKey)) content) := by
  have hname : (NewExporter client cfg).generateFilename timeFormat now projectKey =
      projectKey ++ "_tasks_" ++ timeFormat now "20060102_150405" ++ "." ++
        (NewFormatter cfg.Format).Extension := rfl
  have hsuffix : ∀ format ext : String, cfg.Format = format →
      (NewFormatter format).Extension = ext →
      ("." ++ ext).data <:+
        ((NewExporter client cfg).generateFilename timeFormat now projectKey).data := by
    intro format ext hformat hext
    rw [hname, hformat, hext, String.append_assoc _ "." ext, String.data_append]
    exact List.suffix_append _ _
  refine ⟨hname, ?_, fun h => hsuffix "txt" "txt" h (by decide),
    fun h => hsuffix "markdown" "md" h (by decide),
    fun h => hsuffix "json" "json" h (by decide), ?_⟩
  · rw [hname, String.append_assoc (projectKey ++ "_tasks_"),
      String.append_assoc (projectKey ++ "_tasks_"), String.data_append]
    exact List.prefix_append _ _
  · intro env ev hev hw
    obtain ⟨project, statuses, fetched, content, hp, -, -, -, -, hevent⟩ :=
      Run_writeFile_origin (NewExporter client cfg) env ev hev hw
    exact ⟨project, content, hp, hevent⟩

/-- C39: when every status of the list is classified complete (its id is 4 or its name
is `完了`), which includes the empty list, `getIncompleteStatusIDs` returns the empty
list, and only then.  `Run` then calls `GetIssues` with the empty list of status ids, and
no request that `GetIssues` builds for the empty list has the parameter `statusId[]`,
neither among the parameters handed to `doRequest` nor in the query that is sent. -/
theorem getIncompleteStatusIDs_all_complete (statuses : List Status)
    (hall : ∀ s ∈ statuses, s.ID = 4 ∨ s.Name = "完了") :
    getIncompleteStatusIDs statuses = [] ∧
      (∀ statuses' : List Status, getIncompleteStatusIDs statuses' = [] →
        ∀ s ∈ statuses', s.ID = 4 ∨ s.Name = "完了") ∧
      (∀ (e : Exporter) (env : RunEnv) (project : Project),
        e.client.GetProject e.config.Project = (some project, none) →
        e.client.GetStatuses e.config.Project = (statuses, none) →
        (e.Run env).events.filter Event.isGetIssues =
          [.getIssues project.ID [] e.config.Assignee]) ∧
      (∀ (c : APIClient) (doRequest : PageSource) (projectID : Int)
        (assigneeID : Option Int) (progressFn : Bool) (fuel : Nat) (run : GetIssuesRun),
        GetIssues c doRequest projectID (getIncompleteStatusIDs statuses) assigneeID
          progressFn fuel = some run →
        ∀ call ∈ run.requests,
          "statusId[]" ∉ call.2.keys ∧ call.2.get "statusId[]" = [] ∧
          "statusId[]" ∉ (GetIssues.httpQuery c call).keys ∧
          (GetIssues.httpQuery c call).get "statusId[]" = []) := by
  have hnil : getIncompleteStatusIDs statuses = [] := by
    rw [getIncompleteStatusIDs, getIncompleteStatusIDs_loop, List.nil_append,
      List.map_eq_nil_iff, List.filter_eq_nil_iff]
    intro s hs
    rw [decide_eq_true_eq, not_not]
    exact hall s hs
  refine ⟨hnil, ?_, ?_, ?_⟩
  · intro statuses' h s hs
    rw [getIncompleteStatusIDs, getIncompleteStatusIDs_loop, List.nil_append,
      List.map_eq_nil_iff, List.filter_eq_nil_iff] at h
    have := h s hs
    rw [decide_eq_true_eq, not_not] at this
    exact this
  · intro e env project hp hs
    rw [Run_getIssues_call e env project statuses hp hs, hnil]
  · intro c doRequest projectID assigneeID progressFn fuel run hrun call hcall
    rw [hnil] at hrun
    obtain ⟨offset, rfl⟩ :=
      GetIssues_requests_form c doRequest projectID [] assigneeID progressFn fuel run hrun
        call hcall
    have hkeys : "statusId[]" ∉ (GetIssues.params projectID [] assigneeID offset).keys :=
      params_keys_statusId projectID assigneeID offset
    have hquery : "statusId[]" ∉ (GetIssues.httpQuery c
        (c.baseURL ++ "/issues", GetIssues.params projectID [] assigneeID offset)).keys := by
      rw [httpQuery_mem_keys]
      rintro (h | h)
      · exact absurd h (by decide)
      · exact hkeys h
    exact ⟨hkeys, Values.get_of_not_mem_keys _ _ hkeys, hquery,
      Values.get_of_not_mem_keys _ _ hquery⟩

/-- C39, on a project whose two statuses are both classified complete, one by its id
and one by its name. -/
theorem getIncompleteStatusIDs_all_complete_witness :
    getIncompleteStatusIDs [{ ID := 4, Name := "Closed" }, { ID := 9, Name := "完了" }] = [] :=
  (getIncompleteStatusIDs_all_complete
    [{ ID := 4, Name := "Closed" }, { ID := 9, Name := "完了" }] (by decide)).1

/-! ## `contains`, `classifyError` and `run` of `cmd/backlog-tasks/main.go` -/

theorem infix_iff_window (s substr : List Nat) :
    substr <:+: s ↔
      ∃ j, j + substr.length ≤ s.length ∧ (s.drop j).take substr.length = substr := by
  constructor
  · rintro ⟨a, b, rfl⟩
    refine ⟨a.length, ?_, ?_⟩
    · simp only [List.length_append]
      omega
    · rw [List.append_assoc, List.drop_left, List.take_left]
  · rintro ⟨j, -, hj⟩
    refine ⟨s.take j, (s.drop j).drop substr.length, ?_⟩
    have h1 : (s.drop j).take substr.length ++ (s.drop j).drop substr.length = s.drop j :=
      List.take_append_drop _ _
    rw [hj] at h1
    rw [List.append_assoc, h1, List.take_append_drop]

theorem containsImpl_loop_ok (s substr : List Nat) (fuel i : Nat)
    (hfuel : s.length + 2 ≤ fuel + i) (hi : i ≤ s.length + 1) :
    ∃ b, containsImpl.loop s substr fuel i = .ok b ∧
      (b = true ↔
        ∃ j, i ≤ j ∧ j + substr.length ≤ s.length ∧
          (s.drop j).take substr.length = substr) := by
  induction fuel generalizing i with
  | zero => omega
  | succ fuel ih =>
    rw [containsImpl.loop]
    by_cases hcond : (i : Int) ≤ (s.length : Int) - (substr.length : Int)
    · have hin : i + substr.length ≤ s.length := by omega
      have hslice : sliceBytes s i (i + substr.length) =
          some ((s.drop i).take substr.length) := by
        rw [sliceBytes, if_pos ⟨Nat.le_add_right _ _, hin⟩, Nat.add_sub_cancel_left]
      rw [if_pos hcond, hslice]
      by_cases hw : (s.drop i).take substr.length = substr
      · exact ⟨true, by simp only [hw, if_true], fun _ => ⟨i, Nat.le_refl i, hin, hw⟩, fun _ => rfl⟩
      · obtain ⟨b, hb, hiff⟩ := ih (i + 1) (by omega) (by omega)
        refine ⟨b, by simp only [hw, if_false, hb], ?_⟩
        rw [hiff]
        constructor
        · rintro ⟨j, hj, hjl, hjw⟩
          exact ⟨j, by omega, hjl, hjw⟩
        · rintro ⟨j, hj, hjl, hjw⟩
          have hne : j ≠ i := by
            rintro rfl
            exact hw hjw
          exact ⟨j, by omega, hjl, hjw⟩
    · rw [if_neg hcond]
      refine ⟨false, rfl, ?_⟩
      constructor
      · intro h
        exact Bool.noConfusion h
      · rintro ⟨j, hj, hjl, -⟩
        omega

theorem containsImpl_loop_eq (s substr : List Nat) (fuel : Nat) (hfuel : s.length + 2 ≤ fuel) :
    containsImpl.loop s substr fuel 0 = .ok (decide (substr <:+: s)) := by
  obtain ⟨b, hb, hiff⟩ := containsImpl_loop_ok s substr fuel 0 (by omega) (by omega)
  rw [hb]
  congr 1
  rw [Bool.eq_iff_iff, hiff, decide_eq_true_eq, infix_iff_window]
  constructor
  · rintro ⟨j, -, h⟩
    exact ⟨j, h⟩
  · rintro ⟨j, h⟩
    exact ⟨j, Nat.zero_le j, h⟩

theorem containsImpl_ok (s substr : List Nat) :
    containsImpl s substr = .ok (decide (substr <:+: s)) :=
  containsImpl_loop_eq s substr (s.length + 2) (Nat.le_refl _)

theorem contains_ok (s substr : List Nat) :
    contains s substr = .ok (decide (substr <:+: s)) := by
  unfold contains
  by_cases hlen : (s.length : Int) ≥ (substr.length : Int)
  · rw [if_pos hlen]
    by_cases heq : s = substr
    · rw [if_pos heq, heq]
      simp
    · rw [if_neg heq]
      by_cases hpos : (s.length : Int) > 0
      · rw [if_pos hpos, containsImpl_ok]
      · exfalso
        have h0 : s.length = 0 := by omega
        have h1 : substr.length = 0 := by omega
        rw [List.length_eq_zero] at h0 h1
        exact heq (h0.trans h1.symm)
  · rw [if_neg hlen]
    congr 1
    symm
    rw [decide_eq_false_iff_not]
    intro hinfix
    have := hinfix.length_le
    omega

theorem classifyError_either_ok (errStr : List Nat) (a b : String) :
    classifyError.either errStr a b =
      .ok (decide (goBytes a <:+: errStr ∨ goBytes b <:+: errStr)) := by
  unfold classifyError.either
  rw [contains_ok, contains_ok]
  by_cases ha : goBytes a <:+: errStr
  · simp [ha]
  · simp [ha]

theorem classifyError_eq (err : GoError) :
    classifyError err =
      .ok (if goBytes "API key" <:+: goBytes err.Error then ExitAPIKeyRequired
        else if goBytes "Authentication failed" <:+: goBytes err.Error ∨
            goBytes "401" <:+: goBytes err.Error then ExitAuthError
        else if goBytes "not found" <:+: goBytes err.Error ∨
            goBytes "404" <:+: goBytes err.Error then ExitProjectNotFound
        else if goBytes "connect" <:+: goBytes err.Error ∨
            goBytes "network" <:+: goBytes err.Error then ExitNetworkError
        else if goBytes "rate limit" <:+: goBytes err.Error ∨
            goBytes "429" <:+: goBytes err.Error then ExitRateLimitExceeded
        else ExitInvalidArgs) := by
  unfold classifyError
  simp only [contains_ok, classifyError_either_ok]
  by_cases h1 : goBytes "API key" <:+: goBytes err.Error
  · simp [h1]
  · by_cases h2 : goBytes "Authentication failed" <:+: goBytes err.Error ∨
        goBytes "401" <:+: goBytes err.Error
    · simp [h1, h2]
    · by_cases h3 : goBytes "not found" <:+: goBytes err.Error ∨
          goBytes "404" <:+: goBytes err.Error
      · simp [h1, h2, h3]
      · by_cases h4 : goBytes "connect" <:+: goBytes err.Error ∨
            goBytes "network" <:+: goBytes err.Error
        · simp [h1, h2, h3, h4]
        · by_cases h5 : goBytes "rate limit" <:+: goBytes err.Error ∨
              goBytes "429" <:+: goBytes err.Error
          · simp [h1, h2, h3, h4, h5]
          · simp [h1, h2, h3, h4, h5]

/-- C40: `contains` agrees with the substring test on the bytes of its arguments: for
all `s` and `substr` it returns, without panic, whether `substr` occurs in `s` as a
contiguous run of bytes, and so true for every `s` when `substr` is empty.
`containsImpl` returns the same for all arguments, also for a `substr` longer than `s`,
with the fuel of the model and with any larger fuel; every slice expression that its
loop evaluates has its bounds inside `s`. -/
theorem contains_agrees (s substr : List Nat) :
    contains s substr = .ok (decide (substr <:+: s)) ∧
      (contains s substr = .ok true ↔ substr <:+: s) ∧
      contains s [] = .ok true ∧
      containsImpl s substr = .ok (decide (substr <:+: s)) ∧
      (∀ fuel, s.length + 2 ≤ fuel →
        containsImpl.loop s substr fuel 0 = .ok (decide (substr <:+: s))) ∧
      (∀ i : Nat, (i : Int) ≤ (s.length : Int) - (substr.length : Int) →
        sliceBytes s i (i + substr.length) = some ((s.drop i).take substr.length)) ∧
      (∀ text part : String,
        contains (goBytes text) (goBytes part) =
          .ok (decide (goBytes part <:+: goBytes text))) := by
  refine ⟨contains_ok s substr, ?_, ?_, containsImpl_ok s substr,
    fun fuel hfuel => containsImpl_loop_eq s substr fuel hfuel, ?_,
    fun text part => contains_ok _ _⟩
  · rw [contains_ok]
    constructor
    · intro h
      have hb : decide (substr <:+: s) = true := Except.ok.inj h
      exact of_decide_eq_true hb
    · intro h
      rw [decide_eq_true h]
  · rw [contains_ok, decide_eq_true List.nil_infix]
  · intro i hi
    have hin : i + substr.length ≤ s.length := by omega
    rw [sliceBytes, if_pos ⟨Nat.le_add_right _ _, hin⟩, Nat.add_sub_cancel_left]

theorem classifyError_of_rule (err : GoError) (code : Int)
    (h : (if goBytes "API key" <:+: goBytes err.Error then ExitAPIKeyRequired
        else if goBytes "Authentication failed" <:+: goBytes err.Error ∨
            goBytes "401" <:+: goBytes err.Error then ExitAuthError
        else if goBytes "not found" <:+: goBytes err.Error ∨
            goBytes "404" <:+: goBytes err.Error then ExitProjectNotFound
        else if goBytes "connect" <:+: goBytes err.Error ∨
            goBytes "network" <:+: goBytes err.Error then ExitNetworkError
        else if goBytes "rate limit" <:+: goBytes err.Error ∨
            goBytes "429" <:+: goBytes err.Error then ExitRateLimitExceeded
        else ExitInvalidArgs) = code) :
    classifyError err = .ok code := by
  rw [classifyError_eq, h]

/-- C35: `classifyError` returns the code of the first rule that the bytes of the
message match, in the order: contains `API key`, 1; contains `Authentication failed` or
`401`, 2; contains `not found` or `404`, 3; contains `connect` or `network`, 4;
contains `rate limit` or `429`, 6; otherwise 7.  It returns one of these six codes and
never panics.  For the error that `Run` returns when the client's `GetProject` fails
with the tracker's error `Project not found`, wrapped as `APIClient.GetProject` wraps
it, the code is 3. -/
theorem classifyError_rules (err : GoError) :
    (goBytes "API key" <:+: goBytes err.Error → classifyError err = .ok 1) ∧
    (¬ goBytes "API key" <:+: goBytes err.Error →
      (goBytes "Authentication failed" <:+: goBytes err.Error ∨
        goBytes "401" <:+: goBytes err.Error) → classifyError err = .ok 2) ∧
    (¬ goBytes "API key" <:+: goBytes err.Error →
      ¬ goBytes "Authentication failed" <:+: goBytes err.Error →
      ¬ goBytes "401" <:+: goBytes err.Error →
      (goBytes "not found" <:+: goBytes err.Error ∨
        goBytes "404" <:+: goBytes err.Error) → classifyError err = .ok 3) ∧
    (¬ goBytes "API key" <:+: goBytes err.Error →
      ¬ goBytes "Authentication failed" <:+: goBytes err.Error →
      ¬ goBytes "401" <:+: goBytes err.Error →
      ¬ goBytes "not found" <:+: goBytes err.Error →
      ¬ goBytes "404" <:+: goBytes err.Error →
      (goBytes "connect" <:+: goBytes err.Error ∨
        goBytes "network" <:+: goBytes err.Error) → classifyError err = .ok 4) ∧
    (¬ goBytes "API key" <:+: goBytes err.Error →
      ¬ goBytes "Authentication failed" <:+: goBytes err.Error →
      ¬ goBytes "401" <:+: goBytes err.Error →
      ¬ goBytes "not found" <:+: goBytes err.Error →
      ¬ goBytes "404" <:+: goBytes err.Error →
      ¬ goBytes "connect" <:+: goBytes err.Error →
      ¬ goBytes "network" <:+: goBytes err.Error →
      (goBytes "rate limit" <:+: goBytes err.Error ∨
        goBytes "429" <:+: goBytes err.Error) → classifyError err = .ok 6) ∧
    (¬ goBytes "API key" <:+: goBytes err.Error →
      ¬ goBytes "Authentication failed" <:+: goBytes err.Error →
      ¬ goBytes "401" <:+: goBytes err.Error →
      ¬ goBytes "not found" <:+: goBytes err.Error →
      ¬ goBytes "404" <:+: goBytes err.Error →
      ¬ goBytes "connect" <:+: goBytes err.Error →
      ¬ goBytes "network" <:+: goBytes err.Error →
      ¬ goBytes "rate limit" <:+: goBytes err.Error →
      ¬ goBytes "429" <:+: goBytes err.Error → classifyError err = .ok 7) ∧
    (classifyError err = .ok 1 ∨ classifyError err = .ok 2 ∨ classifyError err = .ok 3 ∨
      classifyError err = .ok 4 ∨ classifyError err = .ok 6 ∨ classifyError err = .ok 7) ∧
    (∀ (e : Exporter) (env : RunEnv) (project : Option Project) (code : Int)
      (moreInfo : String) (rest : List APIErrorEntry),
      e.client.GetProject e.config.Project =
        (project, some (.wrapf "failed to get project: "
          (.api ({ Message := "Project not found", Code := code, MoreInfo := moreInfo } ::
            rest)))) →
      ∃ runErr, (e.Run env).ending = .returned "" (some runErr) ∧
        runErr.Error = "failed to get project: failed to get project: Project not found" ∧
        classifyError runErr = .ok ExitProjectNotFound) := by
  refine ⟨?_, ?_, ?_, ?_, ?_, ?_, ?_, ?_⟩
  · intro h1
    exact classifyError_of_rule err 1 (by rw [if_pos h1]; rfl)
  · intro h1 h2
    exact classifyError_of_rule err 2 (by rw [if_neg h1, if_pos h2]; rfl)
  · intro h1 h2 h2' h3
    exact classifyError_of_rule err 3
      (by rw [if_neg h1, if_neg (not_or.2 ⟨h2, h2'⟩), if_pos h3]; rfl)
  · intro h1 h2 h2' h3 h3' h4
    exact classifyError_of_rule err 4
      (by rw [if_neg h1, if_neg (not_or.2 ⟨h2, h2'⟩), if_neg (not_or.2 ⟨h3, h3'⟩),
        if_pos h4]; rfl)
  · intro h1 h2 h2' h3 h3' h4 h4' h5
    exact classifyError_of_rule err 6
      (by rw [if_neg h1, if_neg (not_or.2 ⟨h2, h2'⟩), if_neg (not_or.2 ⟨h3, h3'⟩),
        if_neg (not_or.2 ⟨h4, h4'⟩), if_pos h5]; rfl)
  · intro h1 h2 h2' h3 h3' h4 h4' h5 h5'
    exact classifyError_of_rule err 7
      (by rw [if_neg h1, if_neg (not_or.2 ⟨h2, h2'⟩), if_neg (not_or.2 ⟨h3, h3'⟩),
        if_neg (not_or.2 ⟨h4, h4'⟩), if_neg (not_or.2 ⟨h5, h5'⟩)]; rfl)
  · rw [classifyError_eq]
    split
    · exact Or.inl rfl
    · split
      · exact Or.inr (Or.inl rfl)
      · split
        · exact Or.inr (Or.inr (Or.inl rfl))
        · split
          · exact Or.inr (Or.inr (Or.inr (Or.inl rfl)))
          · split
            · exact Or.inr (Or.inr (Or.inr (Or.inr (Or.inl rfl))))
            · exact Or.inr (Or.inr (Or.inr (Or.inr (Or.inr rfl))))
  · intro e env project code moreInfo rest hp
    rw [Run_getProject_error e env project _ hp]
    have hmsg : (GoError.wrapf "failed to get project: "
        (.wrapf "failed to get project: "
          (.api ({ Message := "Project not found", Code := code, MoreInfo := moreInfo } ::
            rest)))).Error =
        "failed to get project: failed to get project: Project not found" := by
      simp only [GoError.Error]
      decide
    refine ⟨_, rfl, hmsg, ?_⟩
    refine classifyError_of_rule _ _ ?_
    rw [hmsg]
    decide

theorem foldl_set_domain (given : List FlagSetting) (flags : Flags)
    (hno : ∀ value, FlagSetting.domain value ∉ given) :
    (given.foldl Flags.set flags).domain = flags.domain := by
  induction given generalizing flags with
  | nil => rfl
  | cons setting rest ih =>
    rw [List.foldl_cons,
      ih (flags.set setting) (fun value h => hno value (List.mem_cons_of_mem setting h))]
    cases setting with
    | domain value => exact absurd (List.mem_cons_self _ rest) (hno value)
    | apiKey value => rfl
    | space value => rfl
    | project value => rfl
    | output value => rfl
    | format value => rfl
    | assignee value => rfl
    | help value => rfl
    | version value => rfl

theorem cmdCfg_fields (flags : Flags) :
    (run.cmdCfg flags).APIKey = flags.apiKey ∧ (run.cmdCfg flags).Domain = flags.domain := by
  unfold run.cmdCfg
  split <;> exact ⟨rfl, rfl⟩

theorem Merge_Domain (c other : Config) :
    (c.Merge other).Domain = if other.Domain ≠ "" then other.Domain else c.Domain := by
  unfold Config.Merge
  by_cases h1 : other.APIKey = "" <;> by_cases h2 : other.Space = "" <;>
    by_cases h3 : other.Domain = "" <;> by_cases h4 : other.Project = "" <;>
    by_cases h5 : other.Output = "" <;> by_cases h6 : other.Format = "" <;>
    cases h7 : other.Assignee <;> simp [h1, h2, h3, h4, h5, h6]

theorem Merge_APIKey (c other : Config) :
    (c.Merge other).APIKey = if other.APIKey ≠ "" then other.APIKey else c.APIKey := by
  unfold Config.Merge
  by_cases h1 : other.APIKey = "" <;> by_cases h2 : other.Space = "" <;>
    by_cases h3 : other.Domain = "" <;> by_cases h4 : other.Project = "" <;>
    by_cases h5 : other.Output = "" <;> by_cases h6 : other.Format = "" <;>
    cases h7 : other.Assignee <;> simp [h1, h2, h3, h4, h5, h6]

/-- C34, what the code does: when no domain flag is given on the command line, the
variable of the flag keeps its default `backlog.com`, and the configuration that `run`
obtains by merging the configuration of the command line over that of the environment
has the `Domain` `backlog.com`, whatever the value of `BACKLOG_DOMAIN`.  With
`BACKLOG_DOMAIN` set to `backlog.jp` the `Domain` is `backlog.com`, not `backlog.jp`.
The value of the environment is kept only when the flag is given with an empty
value. -/
theorem run_config_domain (getenv : String → String) (given : List FlagSetting)
    (hno : ∀ value, FlagSetting.domain value ∉ given) :
    (flagParse given).domain = "backlog.com" ∧
      (run.config getenv (flagParse given)).Domain = "backlog.com" ∧
      (LoadFromEnv domainEnv).Domain = "backlog.jp" ∧
      (run.config domainEnv (flagParse [.apiKey "key", .space "mycompany", .project "MYPROJ"])).Domain
        = "backlog.com" ∧
      (run.config domainEnv
        (flagParse [.apiKey "key", .space "mycompany", .project "MYPROJ", .domain ""])).Domain
        = "backlog.jp" := by
  have hflag : (flagParse given).domain = "backlog.com" := by
    rw [flagParse, foldl_set_domain given {} hno]
  refine ⟨hflag, ?_, by decide, by decide, by decide⟩
  rw [run.config, Merge_Domain, (cmdCfg_fields _).2, hflag]
  exact if_pos (by decide)

/-- C34, on the command line `-k key -s mycompany -p MYPROJ` with `BACKLOG_DOMAIN` set
to `backlog.jp`. -/
theorem run_config_domain_witness :
    (run.config domainEnv
        (flagParse [.apiKey "key", .space "mycompany", .project "MYPROJ"])).Domain =
      "backlog.com" :=
  (run_config_domain domainEnv [.apiKey "key", .space "mycompany", .project "MYPROJ"]
    (fun value h => by simp at h)).2.1

/-- C36, what the code does: when the variable of the API key flag is empty after the
command line has been read and `BACKLOG_API_KEY` is not set, and neither help nor the
version is asked for, `run` returns `ExitInvalidArgs`, which is 7 and not
`ExitAPIKeyRequired`: `Validate` fails and `run` returns the same code for each of its
errors.  `classifyError`, which `run` applies to the errors of `Exporter.Run` only,
gives `ExitAPIKeyRequired` for the message of that validation error. -/
theorem run_missing_api_key (getenv : String → String) (statNotExist : String → Bool)
    (newClient : String → String → String → Client) (env : RunEnv)
    (given : List FlagSetting) (hflag : (flagParse given).apiKey = "")
    (henv : getenv "BACKLOG_API_KEY" = "") (hhelp : (flagParse given).showHelp = false)
    (hversion : (flagParse given).showVersion = false) :
    run getenv statNotExist newClient env given = .ok ExitInvalidArgs ∧
      ExitInvalidArgs = 7 ∧ ExitAPIKeyRequired = 1 ∧
      ((run.config getenv (flagParse given)).Validate).2 =
        some (.errorf "API key is required. Set --api-key or BACKLOG_API_KEY") ∧
      classifyError (.errorf "API key is required. Set --api-key or BACKLOG_API_KEY") =
        .ok ExitAPIKeyRequired := by
  have hkey : (run.config getenv (flagParse given)).APIKey = "" := by
    rw [run.config, Merge_APIKey, (cmdCfg_fields _).1, hflag]
    simp only [ne_eq, not_true_eq_false, if_false]
    exact henv
  have hval : (run.config getenv (flagParse given)).Validate =
      (run.config getenv (flagParse given),
        some (.errorf "API key is required. Set --api-key or BACKLOG_API_KEY")) := by
    rw [Config.Validate, if_pos hkey]
  refine ⟨?_, rfl, rfl, by rw [hval], ?_⟩
  · unfold run
    simp only [hhelp, hversion, hval, Bool.false_eq_true, if_false]
  · refine classifyError_of_rule _ _ ?_
    decide

/-- C36, on the command line `-s mycompany -p MYPROJ` with an empty environment: the
exit code is 7. -/
theorem run_missing_api_key_witness :
    run emptyEnv (fun _ => false) (fun _ _ _ => scenarioClient) sampleEnv
        [.space "mycompany", .project "MYPROJ"] = .ok 7 :=
  (run_missing_api_key emptyEnv (fun _ => false) (fun _ _ _ => scenarioClient) sampleEnv
    [.space "mycompany", .project "MYPROJ"] rfl rfl rfl rfl).1

/-! ## Issues that share an id -/

theorem indexLoop_get?_last (l : List Issue) (m : IssueMap) (h : Heap) (k : Int) (a : Nat)
    (hk : (buildHierarchy.indexLoop l m h).1.get? k = some a) :
    ∀ j i, l[j]? = some i → i.ID = k → h.length + j ≤ a := by
  induction l generalizing m h with
  | nil =>
    intro j i hj
    simp at hj
  | cons i0 rest ih =>
    rw [buildHierarchy.indexLoop] at hk
    intro j i hj hid
    cases j with
    | zero =>
      simp only [List.getElem?_cons_zero, Option.some.injEq] at hj
      subst hj
      rcases indexLoop_get?_some _ _ _ _ _ hk with h1 | ⟨j', i', -, -, ha⟩
      · simp only [IssueMap.set, IssueMap.get?, hid, if_true, Option.some.injEq] at h1
        omega
      · simp only [List.length_append, List.length_singleton] at ha
        omega
    | succ j =>
      simp only [List.getElem?_cons_succ] at hj
      have := ih _ _ hk j i hj hid
      simp only [List.length_append, List.length_singleton] at this
      omega

theorem index_get?_last_iff (issues : List Issue) (k : Int) (a : Nat) :
    (buildHierarchy.index issues).get? k = some a ↔
      (∃ i, issues[a]? = some i ∧ i.ID = k) ∧
        ∀ b i, a < b → issues[b]? = some i → i.ID ≠ k := by
  constructor
  · intro h
    rw [buildHierarchy.index] at h
    constructor
    · rcases indexLoop_get?_some issues [] [] k a h with h0 | ⟨j, i, hj, hid, hja⟩
      · simp [IssueMap.get?] at h0
      · simp only [List.length_nil, Nat.zero_add] at hja
        subst hja
        exact ⟨i, hj, hid⟩
    · intro b i hab hb hid
      have := indexLoop_get?_last issues [] [] k a h b i hb hid
      simp only [List.length_nil, Nat.zero_add] at this
      omega
  · rintro ⟨⟨i, hi, hid⟩, hlast⟩
    have hmem : k ∈ issueIDs issues := by
      rw [issueIDs, List.mem_map]
      exact ⟨i, List.getElem?_mem hi, hid⟩
    have hsome := indexLoop_get?_of_mem issues [] [] k hmem
    rw [buildHierarchy.index]
    rcases hget : (buildHierarchy.indexLoop issues [] []).1.get? k with _ | a'
    · rw [hget] at hsome
      exact Bool.noConfusion hsome
    · have hle := indexLoop_get?_last issues [] [] k a' hget a i hi hid
      simp only [List.length_nil, Nat.zero_add] at hle
      rcases indexLoop_get?_some issues [] [] k a' hget with h0 | ⟨j, i', hj, hid', hja⟩
      · simp [IssueMap.get?] at h0
      · simp only [List.length_nil, Nat.zero_add] at hja
        subst hja
        rcases Nat.lt_or_ge a a' with hlt | hge
        · exact absurd hid' (hlast a' i' hlt hj)
        · congr 1
          omega

theorem flatMap_insert_perm {α β : Type} [DecidableEq α] (L : List α) (a0 : α) (x : β)
    (F : α → List β) (hL : L.Nodup) (ha : a0 ∈ L) :
    (L.flatMap (fun a => if a = a0 then x :: F a else F a)).Perm (x :: L.flatMap F) := by
  induction L with
  | nil => simp at ha
  | cons b L ih =>
    rw [List.nodup_cons] at hL
    rw [List.flatMap_cons, List.flatMap_cons]
    by_cases hb : b = a0
    · subst hb
      rw [if_pos rfl]
      have hcongr : L.flatMap (fun a => if a = b then x :: F a else F a) = L.flatMap F := by
        apply List.flatMap_congr
        intro a haL
        rw [if_neg]
        rintro rfl
        exact hL.1 haL
      rw [hcongr]
      exact List.Perm.refl _
    · rw [if_neg hb]
      have ha' : a0 ∈ L := by
        rcases List.mem_cons.1 ha with h | h
        · exact absurd h.symm hb
        · exact h
      exact (List.Perm.append_left (F b) (ih hL.2 ha')).trans List.perm_middle

theorem flatMap_attachesTo_perm (m : IssueMap) (n : Nat) (l : List Issue)
    (hrange : ∀ i ∈ l, ∀ pid a, i.ParentIssueID = some pid → m.get? pid = some a → a < n) :
    ((List.range n).flatMap (fun a => l.filter (attachesTo m a))).Perm
      (l.filter (attaches m)) := by
  induction l with
  | nil => simp
  | cons i rest ih =>
    have ih' := ih (fun x hx => hrange x (List.mem_cons_of_mem i hx))
    cases hp : i.ParentIssueID with
    | none =>
      have h1 : ∀ a, attachesTo m a i = false := fun a => by simp [attachesTo, hp]
      have h2 : attaches m i = false := by simp [attaches, hp]
      simp only [List.filter_cons, h1, h2, Bool.false_eq_true, if_false]
      exact ih'
    | some pid =>
      cases hg : m.get? pid with
      | none =>
        have h1 : ∀ a, attachesTo m a i = false := fun a => by simp [attachesTo, hp, hg]
        have h2 : attaches m i = false := by simp [attaches, hp, hg]
        simp only [List.filter_cons, h1, h2, Bool.false_eq_true, if_false]
        exact ih'
      | some a0 =>
        have ha0 : a0 < n := hrange i (List.mem_cons_self i rest) pid a0 hp hg
        have h1 : ∀ a, attachesTo m a i = decide (a = a0) := fun a => by
          simp [attachesTo, hp, hg, eq_comm]
        have h2 : attaches m i = true := by simp [attaches, hp, hg]
        simp only [List.filter_cons, h1, h2, if_true, decide_eq_true_eq]
        exact (flatMap_insert_perm (List.range n) a0 i
          (fun a => rest.filter (attachesTo m a)) (List.nodup_range n)
          (List.mem_range.2 ha0)).trans (List.Perm.cons i ih')

theorem buildHierarchy_appended_perm (issues : List Issue) :
    (buildHierarchy issues).appended.Perm
      (issues.map (fun i => (buildHierarchy.index issues).index i.ID)) := by
  have hchildren : ∀ a ∈ List.range (buildHierarchy issues).heap.length,
      (buildHierarchy issues).heap.childrenAt (some a) =
        (issues.filter (attachesTo (buildHierarchy.index issues) a)).map
          (fun c => (buildHierarchy.index issues).index c.ID) := by
    intro a ha
    rw [List.mem_range, buildHierarchy_length] at ha
    simp [Heap.childrenAt, Heap.node, buildHierarchy_getElem?, List.getElem?_eq_getElem ha]
  have hrange : ∀ i ∈ issues, ∀ pid a, i.ParentIssueID = some pid →
      (buildHierarchy.index issues).get? pid = some a → a < issues.length := by
    intro i _ pid a _ hget
    obtain ⟨⟨P, hP, -⟩, -⟩ := (index_get?_last_iff issues pid a).1 hget
    exact (List.getElem?_eq_some_iff.1 hP).1
  unfold Hierarchy.appended
  rw [List.flatMap_congr hchildren, buildHierarchy_length, ← List.map_flatMap,
    buildHierarchy_roots, linkLoop_roots, List.nil_append, ← List.map_append]
  apply List.Perm.map
  refine (List.Perm.append_left _
    (flatMap_attachesTo_perm (buildHierarchy.index issues) issues.length issues hrange)).trans ?_
  exact (List.perm_append_comm).trans (List.filter_append_perm _ _)

/-- C38: for every list of issues, with or without shared ids.  The index maps an id
to the address of the last issue of the list with that id, and to no other address.
The pointers appended to the roots and to the `Children` slices are, up to order, one
per input issue, each the node of the last issue that has the id of that input issue:
so the node of the last issue with an id is appended as often as the id occurs, and
the node of an earlier issue with that id is in no slice.  `Total` is the length of
the list.  For two issues with the id 1 and no parent, the roots are the node of the
second issue twice and the total is 2. -/
theorem buildHierarchy_shared_ids (issues : List Issue) :
    (∀ (id : Int) (a : Nat), (buildHierarchy.index issues).get? id = some a ↔
      (∃ i, issues[a]? = some i ∧ i.ID = id) ∧
        ∀ b i, a < b → issues[b]? = some i → i.ID ≠ id) ∧
    (buildHierarchy issues).appended.Perm
      (issues.map (fun i => (buildHierarchy.index issues).index i.ID)) ∧
    (∀ (id : Int) (a : Nat), (buildHierarchy.index issues).get? id = some a →
      (buildHierarchy issues).appended.count (some a) =
        (issues.filter (fun i => decide (i.ID = id))).length) ∧
    (∀ (a b : Nat) (i i' : Issue), a < b → issues[a]? = some i → issues[b]? = some i' →
      i.ID = i'.ID →
      some a ∉ (buildHierarchy issues).roots ∧
        ∀ p : Ptr, some a ∉ (buildHierarchy issues).heap.childrenAt p) ∧
    (buildHierarchy issues).summary.Total = (issues.length : Int) ∧
    (buildHierarchy duplicateIssues).roots = [some 1, some 1] ∧
    (buildHierarchy duplicateIssues).heap.issueAt (some 1) =
      some { ID := 1, IssueKey := "DUP-B" } ∧
    (buildHierarchy duplicateIssues).summary.Total = 2 := by
  have hperm := buildHierarchy_appended_perm issues
  have hearlier : ∀ (a b : Nat) (i i' : Issue), a < b → issues[a]? = some i →
      issues[b]? = some i' → i.ID = i'.ID →
      some a ∉ (buildHierarchy issues).appended := by
    intro a b i i' hab ha hb hid hmem
    rw [hperm.mem_iff, List.mem_map] at hmem
    obtain ⟨x, -, hx⟩ := hmem
    obtain ⟨⟨y, hy, hyid⟩, hlast⟩ := (index_get?_last_iff issues x.ID a).1 hx
    rw [ha] at hy
    cases hy
    exact hlast b i' hab hb (hid.symm.trans hyid)
  refine ⟨index_get?_last_iff issues, hperm, ?_, ?_, (buildHierarchy_summary issues).1,
    by decide, by decide, by decide⟩
  · intro id a hget
    rw [List.count, hperm.countP_eq, List.countP_map, List.countP_eq_length_filter]
    congr 1
    apply List.filter_congr
    intro x hx
    obtain ⟨⟨y, hy, hyid⟩, hlast⟩ := (index_get?_last_iff issues id a).1 hget
    by_cases hid : x.ID = id
    · simp [hid, IssueMap.index, hget]
    · have hne : (buildHierarchy.index issues).index x.ID ≠ some a := by
        intro hx'
        obtain ⟨⟨z, hz, hzid⟩, -⟩ := (index_get?_last_iff issues x.ID a).1 hx'
        rw [hy] at hz
        cases hz
        exact hid (hzid.symm.trans hyid)
      simp [hid, hne]
  · intro a b i i' hab ha hb hid
    have hnot := hearlier a b i i' hab ha hb hid
    unfold Hierarchy.appended at hnot
    rw [List.mem_append, not_or] at hnot
    refine ⟨hnot.1, ?_⟩
    intro p hp
    rcases p with _ | c
    · simp [Heap.childrenAt, Heap.node] at hp
    · by_cases hc : c < (buildHierarchy issues).heap.length
      · exact hnot.2 (List.mem_flatMap.2 ⟨c, List.mem_range.2 hc, hp⟩)
      · simp [Heap.childrenAt, Heap.node, List.getElem?_eq_none (Nat.le_of_not_lt hc)] at hp

/-! ## Every issue occurs once in the forest -/

theorem flatten_fuel_mono (h : Heap) (fuel fuel' : Nat) (hle : fuel ≤ fuel') (p : Ptr)
    (l : List Issue) (hl : h.flatten fuel p = .ok l) : h.flatten fuel' p = .ok l := by
  induction fuel generalizing fuel' p l with
  | zero => simp [Heap.flatten] at hl
  | succ fuel ih =>
    cases fuel' with
    | zero => omega
    | succ fuel' =>
      rw [Heap.flatten] at hl ⊢
      cases hn : h.node p with
      | none => simp [hn] at hl
      | some node =>
        simp only [hn] at hl ⊢
        cases hc : appendEach (h.flatten fuel) node.Children with
        | error fault => simp [hc] at hl
        | ok below =>
          simp only [hc] at hl
          have hc' : appendEach (h.flatten fuel') node.Children = .ok below := by
            rw [appendEach_ok_iff] at hc ⊢
            exact hc.imp (fun c lc hlc => ih fuel' (by omega) c lc hlc)
          simp only [hc']
          exact hl

theorem length_le_flatten_length {α : Type} (ls : List (List α)) (l : List α) (hl : l ∈ ls) :
    l.length ≤ ls.flatten.length := by
  induction ls with
  | nil => simp at hl
  | cons x rest ih =>
    rw [List.flatten_cons, List.length_append]
    rcases List.mem_cons.1 hl with rfl | h
    · omega
    · have := ih h
      omega

theorem flatten_forall₂_fuel (h : Heap) (fuel N : Nat)
    (ih : ∀ p l, h.flatten fuel p = .ok l → h.flatten l.length p = .ok l)
    (xs : List Ptr) (ys : List (List Issue))
    (hf : List.Forall₂ (fun x y => h.flatten fuel x = .ok y) xs ys)
    (hN : ∀ y ∈ ys, y.length ≤ N) :
    List.Forall₂ (fun x y => h.flatten N x = .ok y) xs ys := by
  induction hf with
  | nil => exact List.Forall₂.nil
  | @cons c lc cs lcs hhead _ ihtail =>
    refine List.Forall₂.cons ?_ (ihtail (fun y hy => hN y (List.mem_cons_of_mem lc hy)))
    exact flatten_fuel_mono h _ _ (hN lc (List.mem_cons_self lc lcs)) c lc (ih c lc hhead)

theorem flatten_fuel_length (h : Heap) (fuel : Nat) (p : Ptr) (l : List Issue)
    (hl : h.flatten fuel p = .ok l) : h.flatten l.length p = .ok l := by
  induction fuel generalizing p l with
  | zero => simp [Heap.flatten] at hl
  | succ fuel ih =>
    rw [Heap.flatten] at hl
    cases hn : h.node p with
    | none => simp [hn] at hl
    | some node =>
      simp only [hn] at hl
      cases hc : appendEach (h.flatten fuel) node.Children with
      | error fault => simp [hc] at hl
      | ok below =>
        simp only [hc, Except.ok.injEq] at hl
        subst hl
        have hc' : appendEach (h.flatten below.flatten.length) node.Children = .ok below := by
          rw [appendEach_ok_iff] at hc ⊢
          exact flatten_forall₂_fuel h fuel _ ih node.Children below hc
            (fun lc hlc => length_le_flatten_length below lc hlc)
        rw [List.length_cons, Heap.flatten, hn]
        simp only [hc']

theorem ancestor_add (issues : List Issue) (a b : Nat) (x : Issue) :
    ancestor issues (a + b) x = (ancestor issues a x).bind (ancestor issues b) := by
  induction a generalizing x with
  | zero => simp [ancestor]
  | succ a ih =>
    rw [Nat.add_right_comm, ancestor, ancestor]
    cases parentOf issues x with
    | none => rfl
    | some p => exact ih p

theorem parentOf_eq_some (issues : List Issue) (hnd : (issueIDs issues).Nodup)
    (c P : Issue) :
    parentOf issues c = some P ↔ c.ParentIssueID = some P.ID ∧ P ∈ issues := by
  unfold parentOf
  cases hp : c.ParentIssueID with
  | none => simp
  | some pid =>
    constructor
    · intro h
      have hid := List.find?_some h
      rw [decide_eq_true_eq] at hid
      exact ⟨by rw [hid], List.mem_of_find?_eq_some h⟩
    · rintro ⟨hid, hP⟩
      rw [Option.some.injEq] at hid
      rw [hid]
      exact find?_of_mem_nodup issues hnd P hP

theorem parentOf_eq_none (issues : List Issue) (i : Issue) :
    parentOf issues i = none ↔ hasFetchedParent issues i = false := by
  unfold parentOf hasFetchedParent
  cases i.ParentIssueID with
  | none => simp
  | some pid => simp [issueIDs]

theorem ancestor_mem (issues : List Issue) (k : Nat) (x y : Issue) (hx : x ∈ issues)
    (h : ancestor issues k x = some y) : y ∈ issues := by
  induction k generalizing x with
  | zero =>
    simp only [ancestor, Option.some.injEq] at h
    exact h ▸ hx
  | succ k ih =>
    rw [ancestor] at h
    cases hp : parentOf issues x with
    | none => simp [hp] at h
    | some p =>
      rw [hp] at h
      refine ih p ?_ h
      unfold parentOf at hp
      cases hpid : x.ParentIssueID with
      | none => simp [hpid] at hp
      | some pid =>
        rw [hpid] at hp
        exact List.mem_of_find?_eq_some hp

theorem ancestor_one (issues : List Issue) (x : Issue) :
    ancestor issues 1 x = parentOf issues x := by
  rw [ancestor]
  cases parentOf issues x <;> rfl

theorem descendant_wf (issues : List Issue) (hac : ParentAcyclic issues) :
    WellFounded (fun (c P : { i : Issue // i ∈ issues }) =>
      ∃ k, ancestor issues (k + 1) c.1 = some P.1) := by
  haveI : IsTrans { i : Issue // i ∈ issues }
      (fun c P => ∃ k, ancestor issues (k + 1) c.1 = some P.1) :=
    ⟨fun c P Q ⟨k, hk⟩ ⟨k', hk'⟩ => ⟨k + 1 + k', by
      rw [show k + 1 + k' + 1 = (k + 1) + (k' + 1) by omega, ancestor_add, hk]
      exact hk'⟩⟩
  haveI : IsIrrefl { i : Issue // i ∈ issues }
      (fun c P => ∃ k, ancestor issues (k + 1) c.1 = some P.1) :=
    ⟨fun c ⟨k, hk⟩ => hac c.1 c.2 k hk⟩
  exact Finite.wellFounded_of_trans_of_irrefl _

theorem ascendant_wf (issues : List Issue) (hac : ParentAcyclic issues) :
    WellFounded (fun (P c : { i : Issue // i ∈ issues }) =>
      ∃ k, ancestor issues (k + 1) c.1 = some P.1) := by
  haveI : IsTrans { i : Issue // i ∈ issues }
      (fun P c => ∃ k, ancestor issues (k + 1) c.1 = some P.1) :=
    ⟨fun Q P c ⟨k', hk'⟩ ⟨k, hk⟩ => ⟨k + 1 + k', by
      rw [show k + 1 + k' + 1 = (k + 1) + (k' + 1) by omega, ancestor_add, hk]
      exact hk'⟩⟩
  haveI : IsIrrefl { i : Issue // i ∈ issues }
      (fun P c => ∃ k, ancestor issues (k + 1) c.1 = some P.1) :=
    ⟨fun c ⟨k, hk⟩ => hac c.1 c.2 k hk⟩
  exact Finite.wellFounded_of_trans_of_irrefl _

theorem ancestor_between (issues : List Issue) (a b : Nat) (hab : a ≤ b) (x c c' : Issue)
    (ha : ancestor issues a x = some c) (hb : ancestor issues b x = some c') :
    ancestor issues (b - a) c = some c' := by
  have h := ancestor_add issues a (b - a) x
  rw [Nat.add_sub_cancel' hab, hb, ha] at h
  exact h.symm

theorem ancestor_succ_right (issues : List Issue) (k : Nat) (x c : Issue)
    (h : ancestor issues k x = some c) :
    ancestor issues (k + 1) x = parentOf issues c := by
  rw [ancestor_add, h, Option.some_bind, ancestor_one]

theorem siblings_disjoint (issues : List Issue) (hac : ParentAcyclic issues)
    (P c c' x : Issue) (hP : P ∈ issues) (hne : c ≠ c')
    (hc : parentOf issues c = some P) (hc' : parentOf issues c' = some P) (a b : Nat)
    (ha : ancestor issues a x = some c) (hb : ancestor issues b x = some c') : False := by
  have key : ∀ (c c' : Issue) (a b : Nat), c ≠ c' → parentOf issues c = some P →
      parentOf issues c' = some P → a ≤ b → ancestor issues a x = some c →
      ancestor issues b x = some c' → False := by
    intro c c' a b hne hc hc' hab ha hb
    have hd := ancestor_between issues a b hab x c c' ha hb
    cases hdk : b - a with
    | zero =>
      rw [hdk] at hd
      simp only [ancestor, Option.some.injEq] at hd
      exact hne hd
    | succ d =>
      rw [hdk, ancestor, hc, Option.some_bind] at hd
      have hcycle := ancestor_succ_right issues d P c' hd
      rw [hc'] at hcycle
      exact hac P hP d hcycle
  rcases Nat.le_total a b with hab | hab
  · exact key c c' a b hne hc hc' hab ha hb
  · exact key c' c b a (Ne.symm hne) hc' hc hab hb ha

theorem roots_disjoint (issues : List Issue) (r r' x : Issue) (hne : r ≠ r')
    (hr : parentOf issues r = none) (hr' : parentOf issues r' = none) (a b : Nat)
    (ha : ancestor issues a x = some r) (hb : ancestor issues b x = some r') : False := by
  have key : ∀ (r r' : Issue) (a b : Nat), r ≠ r' → parentOf issues r = none →
      a ≤ b → ancestor issues a x = some r → ancestor issues b x = some r' → False := by
    intro r r' a b hne hr hab ha hb
    have hd := ancestor_between issues a b hab x r r' ha hb
    cases hdk : b - a with
    | zero =>
      rw [hdk] at hd
      simp only [ancestor, Option.some.injEq] at hd
      exact hne hd
    | succ d =>
      rw [hdk, ancestor, hr] at hd
      exact Option.noConfusion hd
  rcases Nat.le_total a b with hab | hab
  · exact key r r' a b hne hr hab ha hb
  · exact key r' r b a (Ne.symm hne) hr' hab hb ha

theorem node_index (issues : List Issue) (hnd : (issueIDs issues).Nodup) (P : Issue)
    (hP : P ∈ issues) :
    (buildHierarchy issues).heap.node ((buildHierarchy.index issues).index P.ID) =
      some
        { Issue := P
          Children :=
            (issues.filter (fun c => decide (c.ParentIssueID = some P.ID))).map
              (fun c => (buildHierarchy.index issues).index c.ID) } := by
  rcases List.getElem?_of_mem hP with ⟨j, hj⟩
  have hfilter : attachesTo (buildHierarchy.index issues) j =
      fun c => decide (c.ParentIssueID = some P.ID) :=
    funext (attachesTo_index issues hnd j P hj)
  rw [index_of_getElem? issues hnd j P hj, Heap.node, buildHierarchy_getElem?, hj, hfilter]
  rfl

theorem flatten_each (h : Heap) (idx : Issue → Ptr) (listOf : Issue → List Issue)
    (cs : List Issue) (hcs : ∀ c ∈ cs, ∃ fuel, h.flatten fuel (idx c) = .ok (listOf c)) :
    ∃ F, appendEach (h.flatten F) (cs.map idx) = .ok (cs.map listOf) := by
  induction cs with
  | nil => exact ⟨0, rfl⟩
  | cons c rest ih =>
    obtain ⟨f, hf⟩ := hcs c (List.mem_cons_self c rest)
    obtain ⟨F, hF⟩ := ih (fun x hx => hcs x (List.mem_cons_of_mem c hx))
    refine ⟨max f F, ?_⟩
    rw [appendEach_ok_iff] at hF ⊢
    rw [List.map_cons, List.map_cons]
    refine List.Forall₂.cons (flatten_fuel_mono h f _ (le_max_left f F) _ _ hf) ?_
    exact hF.imp (fun p l hl => flatten_fuel_mono h F _ (le_max_right f F) p l hl)

theorem flatten_subtree (issues : List Issue) (hnd : (issueIDs issues).Nodup)
    (hac : ParentAcyclic issues) (P : Issue) (hP : P ∈ issues) :
    ∃ fuel l,
      (buildHierarchy issues).heap.flatten fuel ((buildHierarchy.index issues).index P.ID) =
        .ok l ∧
      l.Nodup ∧ ∀ x, x ∈ l ↔ x ∈ issues ∧ ∃ k, ancestor issues k x = some P := by
  have hwf := descendant_wf issues hac
  have main : ∀ Q : { i : Issue // i ∈ issues }, ∃ fuel l,
      (buildHierarchy issues).heap.flatten fuel ((buildHierarchy.index issues).index Q.1.ID) =
        .ok l ∧
      l.Nodup ∧ ∀ x, x ∈ l ↔ x ∈ issues ∧ ∃ k, ancestor issues k x = some Q.1 := by
    intro Q
    induction Q using hwf.induction with
    | _ Q ih =>
      obtain ⟨P, hP⟩ := Q
      have hcs : ∀ c ∈ issues.filter (fun c => decide (c.ParentIssueID = some P.ID)),
          c ∈ issues ∧ parentOf issues c = some P := by
        intro c hc
        rw [List.mem_filter, decide_eq_true_eq] at hc
        exact ⟨hc.1, (parentOf_eq_some issues hnd c P).2 ⟨hc.2, hP⟩⟩
      have hsub : ∀ c ∈ issues.filter (fun c => decide (c.ParentIssueID = some P.ID)),
          ∃ l : List Issue,
            (∃ fuel, (buildHierarchy issues).heap.flatten fuel
              ((buildHierarchy.index issues).index c.ID) = .ok l) ∧
            l.Nodup ∧ ∀ x, x ∈ l ↔ x ∈ issues ∧ ∃ k, ancestor issues k x = some c := by
        intro c hc
        obtain ⟨fuel, l, h1, h2, h3⟩ := ih ⟨c, (hcs c hc).1⟩
          ⟨0, by rw [ancestor_one]; exact (hcs c hc).2⟩
        exact ⟨l, ⟨fuel, h1⟩, h2, h3⟩
      choose! listOf hlist using hsub
      obtain ⟨F, hF⟩ := flatten_each (buildHierarchy issues).heap
        (fun c => (buildHierarchy.index issues).index c.ID) listOf
        (issues.filter (fun c => decide (c.ParentIssueID = some P.ID)))
        (fun c hc => (hlist c hc).1)
      refine ⟨F + 1,
        P :: ((issues.filter (fun c => decide (c.ParentIssueID = some P.ID))).map
          listOf).flatten, ?_, ?_, ?_⟩
      · rw [Heap.flatten, node_index issues hnd P hP]
        simp only [hF]
      · rw [List.nodup_cons]
        constructor
        · intro hmem
          rw [List.mem_flatten] at hmem
          obtain ⟨l, hl, hPl⟩ := hmem
          obtain ⟨c, hc, rfl⟩ := List.mem_map.1 hl
          obtain ⟨-, k, hk⟩ := ((hlist c hc).2.2 P).1 hPl
          have hcycle := ancestor_succ_right issues k P c hk
          rw [(hcs c hc).2] at hcycle
          exact hac P hP k hcycle
        · rw [← List.flatMap_def, List.nodup_flatMap]
          refine ⟨fun c hc => (hlist c hc).2.1, ?_⟩
          have hnodup : (issues.filter
              (fun c => decide (c.ParentIssueID = some P.ID))).Nodup :=
            (nodup_of_issueIDs_nodup issues hnd).filter _
          refine List.Pairwise.imp_of_mem ?_ hnodup
          intro c c' hc hc' hne x hxc hxc'
          obtain ⟨-, a, ha⟩ := ((hlist c hc).2.2 x).1 hxc
          obtain ⟨-, b, hb⟩ := ((hlist c' hc').2.2 x).1 hxc'
          exact siblings_disjoint issues hac P c c' x hP hne (hcs c hc).2 (hcs c' hc').2
            a b ha hb
      · intro x
        rw [List.mem_cons, List.mem_flatten]
        constructor
        · rintro (rfl | ⟨l, hl, hxl⟩)
          · exact ⟨hP, 0, rfl⟩
          · obtain ⟨c, hc, rfl⟩ := List.mem_map.1 hl
            obtain ⟨hx, k, hk⟩ := ((hlist c hc).2.2 x).1 hxl
            refine ⟨hx, k + 1, ?_⟩
            rw [ancestor_succ_right issues k x c hk]
            exact (hcs c hc).2
        · rintro ⟨hx, k, hk⟩
          cases k with
          | zero =>
            simp only [ancestor, Option.some.injEq] at hk
            exact Or.inl hk
          | succ k =>
            right
            have hsplit := ancestor_add issues k 1 x
            rw [hk] at hsplit
            cases hc : ancestor issues k x with
            | none => simp [hc] at hsplit
            | some c =>
              rw [hc, Option.some_bind, ancestor_one] at hsplit
              have hcmem : c ∈ issues := ancestor_mem issues k x c hx hc
              have hcP := (parentOf_eq_some issues hnd c P).1 hsplit.symm
              have hccs : c ∈ issues.filter
                  (fun c => decide (c.ParentIssueID = some P.ID)) := by
                rw [List.mem_filter, decide_eq_true_eq]
                exact ⟨hcmem, hcP.1⟩
              exact ⟨listOf c, List.mem_map.2 ⟨c, hccs, rfl⟩,
                ((hlist c hccs).2.2 x).2 ⟨hx, k, hc⟩⟩
  exact main ⟨P, hP⟩

theorem root_ancestor (issues : List Issue) (hac : ParentAcyclic issues) (x : Issue)
    (hx : x ∈ issues) :
    ∃ r, r ∈ issues ∧ parentOf issues r = none ∧ ∃ k, ancestor issues k x = some r := by
  have hwf := ascendant_wf issues hac
  have main : ∀ Q : { i : Issue // i ∈ issues },
      ∃ r, r ∈ issues ∧ parentOf issues r = none ∧ ∃ k, ancestor issues k Q.1 = some r := by
    intro Q
    induction Q using hwf.induction with
    | _ Q ih =>
      obtain ⟨x, hx⟩ := Q
      cases hp : parentOf issues x with
      | none => exact ⟨x, hx, hp, 0, rfl⟩
      | some P =>
        have hP : P ∈ issues := ancestor_mem issues 1 x P hx (by rw [ancestor_one, hp])
        obtain ⟨r, hr, hroot, k, hk⟩ := ih ⟨P, hP⟩ ⟨0, by rw [ancestor_one]; exact hp⟩
        refine ⟨r, hr, hroot, k + 1, ?_⟩
        rw [ancestor, hp]
        exact hk
  exact main ⟨x, hx⟩

theorem buildHierarchy_flatten (issues : List Issue) (hnd : (issueIDs issues).Nodup)
    (hac : ParentAcyclic issues) :
    ∃ l, (∀ fuel, issues.length ≤ fuel → (buildHierarchy issues).flatten fuel = .ok l) ∧
      l.Nodup ∧ ∀ x, x ∈ l ↔ x ∈ issues := by
  have hrs : ∀ r ∈ issues.filter (fun i => !hasFetchedParent issues i),
      r ∈ issues ∧ parentOf issues r = none := by
    intro r hr
    rw [List.mem_filter] at hr
    refine ⟨hr.1, (parentOf_eq_none issues r).2 ?_⟩
    simpa using hr.2
  have hsub : ∀ r ∈ issues.filter (fun i => !hasFetchedParent issues i),
      ∃ l : List Issue,
        (∃ fuel, (buildHierarchy issues).heap.flatten fuel
          ((buildHierarchy.index issues).index r.ID) = .ok l) ∧
        l.Nodup ∧ ∀ x, x ∈ l ↔ x ∈ issues ∧ ∃ k, ancestor issues k x = some r := by
    intro r hr
    obtain ⟨fuel, l, h1, h2, h3⟩ := flatten_subtree issues hnd hac r (hrs r hr).1
    exact ⟨l, ⟨fuel, h1⟩, h2, h3⟩
  choose! listOf hlist using hsub
  refine ⟨((issues.filter (fun i => !hasFetchedParent issues i)).map listOf).flatten,
    ?_, ?_, ?_⟩
  · intro fuel hfuel
    have hroots : appendEach ((buildHierarchy issues).heap.flatten fuel)
        (buildHierarchy issues).roots =
        .ok ((issues.filter (fun i => !hasFetchedParent issues i)).map listOf) := by
      rw [buildHierarchy_roots_eq, appendEach_ok_iff, List.forall₂_map_left_iff,
        List.forall₂_map_right_iff, List.forall₂_same]
      intro r hr
      obtain ⟨f, hf⟩ := (hlist r hr).1
      have hlen : (listOf r).length ≤ issues.length :=
        ((hlist r hr).2.1.subperm (fun x hx => (((hlist r hr).2.2 x).1 hx).1)).length_le
      exact flatten_fuel_mono _ _ _ (Nat.le_trans hlen hfuel) _ _
        (flatten_fuel_length _ f _ _ hf)
    rw [Hierarchy.flatten]
    simp only [hroots]
  · rw [← List.flatMap_def, List.nodup_flatMap]
    refine ⟨fun r hr => (hlist r hr).2.1, ?_⟩
    have hnodup : (issues.filter (fun i => !hasFetchedParent issues i)).Nodup :=
      (nodup_of_issueIDs_nodup issues hnd).filter _
    refine List.Pairwise.imp_of_mem ?_ hnodup
    intro r r' hr hr' hne x hxr hxr'
    obtain ⟨-, a, ha⟩ := ((hlist r hr).2.2 x).1 hxr
    obtain ⟨-, b, hb⟩ := ((hlist r' hr').2.2 x).1 hxr'
    exact roots_disjoint issues r r' x hne (hrs r hr).2 (hrs r' hr').2 a b ha hb
  · intro x
    rw [List.mem_flatten]
    constructor
    · rintro ⟨l, hl, hxl⟩
      obtain ⟨r, hr, rfl⟩ := List.mem_map.1 hl
      exact (((hlist r hr).2.2 x).1 hxl).1
    · intro hx
      obtain ⟨r, hr, hroot, k, hk⟩ := root_ancestor issues hac x hx
      have hrmem : r ∈ issues.filter (fun i => !hasFetchedParent issues i) := by
        rw [List.mem_filter]
        refine ⟨hr, ?_⟩
        rw [(parentOf_eq_none issues r).1 hroot]
        rfl
      exact ⟨listOf r, List.mem_map.2 ⟨r, hrmem, rfl⟩, ((hlist r hrmem).2.2 x).2 ⟨hx, k, hk⟩⟩

/-- C37: for a list of issues with pairwise distinct ids in which following parent
references never returns to the starting issue, the pre-order flattening of the forest
that `buildHierarchy` returns succeeds with every fuel of at least the number of issues,
and its result is a permutation of the input list: every input issue occurs in it
exactly once, and its length is `summary.Total`. -/
theorem buildHierarchy_every_issue_once (issues : List Issue)
    (hnd : (issueIDs issues).Nodup) (hac : ParentAcyclic issues) :
    ∃ l, (∀ fuel, issues.length ≤ fuel → (buildHierarchy issues).flatten fuel = .ok l) ∧
      l.Perm issues ∧ (∀ i ∈ issues, l.count i = 1) ∧
      (l.length : Int) = (buildHierarchy issues).summary.Total := by
  obtain ⟨l, hfuel, hnodup, hmem⟩ := buildHierarchy_flatten issues hnd hac
  have hperm : l.Perm issues :=
    (List.perm_ext_iff_of_nodup hnodup (nodup_of_issueIDs_nodup issues hnd)).2 hmem
  refine ⟨l, hfuel, hperm, ?_, ?_⟩
  · intro i hi
    exact List.count_eq_one_of_mem hnodup ((hmem i).2 hi)
  · rw [(buildHierarchy_summary issues).1, hperm.length_eq]

/-- C37, on the scenario of `TestExporter_BuildHierarchy`: the flattening is 100, its
child 101, then 200. -/
theorem buildHierarchy_every_issue_once_witness :
    (buildHierarchy scenarioIssues).flatten 3 = .ok scenarioIssues ∧
      ∃ l, (buildHierarchy scenarioIssues).flatten 3 = .ok l ∧ l.Perm scenarioIssues ∧
        (l.length : Int) = (buildHierarchy scenarioIssues).summary.Total := by
  refine ⟨rfl, ?_⟩
  obtain ⟨l, hfuel, hperm, -, hlen⟩ :=
    buildHierarchy_every_issue_once scenarioIssues (by decide) scenarioIssues_parentAcyclic
  exact ⟨l, hfuel 3 (Nat.le_refl 3), hperm, hlen⟩

/-! ## The returned forest has no cycle -/

theorem ancestor_cycle_mul (issues : List Issue) (j : Nat) (c : Issue)
    (h : ancestor issues (j + 1) c = some c) (n : Nat) :
    ancestor issues (n * (j + 1)) c = some c := by
  induction n with
  | zero => simp [ancestor]
  | succ n ih =>
    rw [Nat.succ_mul, ancestor_add, ih]
    exact h

theorem root_issue (issues : List Issue) (hnd : (issueIDs issues).Nodup) (r : Ptr)
    (hr : r ∈ (buildHierarchy issues).roots) :
    ∃ R, R ∈ issues ∧ (buildHierarchy issues).heap.issueAt r = some R ∧
      parentOf issues R = none := by
  rw [buildHierarchy_roots_eq, List.mem_map] at hr
  obtain ⟨R, hR, rfl⟩ := hr
  rw [List.mem_filter] at hR
  refine ⟨R, hR.1, issueAt_index issues hnd R hR.1, ?_⟩
  rw [parentOf_eq_none]
  simpa using hR.2

theorem forest_no_cycle (issues : List Issue) (hnd : (issueIDs issues).Nodup) (p : Ptr)
    (hp : (buildHierarchy issues).inForest p) :
    ¬ Relation.TransGen (buildHierarchy issues).heap.childEdge p p := by
  intro hcyc
  obtain ⟨r, hr, hrp⟩ := hp
  obtain ⟨R, _, hRat, hRpar⟩ := root_issue issues hnd r hr
  obtain ⟨P, c, j, h1, h2, _, hself⟩ := transGen_childEdge_ancestor issues hnd p p hcyc
  rw [h1] at h2
  cases h2
  obtain ⟨R', c', k, h3, h4, _, hup⟩ := transGen_childEdge_ancestor issues hnd r p
    (Relation.TransGen.trans_right hrp hcyc)
  rw [hRat] at h3
  cases h3
  rw [h1] at h4
  cases h4
  have hmul := ancestor_cycle_mul issues j P hself (k + 2)
  have hle : k + 1 ≤ (k + 2) * (j + 1) := by nlinarith
  have hbetween := ancestor_between issues (k + 1) ((k + 2) * (j + 1)) hle P R P hup hmul
  obtain ⟨m, hm⟩ : ∃ m, (k + 2) * (j + 1) - (k + 1) = m + 1 :=
    ⟨(k + 2) * (j + 1) - (k + 1) - 1, by
      have : k + 2 ≤ (k + 2) * (j + 1) := Nat.le_mul_of_pos_right _ (Nat.succ_pos j)
      omega⟩
  rw [hm, ancestor, hRpar] at hbetween
  cases hbetween

/-- C5: when the ids of the issues are pairwise distinct, the forest returned by
`buildHierarchy` (the returned roots and every node reached from them through
`Children` links) has no cycle: no node of the forest is reached from itself through
one or more `Children` links, and no node of the forest is in its own `Children`
slice. -/
theorem buildHierarchy_forest_acyclic (issues : List Issue)
    (hnd : (issueIDs issues).Nodup) :
    ∀ p, (buildHierarchy issues).inForest p →
      ¬ Relation.TransGen (buildHierarchy issues).heap.childEdge p p ∧
        ¬ (buildHierarchy issues).heap.childEdge p p :=
  fun p hp =>
    ⟨forest_no_cycle issues hnd p hp,
      fun he => forest_no_cycle issues hnd p hp (Relation.TransGen.single he)⟩

/-- C5, on the scenario of the test: the node of the child 101 is in the returned
forest, below the root 100, and is neither reached from itself nor its own child. -/
theorem buildHierarchy_forest_acyclic_witness :
    (issueIDs scenarioIssues).Nodup ∧
      (buildHierarchy scenarioIssues).roots = [some 0, some 2] ∧
      (buildHierarchy scenarioIssues).heap.childEdge (some 0) (some 1) ∧
      ¬ Relation.TransGen (buildHierarchy scenarioIssues).heap.childEdge (some 1) (some 1) ∧
      ¬ (buildHierarchy scenarioIssues).heap.childEdge (some 1) (some 1) :=
  have hedge : (buildHierarchy scenarioIssues).heap.childEdge (some 0) (some 1) := by
    unfold Heap.childEdge
    decide
  ⟨by decide, by decide, hedge,
    buildHierarchy_forest_acyclic scenarioIssues (by decide) (some 1)
      ⟨some 0, by decide, Relation.ReflTransGen.single hedge⟩⟩

end BacklogExporter
